import Mathlib

/-!
# Pvdify: a shallow embedding of the daemon's state store and handlers

The daemon `pvdifyd` keeps its state in a relational store (SQLite) with the
tables `apps`, `releases`, `config_vars`, `processes` and `domains`
(`internal/db/migrations.go`).  The HTTP handlers of `internal/api` read and
write that store through the methods of `internal/db`.

Embedding conventions.

* A table is the list of its rows in insertion order; an `INSERT` appends.
* Go `int` and SQL `INTEGER` are `Int`.  Release and config versions are
  counters that start at 1 and grow by one per request, out of reach of the
  64-bit bound.  A bound port can sit at that bound (the pool comes from the
  configuration file), so the `+ 1` of `AllocatePort` wraps as a Go `int` does.
* A handler is a function from the store and the decoded request to the new
  store and the response (status code with a body, or an error message).
  A body that fails to decode is `none`.
* A database method fails only through a constraint of the schema (primary
  key, `UNIQUE`, `FOREIGN KEY`); failures of the storage medium are not
  modelled.  Whether the connection enforces `FOREIGN KEY` clauses is decided
  where the connection is opened; it is the field `foreignKeys` of the store.
* Surrogate row ids and the `created_at` / `updated_at` timestamps are left out.
* The column `apps.bind_port` is nullable and `AllocatePort` filters on it, so
  it is an `Option Int`; the other nullable columns are only ever written with
  the Go zero value and read back with `NULL` as the zero value, so they carry
  the Go value.
* The stored config payload (`[]byte`) has an arbitrary type `β`; the YAML
  encoder and decoder (an external library) are parameters.
* A Go map in a request is the list of its entries in the order the `range`
  loop visits them; that order is not fixed by the language, so a statement
  for every list covers every order.
* The tunnel configuration file is the bytes `yaml.Marshal` produced, `none`
  when the file does not exist; the YAML encoder and decoder of the
  configuration are parameters, and failures of the file system are not
  modelled.
* The process supervisor is outside the daemon; the state of the host is the
  store together with the list of supervised unit instances.
* The clients of the container runtime and of the supervisor
  (`internal/podman`, `internal/systemd`) are functions of what the external
  call yields: the status code of the HTTP response, the error and output of
  the command run, the text printed by `systemctl`.
* The CLI command `config:set` is followed from its arguments through the
  request body to the handler of the daemon.
* Requests served at the same time interleave between store statements; each
  statement is atomic.
-/

namespace Pvdify

/-! ## models -/

abbrev ReleaseStatus := String

abbrev ReleaseStatusPending : ReleaseStatus := "pending"
abbrev ReleaseStatusDeploying : ReleaseStatus := "deploying"
abbrev ReleaseStatusActive : ReleaseStatus := "active"
abbrev ReleaseStatusRolledBack : ReleaseStatus := "rolled_back"
abbrev ReleaseStatusFailed : ReleaseStatus := "failed"

/-- Release of `models/release.go`; also the row of table `releases`. -/
structure Release where
  AppName : String
  Version : Int
  Image : String
  ConfigVersion : Int
  Status : ReleaseStatus
  CreatedBy : String
deriving DecidableEq, Repr

/-- CreateReleaseRequest of `models/release.go`. -/
structure CreateReleaseRequest where
  Image : String
  CreatedBy : String
deriving DecidableEq, Repr

/-- RollbackRequest of `models/release.go`; `Version` is 0 when omitted. -/
structure RollbackRequest where
  Version : Int
deriving DecidableEq, Repr

abbrev AppStatus := String

abbrev AppStatusCreated : AppStatus := "created"

/-- App of `models/app.go` (the Go value handed to and returned by the store). -/
structure App where
  Name : String
  Environment : String
  Status : AppStatus
  Image : String
  BindPort : Int
deriving DecidableEq, Repr

/-- Row of table `apps`; `bind_port` may be `NULL`. -/
structure AppRow where
  name : String
  environment : String
  status : AppStatus
  image : String
  bind_port : Option Int
deriving DecidableEq, Repr

/-- CreateAppRequest of `models/app.go`. -/
structure CreateAppRequest where
  Name : String
  Environment : String
deriving DecidableEq, Repr

/-- ConfigVar of `models/config.go`; also the row of table `config_vars`. -/
structure ConfigVar (β : Type) where
  AppName : String
  Version : Int
  Data : β
deriving DecidableEq, Repr

/-- Process of `models/process.go`; also the row of table `processes`. -/
structure Process where
  AppName : String
  Name : String
  Command : String
  Count : Int
deriving DecidableEq, Repr

/-- Domain of `models/domain.go`; also the row of table `domains`. -/
structure Domain where
  Domain : String
  AppName : String
  Status : String
  CFRecordID : String
deriving DecidableEq, Repr

/-- PortConfig of `config/config.go`. -/
structure PortConfig where
  Start : Int
  End : Int
deriving DecidableEq, Repr

/-- State of the relational store: one list of rows per table. -/
structure Store (β : Type) where
  foreignKeys : Bool := true
  apps : List AppRow := []
  releases : List Release := []
  config_vars : List (ConfigVar β) := []
  processes : List Process := []
  domains : List Domain := []
deriving DecidableEq, Repr

/-- What a handler writes: `s.json(w, code, body)` or `s.error(w, code, message)`;
`noContent` is a bare `w.WriteHeader(code)`. -/
inductive Response (α : Type) where
  | json (code : Nat) (body : α)
  | error (code : Nat) (message : String)
  | noContent (code : Nat)
deriving DecidableEq, Repr

/-! ## SQL helpers -/

/-- SQL `MAX(col)` over the selected rows: `NULL` (`none`) when there is no row. -/
def sqlMax : List Int → Option Int
  | [] => none
  | x :: xs =>
    match sqlMax xs with
    | none => some x
    | some m => some (max x m)

/-- Order of `ORDER BY version DESC` on releases. -/
def releaseDesc (a b : Release) : Prop := b.Version ≤ a.Version

instance : DecidableRel releaseDesc :=
  fun a b => inferInstanceAs (Decidable (b.Version ≤ a.Version))

/-- Order of `ORDER BY version DESC` on config snapshots. -/
def configDesc {β : Type} (a b : ConfigVar β) : Prop := b.Version ≤ a.Version

instance {β : Type} : DecidableRel (configDesc : ConfigVar β → ConfigVar β → Prop) :=
  fun a b => inferInstanceAs (Decidable (b.Version ≤ a.Version))

instance : IsTotal Release releaseDesc :=
  ⟨fun a b => by unfold releaseDesc; exact le_total b.Version a.Version⟩

instance : IsTrans Release releaseDesc :=
  ⟨fun a b c hab hbc => by unfold releaseDesc at *; exact le_trans hbc hab⟩

instance {β : Type} : IsTotal (ConfigVar β) configDesc :=
  ⟨fun a b => by unfold configDesc; exact le_total b.Version a.Version⟩

instance {β : Type} : IsTrans (ConfigVar β) configDesc :=
  ⟨fun a b c hab hbc => by unfold configDesc at *; exact le_trans hbc hab⟩

/-- Rows of `releases` with `app_name = ?`. -/
def releasesOf {β : Type} (s : Store β) (appName : String) : List Release :=
  s.releases.filter (fun r => r.AppName = appName)

/-- Rows of `config_vars` with `app_name = ?`. -/
def configsOf {β : Type} (s : Store β) (appName : String) : List (ConfigVar β) :=
  s.config_vars.filter (fun c => c.AppName = appName)

/-! ## db/apps.go -/

/-- Scan of an `apps` row into the Go struct: a `NULL` port reads as 0. -/
def AppRow.toApp (r : AppRow) : App :=
  { Name := r.name, Environment := r.environment, Status := r.status,
    Image := r.image, BindPort := r.bind_port.getD 0 }

/-- GetApp: `SELECT .. FROM apps WHERE name = ?`; `none` is the nil result. -/
def GetApp {β : Type} (s : Store β) (name : String) : Option App :=
  (s.apps.find? (fun r => r.name = name)).map AppRow.toApp

/-- CreateApp: `INSERT INTO apps`; `name` is the primary key. -/
def CreateApp {β : Type} (s : Store β) (app : App) : Except String (Store β × App) :=
  let app := { app with
    Environment := if app.Environment = "" then "production" else app.Environment,
    Status := if app.Status = "" then AppStatusCreated else app.Status }
  if s.apps.any (fun r => r.name = app.Name) then
    .error "insert app: UNIQUE constraint failed: apps.name"
  else
    .ok ({ s with apps := s.apps ++ [{ name := app.Name, environment := app.Environment,
                                        status := app.Status, image := app.Image,
                                        bind_port := some app.BindPort }] }, app)

/-- UpdateApp: `UPDATE apps SET .. WHERE name = ?`; a nil pointer argument
(`none`) leaves its column alone. -/
def UpdateApp {β : Type} (s : Store β) (name : String) (image : Option String)
    (status : Option AppStatus) (bindPort : Option Int) : Store β :=
  { s with apps := s.apps.map (fun r =>
      if r.name = name then
        { r with image := image.getD r.image,
                 status := status.getD r.status,
                 bind_port := match bindPort with
                   | some p => some p
                   | none => r.bind_port }
      else r) }

/-- DeleteApp: `DELETE FROM apps WHERE name = ?`, an error when no row was
affected.  With foreign keys enforced the `ON DELETE CASCADE` clauses remove
the rows of the other tables that reference the app. -/
def DeleteApp {β : Type} (s : Store β) (name : String) : Except String (Store β) :=
  if s.apps.any (fun r => r.name = name) then
    if s.foreignKeys then
      .ok { s with
        apps := s.apps.filter (fun r => r.name ≠ name),
        releases := s.releases.filter (fun r => r.AppName ≠ name),
        config_vars := s.config_vars.filter (fun c => c.AppName ≠ name),
        processes := s.processes.filter (fun p => p.AppName ≠ name),
        domains := s.domains.filter (fun d => d.AppName ≠ name) }
    else
      .ok { s with apps := s.apps.filter (fun r => r.name ≠ name) }
  else
    .error ("app not found: " ++ name)

/-- The largest value of a Go `int` (64 bits). -/
abbrev MaxInt64 : Int := 9223372036854775807

/-- The smallest value of a Go `int` (64 bits). -/
abbrev MinInt64 : Int := -9223372036854775808

/-- The Go `int` that holds the result `x` of an addition: `x` reduced modulo
2^64 into [MinInt64, MaxInt64]. -/
def wrapInt64 (x : Int) : Int :=
  (x + 9223372036854775808) % 18446744073709551616 - 9223372036854775808

/-- AllocatePort: `SELECT MAX(bind_port) FROM apps WHERE bind_port IS NOT NULL`,
then the next port after it (an addition on a Go `int`), or `startPort`. -/
def AllocatePort {β : Type} (s : Store β) (startPort endPort : Int) : Except String Int :=
  let maxPort := sqlMax (s.apps.filterMap (fun r => r.bind_port))
  let nextPort :=
    match maxPort with
    | some m => if m ≥ startPort then wrapInt64 (m + 1) else startPort
    | none => startPort
  if nextPort > endPort then
    .error ("no ports available in range " ++ toString startPort ++ "-" ++ toString endPort)
  else
    .ok nextPort

/-! ## db/processes.go -/

/-- UpsertProcess: `INSERT INTO processes .. ON CONFLICT(app_name, name) DO UPDATE`. -/
def UpsertProcess {β : Type} (s : Store β) (process : Process) : Except String (Store β) :=
  if s.processes.any (fun p => p.AppName = process.AppName ∧ p.Name = process.Name) then
    .ok { s with processes := s.processes.map (fun p =>
      if p.AppName = process.AppName ∧ p.Name = process.Name then
        { p with Command := process.Command, Count := process.Count }
      else p) }
  else if s.foreignKeys ∧ ¬ s.apps.any (fun r => r.name = process.AppName) then
    .error "upsert process: FOREIGN KEY constraint failed"
  else
    .ok { s with processes := s.processes ++ [process] }

/-! ## db/config.go -/

/-- GetLatestConfig: `.. WHERE app_name = ? ORDER BY version DESC LIMIT 1`. -/
def GetLatestConfig {β : Type} (s : Store β) (appName : String) : Option (ConfigVar β) :=
  ((configsOf s appName).insertionSort configDesc).head?

/-- GetConfigVersion: `.. WHERE app_name = ? AND version = ?`. -/
def GetConfigVersion {β : Type} (s : Store β) (appName : String) (version : Int) :
    Option (ConfigVar β) :=
  s.config_vars.find? (fun c => c.AppName = appName ∧ c.Version = version)

/-- CreateConfigVersion: next version is `MAX(version) + 1`, or 1; then the insert. -/
def CreateConfigVersion {β : Type} (s : Store β) (appName : String) (data : β) :
    Except String (Store β × ConfigVar β) :=
  let maxVersion := sqlMax ((configsOf s appName).map (fun c => c.Version))
  let version : Int :=
    match maxVersion with
    | some m => m + 1
    | none => 1
  if s.config_vars.any (fun c => c.AppName = appName ∧ c.Version = version) then
    .error "insert config: UNIQUE constraint failed"
  else if s.foreignKeys ∧ ¬ s.apps.any (fun r => r.name = appName) then
    .error "insert config: FOREIGN KEY constraint failed"
  else
    let cfg : ConfigVar β := { AppName := appName, Version := version, Data := data }
    .ok ({ s with config_vars := s.config_vars ++ [cfg] }, cfg)

/-! ## db/releases.go -/

/-- CreateRelease: next version is `MAX(version) + 1` over the app's releases,
or 1; an empty status becomes pending; then the insert. -/
def CreateRelease {β : Type} (s : Store β) (release : Release) :
    Except String (Store β × Release) :=
  let maxVersion := sqlMax ((releasesOf s release.AppName).map (fun r => r.Version))
  let version : Int :=
    match maxVersion with
    | some m => m + 1
    | none => 1
  let release := { release with
    Version := version,
    Status := if release.Status = "" then ReleaseStatusPending else release.Status }
  if s.releases.any (fun r => r.AppName = release.AppName ∧ r.Version = release.Version) then
    .error "insert release: UNIQUE constraint failed"
  else if s.foreignKeys ∧ ¬ s.apps.any (fun r => r.name = release.AppName) then
    .error "insert release: FOREIGN KEY constraint failed"
  else
    .ok ({ s with releases := s.releases ++ [release] }, release)

/-- GetRelease: `.. WHERE app_name = ? AND version = ?`; `none` is the nil result. -/
def GetRelease {β : Type} (s : Store β) (appName : String) (version : Int) : Option Release :=
  s.releases.find? (fun r => r.AppName = appName ∧ r.Version = version)

/-- GetLatestRelease: `.. WHERE app_name = ? ORDER BY version DESC LIMIT 1`. -/
def GetLatestRelease {β : Type} (s : Store β) (appName : String) : Option Release :=
  ((releasesOf s appName).insertionSort releaseDesc).head?

/-- GetActiveRelease:
`.. WHERE app_name = ? AND status = 'active' ORDER BY version DESC LIMIT 1`. -/
def GetActiveRelease {β : Type} (s : Store β) (appName : String) : Option Release :=
  (((releasesOf s appName).filter (fun r => r.Status = "active")).insertionSort releaseDesc).head?

/-- ListReleases: `.. WHERE app_name = ? ORDER BY version DESC LIMIT ?`, with
the limit replaced by 20 when it is not positive. -/
def ListReleases {β : Type} (s : Store β) (appName : String) (limit : Int) : List Release :=
  let limit := if limit ≤ 0 then 20 else limit
  ((releasesOf s appName).insertionSort releaseDesc).take limit.toNat

/-- UpdateReleaseStatus: `UPDATE releases SET status = ? WHERE app_name = ? AND version = ?`. -/
def UpdateReleaseStatus {β : Type} (s : Store β) (appName : String) (version : Int)
    (status : ReleaseStatus) : Store β :=
  { s with releases := s.releases.map (fun r =>
      if r.AppName = appName ∧ r.Version = version then { r with Status := status } else r) }

/-! ## api/handlers_releases.go -/

/-- handleCreateRelease (deploy): the app must exist, the body must decode and
name an image; the release records the latest config version; the app row
gets the new image. -/
def handleCreateRelease {β : Type} (s : Store β) (name : String)
    (body : Option CreateReleaseRequest) : Store β × Response Release :=
  match GetApp s name with
  | none => (s, .error 404 "app not found")
  | some _ =>
    match body with
    | none => (s, .error 400 "invalid request body")
    | some req =>
      if req.Image = "" then (s, .error 400 "image is required")
      else
        let configVersion : Int :=
          match GetLatestConfig s name with
          | some cfg => cfg.Version
          | none => 0
        let release : Release :=
          { AppName := name, Version := 0, Image := req.Image, ConfigVersion := configVersion,
            Status := ReleaseStatusPending, CreatedBy := req.CreatedBy }
        match CreateRelease s release with
        | .error _ => (s, .error 500 "failed to create release")
        | .ok (s1, release) =>
          (UpdateApp s1 name (some req.Image) none none, .json 201 release)

/-- handleRollback: the target is the named version when it is positive,
otherwise the second row of `ListReleases(name, 2)`; the new release copies the
target image and config version. -/
def handleRollback {β : Type} (s : Store β) (name : String) (req : RollbackRequest) :
    Store β × Response Release :=
  match GetApp s name with
  | none => (s, .error 404 "app not found")
  | some _ =>
    let target : Option Release :=
      if req.Version > 0 then GetRelease s name req.Version
      else
        let releases := ListReleases s name 2
        if releases.length ≥ 2 then releases.get? 1 else none
    match target with
    | none => (s, .error 400 "no release to rollback to")
    | some target =>
      let release : Release :=
        { AppName := name, Version := 0, Image := target.Image,
          ConfigVersion := target.ConfigVersion, Status := ReleaseStatusPending,
          CreatedBy := "rollback" }
      match CreateRelease s release with
      | .error _ => (s, .error 500 "failed to create rollback")
      | .ok (s1, release) => (s1, .json 201 release)

/-! ## api/handlers_apps.go -/

/-- handleCreateApp: decode, require a name, refuse an existing name, allocate
a port, insert the app, then upsert the default `web` process (an error of the
upsert is only logged). -/
def handleCreateApp {β : Type} (cfg : PortConfig) (s : Store β)
    (body : Option CreateAppRequest) : Store β × Response App :=
  match body with
  | none => (s, .error 400 "invalid request body")
  | some req =>
    if req.Name = "" then (s, .error 400 "name is required")
    else
      match GetApp s req.Name with
      | some _ => (s, .error 409 "app already exists")
      | none =>
        match AllocatePort s cfg.Start cfg.End with
        | .error _ => (s, .error 500 "failed to allocate port")
        | .ok port =>
          let app : App :=
            { Name := req.Name,
              Environment := if req.Environment = "" then "production" else req.Environment,
              Status := AppStatusCreated, Image := "", BindPort := port }
          match CreateApp s app with
          | .error _ => (s, .error 500 "failed to create app")
          | .ok (s1, app) =>
            let process : Process := { AppName := app.Name, Name := "web", Command := "", Count := 1 }
            match UpsertProcess s1 process with
            | .error _ => (s1, .json 201 app)
            | .ok s2 => (s2, .json 201 app)

/-- handleDeleteApp: 404 when the app is missing, otherwise delete it. -/
def handleDeleteApp {β : Type} (s : Store β) (name : String) : Store β × Response Unit :=
  match GetApp s name with
  | none => (s, .error 404 "app not found")
  | some _ =>
    match DeleteApp s name with
    | .error _ => (s, .error 500 "failed to delete app")
    | .ok s1 => (s1, .noContent 204)

/-! ## Example stores -/

/-- The default port pool of `config.Default`. -/
def defaultPorts : PortConfig := { Start := 3000, End := 3999 }

/-- An app `web` created in an empty store and deployed twice (images A, B). -/
def twoReleases : Store Unit :=
  let s0 : Store Unit := {}
  let s1 := (handleCreateApp defaultPorts s0 (some { Name := "web", Environment := "" })).1
  let s2 := (handleCreateRelease s1 "web" (some { Image := "A", CreatedBy := "ci" })).1
  (handleCreateRelease s2 "web" (some { Image := "B", CreatedBy := "ci" })).1

/-- The store `twoReleases` after release 1 was marked active. -/
def firstActive : Store Unit :=
  UpdateReleaseStatus twoReleases "web" 1 ReleaseStatusActive

/-! ## Schema invariants -/

/-- The constraint `UNIQUE(app_name, version)` of table `releases`. -/
def Store.uniqueReleases {β : Type} (s : Store β) : Prop :=
  (s.releases.map (fun r => (r.AppName, r.Version))).Nodup

instance {β : Type} (s : Store β) : Decidable s.uniqueReleases :=
  inferInstanceAs (Decidable (List.Nodup _))

/-- The constraint `UNIQUE(app_name, version)` of table `config_vars`. -/
def Store.uniqueConfigs {β : Type} (s : Store β) : Prop :=
  (s.config_vars.map (fun c => (c.AppName, c.Version))).Nodup

instance {β : Type} (s : Store β) : Decidable s.uniqueConfigs :=
  inferInstanceAs (Decidable (List.Nodup _))

/-- The foreign key of a dependent row can be satisfied for `appName`: either
foreign keys are not enforced or the app row exists. -/
def Store.fkOk {β : Type} (s : Store β) (appName : String) : Prop :=
  s.foreignKeys = true → (GetApp s appName).isSome = true

instance {β : Type} (s : Store β) (appName : String) : Decidable (s.fkOk appName) :=
  inferInstanceAs (Decidable (_ → _))

/-- An app `web` created in an empty store and deployed once (image A). -/
def oneRelease : Store Unit :=
  let s0 : Store Unit := {}
  let s1 := (handleCreateApp defaultPorts s0 (some { Name := "web", Environment := "" })).1
  (handleCreateRelease s1 "web" (some { Image := "A", CreatedBy := "ci" })).1

/-! ## Operation sequences -/

/-- An operator request: app creation and deletion, deploy, rollback, and a
status update of a release. -/
inductive Op where
  | createApp (body : Option CreateAppRequest)
  | deleteApp (name : String)
  | deploy (name : String) (body : Option CreateReleaseRequest)
  | rollback (name : String) (req : RollbackRequest)
  | setStatus (name : String) (version : Int) (status : ReleaseStatus)
deriving DecidableEq, Repr

/-- The store after one request is served. -/
def step {β : Type} (cfg : PortConfig) (s : Store β) : Op → Store β
  | .createApp body => (handleCreateApp cfg s body).1
  | .deleteApp name => (handleDeleteApp s name).1
  | .deploy name body => (handleCreateRelease s name body).1
  | .rollback name req => (handleRollback s name req).1
  | .setStatus name version status => UpdateReleaseStatus s name version status

/-- The store after a sequence of requests, served one after another. -/
def run {β : Type} (cfg : PortConfig) (s : Store β) (ops : List Op) : Store β :=
  ops.foldl (step cfg) s

/-- The store right after the migrations: every table empty. -/
def emptyStore (β : Type) (fk : Bool) : Store β := { foreignKeys := fk }

/-- The release versions of an app, in insertion order. -/
def versionsOf {β : Type} (s : Store β) (appName : String) : List Int :=
  (releasesOf s appName).map (fun r => r.Version)

/-- The release versions of every app are 1, 2, .., n in insertion order. -/
def Store.gapless {β : Type} (s : Store β) : Prop :=
  ∀ a, versionsOf s a = (List.range (versionsOf s a).length).map (fun (i : Nat) => (i : Int) + 1)

/-! ## Ports -/

/-- The non-null `bind_port` values of table `apps`. -/
def assignedPorts {β : Type} (s : Store β) : List Int :=
  s.apps.filterMap (fun r => r.bind_port)

/-- The port allocator as the specification words it: the maximum assigned
port lying in [start, end] plus one, or start when no assigned port lies in
the range; a result above end is a failure (`none`). -/
def allocateSpec (assigned : List Int) (startPort endPort : Int) : Option Int :=
  let p : Int :=
    match sqlMax (assigned.filter (fun x => startPort ≤ x ∧ x ≤ endPort)) with
    | some m => m + 1
    | none => startPort
  if p ≤ endPort then some p else none

/-- A store whose only app was created while the pool was [5000, 5999]. -/
def highPortStore : Store Unit :=
  (handleCreateApp { Start := 5000, End := 5999 } {} (some { Name := "old", Environment := "" })).1

/-- The pool of one port. -/
def singlePort : PortConfig := { Start := 3000, End := 3000 }

/-- The bound ports are 64-bit integers below the largest one. -/
def Store.portsBelowMax {β : Type} (s : Store β) : Prop :=
  ∀ x ∈ assignedPorts s, MinInt64 ≤ x ∧ x < MaxInt64

instance {β : Type} (s : Store β) : Decidable s.portsBelowMax :=
  inferInstanceAs (Decidable (∀ x ∈ _, _))

/-- The store after one app was created in the pool [3000, 3000]. -/
def fullPool : Store Unit :=
  (handleCreateApp singlePort {} (some { Name := "first", Environment := "" })).1

/-- Apps `a` and `b` created in the default pool, then `b` deleted. -/
def afterDelete : Store Unit :=
  run defaultPorts (emptyStore Unit true)
    [.createApp (some { Name := "a", Environment := "" }),
     .createApp (some { Name := "b", Environment := "" }),
     .deleteApp "b"]

/-! ## Config snapshots -/

/-- ConfigData of `models/config.go`: a Go `map[string]string`, as the list of
its key/value pairs. -/
abbrev ConfigData := List (String × String)

/-- The map read `m[k]`: the value and whether the key is present. -/
def configGet (m : ConfigData) (k : String) : Option String :=
  (m.find? (fun kv => kv.1 = k)).map (fun kv => kv.2)

/-- The map assignment `m[k] = v`. -/
def configSet (m : ConfigData) (k v : String) : ConfigData :=
  (k, v) :: m.filter (fun kv => kv.1 ≠ k)

/-- The map deletion `delete(m, k)`. -/
def configDelete (m : ConfigData) (k : String) : ConfigData :=
  m.filter (fun kv => kv.1 ≠ k)

/-- A list of pairs is a map when no key occurs twice. -/
def isMap (m : ConfigData) : Prop := (m.map (fun kv => kv.1)).Nodup

instance (m : ConfigData) : Decidable (isMap m) :=
  inferInstanceAs (Decidable (List.Nodup _))

/-- SetConfigRequest of `models/config.go`; a missing `vars` is the empty map. -/
structure SetConfigRequest where
  Vars : ConfigData
deriving DecidableEq, Repr

/-- The JSON object `{"version": .., "vars": ..}` the config handlers answer. -/
structure ConfigResponse where
  version : Int
  vars : ConfigData
deriving DecidableEq, Repr

/-- The YAML library used for the stored payload: `marshal` is `yaml.Marshal`
on a `ConfigData` (`none` is an error), `unmarshal` is `yaml.Unmarshal` into an
empty `ConfigData`, giving the decoded map and whether decoding succeeded. -/
structure YamlCodec (β : Type) where
  marshal : ConfigData → Option β
  unmarshal : β → ConfigData × Bool

/-- The codec encodes every map and decodes what it encoded to the same keys
and values. -/
def YamlCodec.lawful {β : Type} (codec : YamlCodec β) : Prop :=
  ∀ m : ConfigData, ∃ d, codec.marshal m = some d ∧
    ∀ d2, codec.marshal m = some d2 →
      (codec.unmarshal d2).2 = true ∧
      ∀ k, configGet (codec.unmarshal d2).1 k = configGet m k

/-- A codec that stores the map itself. -/
def plainCodec : YamlCodec ConfigData :=
  { marshal := fun m => some m, unmarshal := fun d => (d, true) }

/-- The codec encodes the map `m` and decodes what it wrote to the same keys
and values. -/
def YamlCodec.roundTrips {β : Type} (codec : YamlCodec β) (m : ConfigData) : Prop :=
  ∃ d, codec.marshal m = some d ∧ (codec.unmarshal d).2 = true ∧
    ∀ k, configGet (codec.unmarshal d).1 k = configGet m k

/-- Every entry of the map `m` is one of the entries `allowed`. -/
def holdsOnly (allowed m : ConfigData) : Prop :=
  ∀ k v, configGet m k = some v → (k, v) ∈ allowed

/-- A codec standing for the YAML library in examples: the payload is the map
as written, and, as with the library, a document with the key `<<` (the YAML
merge key) and a plain string as its value is rejected by the decoder. -/
def mergeKeyCodec : YamlCodec ConfigData :=
  { marshal := fun m => some m,
    unmarshal := fun d => if d.any (fun kv => kv.1 = "<<") then ([], false) else (d, true) }

/-- handleGetConfig: version 0 and no vars when the app has no snapshot,
otherwise the latest version and its decoded map. -/
def handleGetConfig {β : Type} (codec : YamlCodec β) (s : Store β) (name : String) :
    Response ConfigResponse :=
  match GetApp s name with
  | none => .error 404 "app not found"
  | some _ =>
    match GetLatestConfig s name with
    | none => .json 200 { version := 0, vars := [] }
    | some cfg =>
      match codec.unmarshal cfg.Data with
      | (_, false) => .error 500 "failed to parse config"
      | (vars, true) => .json 200 { version := cfg.Version, vars := vars }

/-- handleSetConfig: decode the latest snapshot (or start from the empty map),
assign every key of the request, serialise, and insert a new config version. -/
def handleSetConfig {β : Type} (codec : YamlCodec β) (s : Store β) (name : String)
    (body : Option SetConfigRequest) : Store β × Response ConfigResponse :=
  match GetApp s name with
  | none => (s, .error 404 "app not found")
  | some _ =>
    match body with
    | none => (s, .error 400 "invalid request body")
    | some req =>
      let currentVars : ConfigData :=
        match GetLatestConfig s name with
        | some currentCfg => (codec.unmarshal currentCfg.Data).1
        | none => []
      let currentVars : ConfigData :=
        req.Vars.foldl (fun vars kv => configSet vars kv.1 kv.2) currentVars
      match codec.marshal currentVars with
      | none => (s, .error 500 "failed to serialize config")
      | some data =>
        match CreateConfigVersion s name data with
        | .error _ => (s, .error 500 "failed to save config")
        | .ok (s1, cfg) => (s1, .json 200 { version := cfg.Version, vars := currentVars })

/-- An app `web` with no config snapshot. -/
def freshApp : Store ConfigData :=
  (handleCreateApp defaultPorts {} (some { Name := "web", Environment := "" })).1

/-- handleUnsetConfig: decode the latest snapshot (or start from the empty
map); 404 when the key is not in it; otherwise delete the key, serialise and
insert a new config version.  The error of `yaml.Marshal` is dropped by the
handler: `nilData` is the nil byte slice it then stores. -/
def handleUnsetConfig {β : Type} (codec : YamlCodec β) (nilData : β) (s : Store β)
    (name key : String) : Store β × Response Unit :=
  match GetApp s name with
  | none => (s, .error 404 "app not found")
  | some _ =>
    let currentVars : ConfigData :=
      match GetLatestConfig s name with
      | some currentCfg => (codec.unmarshal currentCfg.Data).1
      | none => []
    match configGet currentVars key with
    | none => (s, .error 404 "config key not found")
    | some _ =>
      let currentVars : ConfigData := configDelete currentVars key
      let data : β := (codec.marshal currentVars).getD nilData
      match CreateConfigVersion s name data with
      | .error _ => (s, .error 500 "failed to save config")
      | .ok (s1, _) => (s1, .noContent 204)

/-! ## Processes -/

/-- ProcessStatus of `models/process.go`. -/
structure ProcessStatus where
  Name : String
  Instance : Int
  State : String
  Container : String
  Uptime : String
deriving DecidableEq, Repr

/-- ScaleRequest of `models/process.go`: the Go `map[string]int`, as the list
of its entries in the order the `range` loop visits them. -/
structure ScaleRequest where
  Processes : List (String × Int)
deriving DecidableEq, Repr

/-- The JSON object `{"definitions": .., "instances": ..}` of handleListProcesses. -/
structure ProcessListResponse where
  definitions : List Process
  instances : List ProcessStatus
deriving DecidableEq, Repr

/-- Order of `ORDER BY name` on processes (byte-wise comparison of the names). -/
def processAsc (a b : Process) : Prop := a.Name.toList ≤ b.Name.toList

instance : DecidableRel processAsc :=
  fun a b => inferInstanceAs (Decidable (a.Name.toList ≤ b.Name.toList))

/-- GetProcess: `.. FROM processes WHERE app_name = ? AND name = ?`. -/
def GetProcess {β : Type} (s : Store β) (appName name : String) : Option Process :=
  s.processes.find? (fun p => p.AppName = appName ∧ p.Name = name)

/-- ListProcesses: `.. FROM processes WHERE app_name = ? ORDER BY name`. -/
def ListProcesses {β : Type} (s : Store β) (appName : String) : List Process :=
  (s.processes.filter (fun p => p.AppName = appName)).insertionSort processAsc

/-- ScaleProcess: `UPDATE processes SET count = ? WHERE app_name = ? AND name = ?`;
when no row was affected, an upsert of a new process without command. -/
def ScaleProcess {β : Type} (s : Store β) (appName name : String) (count : Int) :
    Except String (Store β) :=
  if s.processes.any (fun p => p.AppName = appName ∧ p.Name = name) then
    .ok { s with processes := s.processes.map (fun p =>
      if p.AppName = appName ∧ p.Name = name then { p with Count := count } else p) }
  else
    UpsertProcess s { AppName := appName, Name := name, Command := "", Count := count }

/-- The `range req.Processes` loop of handleScale, from the entries not yet
visited: a negative count answers 400, a failed ScaleProcess 500, and the end
of the loop 200 with the process list. -/
def scaleLoop {β : Type} (s : Store β) (name : String) :
    List (String × Int) → Store β × Response (List Process)
  | [] => (s, .json 200 (ListProcesses s name))
  | (procName, count) :: rest =>
    if count < 0 then (s, .error 400 "count must be non-negative")
    else
      match ScaleProcess s name procName count with
      | .error _ => (s, .error 500 "failed to scale process")
      | .ok s1 => scaleLoop s1 name rest

/-- handleScale: the app must exist, the body must decode and name at least
one process; then the loop over the requested counts. -/
def handleScale {β : Type} (s : Store β) (name : String) (body : Option ScaleRequest) :
    Store β × Response (List Process) :=
  match GetApp s name with
  | none => (s, .error 404 "app not found")
  | some _ =>
    match body with
    | none => (s, .error 400 "invalid request body")
    | some req =>
      if req.Processes.length = 0 then (s, .error 400 "processes is required")
      else scaleLoop s name req.Processes

/-- The instances handleListProcesses derives from the definitions: for each
process the indices 1..Count, each in state "unknown". -/
def instancesOf (processes : List Process) : List ProcessStatus :=
  processes.flatMap (fun p =>
    (List.range p.Count.toNat).map (fun (i : Nat) =>
      { Name := p.Name, Instance := (i : Int) + 1, State := "unknown",
        Container := "", Uptime := "" }))

/-- handleListProcesses: the definitions of the app and the derived instances. -/
def handleListProcesses {β : Type} (s : Store β) (name : String) :
    Response ProcessListResponse :=
  match GetApp s name with
  | none => .error 404 "app not found"
  | some _ =>
    let processes := ListProcesses s name
    .json 200 { definitions := processes, instances := instancesOf processes }

/-- The constraint `UNIQUE(app_name, name)` of table `processes`. -/
def Store.uniqueProcesses {β : Type} (s : Store β) : Prop :=
  (s.processes.map (fun p => (p.AppName, p.Name))).Nodup

instance {β : Type} (s : Store β) : Decidable s.uniqueProcesses :=
  inferInstanceAs (Decidable (List.Nodup _))

/-- The app `web` after setConfig {X:1} and setConfig {Y:2}. -/
def xyConfig : Store ConfigData :=
  (handleSetConfig plainCodec
    (handleSetConfig plainCodec freshApp "web" (some { Vars := [("X", "1")] })).1
    "web" (some { Vars := [("Y", "2")] })).1

/-! ## The host: the store and the supervised units -/

/-- The state of the host a request runs on: the store of the daemon and the
unit instances (unit name, index) the process supervisor currently runs. -/
structure Host (β : Type) where
  store : Store β
  units : List (String × Int)
deriving DecidableEq, Repr

/-- A scale request served on the host.  The `Server` holds the router, the
database, the configuration and the logger, and no supervisor client; the
start and stop of units in handleScale is a `TODO`.  So the request changes
the store and leaves the supervised units as they are. -/
def Host.scale {β : Type} (h : Host β) (name : String) (body : Option ScaleRequest) :
    Host β × Response (List Process) :=
  ({ h with store := (handleScale h.store name body).1 }, (handleScale h.store name body).2)

/-- The host after scale {"web": 3} followed by scale {"web": 1} on `name`. -/
def Host.scaleThreeThenOne {β : Type} (h : Host β) (name : String) : Host β :=
  ((h.scale name (some { Processes := [("web", 3)] })).1.scale name
    (some { Processes := [("web", 1)] })).1

/-- The app `web` with nothing supervised. -/
def idleHost : Host ConfigData := { store := freshApp, units := [] }

/-- The app `web` with three instances of its web unit supervised. -/
def busyHost : Host ConfigData :=
  { store := freshApp,
    units := [("pvdify-web-web", 1), ("pvdify-web-web", 2), ("pvdify-web-web", 3)] }

/-! ## tunnel/config.go -/

namespace Tunnel

/-- IngressRule of `tunnel/config.go`; the catch-all rule has no hostname. -/
structure IngressRule where
  Hostname : String
  Service : String
deriving DecidableEq, Repr

/-- Config of `tunnel/config.go`. -/
structure Config where
  Tunnel : String
  CredentialsFile : String
  Ingress : List IngressRule
deriving DecidableEq, Repr

/-- Manager of `tunnel/config.go`. -/
structure Manager where
  configPath : String
  credentialsFile : String
  tunnelID : String
deriving DecidableEq, Repr

/-- The rule `IngressRule{Service: "http_status:404"}`. -/
def catchAll : IngressRule := { Hostname := "", Service := "http_status:404" }

/-- The service `fmt.Sprintf("http://localhost:%d", port)`. -/
def serviceURL (port : Int) : String := "http://localhost:" ++ toString port

/-- The YAML library on a tunnel configuration: `marshal` is
`yaml.Marshal(cfg)`, `unmarshal` is `yaml.Unmarshal(data, &cfg)` into an empty
Config; an error carries its text. -/
structure ConfigCodec (β : Type) where
  marshal : Config → Except String β
  unmarshal : β → Except String Config

/-- Load: parse the content of the config file (`none` when the file does not
exist); a missing file gives the configuration with only the catch-all rule. -/
def Manager.Load {β : Type} (codec : ConfigCodec β) (m : Manager) (file : Option β) :
    Except String Config :=
  match file with
  | none =>
    .ok { Tunnel := m.tunnelID, CredentialsFile := m.credentialsFile, Ingress := [catchAll] }
  | some data =>
    match codec.unmarshal data with
    | .error err => .error ("parse config: " ++ err)
    | .ok cfg => .ok cfg

/-- Save: serialise the configuration; the result is the bytes written to the
config file. -/
def Manager.Save {β : Type} (codec : ConfigCodec β) (_m : Manager) (cfg : Config) :
    Except String β :=
  match codec.marshal cfg with
  | .error err => .error ("marshal config: " ++ err)
  | .ok data => .ok data

/-- The first loop of AddRoute: the service of the first rule with the hostname
is replaced; `none` when the loop ends without a match. -/
def updateExisting : List IngressRule → String → String → Option (List IngressRule)
  | [], _, _ => none
  | rule :: rest, hostname, service =>
    if rule.Hostname = hostname then some ({ rule with Service := service } :: rest)
    else (updateExisting rest hostname service).map (fun updated => rule :: updated)

/-- The rule list AddRoute saves, from the rule list it loaded: the existing
rule updated, or the new rule inserted before the last rule, or the new rule
followed by a catch-all when there was no rule at all. -/
def ingressAfterAdd (rules : List IngressRule) (hostname : String) (port : Int) :
    List IngressRule :=
  match updateExisting rules hostname (serviceURL port) with
  | some updated => updated
  | none =>
    let newRule : IngressRule := { Hostname := hostname, Service := serviceURL port }
    if rules.length > 0 then
      rules.take (rules.length - 1) ++ ([newRule] ++ rules.drop (rules.length - 1))
    else
      [newRule, catchAll]

/-- The rule list RemoveRoute saves: the rules whose hostname differs. -/
def ingressAfterRemove (rules : List IngressRule) (hostname : String) : List IngressRule :=
  rules.filter (fun rule => rule.Hostname ≠ hostname)

/-- AddRoute: load, change the rule list, save.  The result is the config file
afterwards and the returned error (`none` is nil); a call that fails writes
nothing. -/
def Manager.AddRoute {β : Type} (codec : ConfigCodec β) (m : Manager) (file : Option β)
    (hostname : String) (port : Int) : Option β × Option String :=
  match m.Load codec file with
  | .error err => (file, some err)
  | .ok cfg =>
    match m.Save codec { cfg with Ingress := ingressAfterAdd cfg.Ingress hostname port } with
    | .error err => (file, some err)
    | .ok data => (some data, none)

/-- RemoveRoute: load, filter the rule list, save.  The result is the config
file afterwards and the returned error. -/
def Manager.RemoveRoute {β : Type} (codec : ConfigCodec β) (m : Manager) (file : Option β)
    (hostname : String) : Option β × Option String :=
  match m.Load codec file with
  | .error err => (file, some err)
  | .ok cfg =>
    match m.Save codec { cfg with Ingress := ingressAfterRemove cfg.Ingress hostname } with
    | .error err => (file, some err)
    | .ok data => (some data, none)

/-- ListRoutes: the rules with a hostname. -/
def Manager.ListRoutes {β : Type} (codec : ConfigCodec β) (m : Manager) (file : Option β) :
    Except String (List IngressRule) :=
  match m.Load codec file with
  | .error err => .error err
  | .ok cfg => .ok (cfg.Ingress.filter (fun rule => rule.Hostname ≠ ""))

/-- A codec standing for the YAML library in examples: the file holds the
configuration as written, and, as with the library, a file with a hostname that
begins with a line feed is not read back. -/
def lineCodec : ConfigCodec Config :=
  { marshal := fun cfg => .ok cfg,
    unmarshal := fun data =>
      if data.Ingress.any (fun rule => rule.Hostname.toList.head? = some '\n') then
        .error "yaml: cannot parse the document"
      else .ok data }

/-- A manager of the file `/etc/tunnel.yml`. -/
def sampleManager : Manager :=
  { configPath := "/etc/tunnel.yml", credentialsFile := "", tunnelID := "" }

/-- The configuration Load gives for a missing file. -/
def defaultConfig (m : Manager) : Config :=
  { Tunnel := m.tunnelID, CredentialsFile := m.credentialsFile, Ingress := [catchAll] }

end Tunnel

/-- The store `oneRelease` after release 1 was marked failed. -/
def failedRelease : Store Unit :=
  UpdateReleaseStatus oneRelease "web" 1 ReleaseStatusFailed

/-! ## Domains: db/domains.go and api/handlers_domains.go -/

/-- DomainStatus of `models/domain.go`. -/
abbrev DomainStatus := String

abbrev DomainStatusPending : DomainStatus := "pending"
abbrev DomainStatusActive : DomainStatus := "active"
abbrev DomainStatusFailed : DomainStatus := "failed"
abbrev DomainStatusDeleting : DomainStatus := "deleting"

/-- AddDomainRequest of `models/domain.go`. -/
structure AddDomainRequest where
  Domain : String
deriving DecidableEq, Repr

/-- CreateDomain: an empty status becomes pending; then `INSERT INTO domains`,
where `domain` is the primary key and `app_name` references `apps(name)`. -/
def CreateDomain {β : Type} (s : Store β) (domain : Domain) : Except String (Store β × Domain) :=
  let domain := { domain with
    Status := if domain.Status = "" then DomainStatusPending else domain.Status }
  if s.domains.any (fun d => d.Domain = domain.Domain) then
    .error "insert domain: UNIQUE constraint failed: domains.domain"
  else if s.foreignKeys ∧ ¬ s.apps.any (fun r => r.name = domain.AppName) then
    .error "insert domain: FOREIGN KEY constraint failed"
  else
    .ok ({ s with domains := s.domains ++ [domain] }, domain)

/-- GetDomain: `SELECT .. FROM domains WHERE domain = ?`; `none` is the nil result. -/
def GetDomain {β : Type} (s : Store β) (domain : String) : Option Domain :=
  s.domains.find? (fun d => d.Domain = domain)

/-- DeleteDomain: `DELETE FROM domains WHERE domain = ?`; an error when no row
was affected. -/
def DeleteDomain {β : Type} (s : Store β) (domain : String) : Except String (Store β) :=
  if s.domains.any (fun d => d.Domain = domain) then
    .ok { s with domains := s.domains.filter (fun d => d.Domain ≠ domain) }
  else
    .error ("domain not found: " ++ domain)

/-- handleAddDomain: 404 when the app is missing, 400 on an undecodable body or
an empty domain, 409 when GetDomain finds the domain, otherwise the insert of a
pending domain of the app. -/
def handleAddDomain {β : Type} (s : Store β) (name : String)
    (body : Option AddDomainRequest) : Store β × Response Domain :=
  match GetApp s name with
  | none => (s, .error 404 "app not found")
  | some _ =>
    match body with
    | none => (s, .error 400 "invalid request body")
    | some req =>
      if req.Domain = "" then (s, .error 400 "domain is required")
      else
        match GetDomain s req.Domain with
        | some _ => (s, .error 409 "domain already in use")
        | none =>
          let domain : Domain :=
            { Domain := req.Domain, AppName := name, Status := DomainStatusPending,
              CFRecordID := "" }
          match CreateDomain s domain with
          | .error _ => (s, .error 500 "failed to add domain")
          | .ok (s1, domain) => (s1, .json 201 domain)

/-- handleRemoveDomain: 404 when the app is missing or the domain is missing or
belongs to another app, otherwise the delete. -/
def handleRemoveDomain {β : Type} (s : Store β) (name domainName : String) :
    Store β × Response Unit :=
  match GetApp s name with
  | none => (s, .error 404 "app not found")
  | some _ =>
    match GetDomain s domainName with
    | none => (s, .error 404 "domain not found")
    | some domain =>
      if domain.AppName ≠ name then (s, .error 404 "domain not found")
      else
        match DeleteDomain s domainName with
        | .error _ => (s, .error 500 "failed to remove domain")
        | .ok s1 => (s1, .noContent 204)

/-- One request that can touch the domain table. -/
inductive DomainOp where
  | createApp (body : Option CreateAppRequest)
  | deleteApp (name : String)
  | addDomain (name : String) (body : Option AddDomainRequest)
  | removeDomain (name : String) (domainName : String)
deriving DecidableEq, Repr

/-- The store after one domain-related request is served. -/
def domainStep {β : Type} (cfg : PortConfig) (s : Store β) : DomainOp → Store β
  | .createApp body => (handleCreateApp cfg s body).1
  | .deleteApp name => (handleDeleteApp s name).1
  | .addDomain name body => (handleAddDomain s name body).1
  | .removeDomain name domainName => (handleRemoveDomain s name domainName).1

/-- The store after a sequence of domain-related requests. -/
def domainRun {β : Type} (cfg : PortConfig) (s : Store β) (ops : List DomainOp) : Store β :=
  ops.foldl (domainStep cfg) s

/-- The registered domain names, in insertion order. -/
def domainNames {β : Type} (s : Store β) : List String :=
  s.domains.map (fun d => d.Domain)

/-- The domain table is well formed: no name twice, no empty name. -/
def Store.domainsOk {β : Type} (s : Store β) : Prop :=
  (domainNames s).Nodup ∧ "" ∉ domainNames s

/-- Two apps, then `a.x.com` added to `web` and `b.x.com` to `api`. -/
def twoDomains : List DomainOp :=
  [.createApp (some { Name := "web", Environment := "" }),
   .createApp (some { Name := "api", Environment := "" }),
   .addDomain "web" (some { Domain := "a.x.com" }),
   .addDomain "api" (some { Domain := "b.x.com" })]

/-! ## podman/client.go

The HTTP side of the client is two functions of method and URL: whether
`http.NewRequestWithContext` builds a request (it fails when `url.Parse` rejects
the URL), and the outcome of `c.http.Do` on the request: a transport error, or
the status code of the response.
The process runner behind `exec.CommandContext(..).Run()` is a function from
the program and its arguments to the outcome of the run together with what the
command wrote to stdout and stderr. -/

namespace Podman

/-- The HTTP side of the client.  `newRequest` is whether
`http.NewRequestWithContext(ctx, method, url, nil)` returns a request; `send`
is the outcome of `c.http.Do(req)`: a transport error or the status code. -/
structure Http where
  newRequest : String → String → Bool
  send : String → String → Except String Int

/-- How a call of the client ends: it returns nil, it returns an error, or it
panics. -/
inductive CallResult where
  | ok
  | error (msg : String)
  | panics
deriving DecidableEq, Repr

abbrev StatusOK : Int := 200
abbrev StatusNoContent : Int := 204
abbrev StatusNotModified : Int := 304
abbrev StatusNotFound : Int := 404

/-- The verb `%t` of `fmt.Sprintf`. -/
def fmtBool (b : Bool) : String := if b then "true" else "false"

/-- The URL of the stop request. -/
def stopURL (name : String) (timeout : Int) : String :=
  "http://d/v4.0.0/libpod/containers/" ++ name ++ "/stop?timeout=" ++ toString timeout

/-- The URL of the remove request. -/
def removeURL (name : String) (force : Bool) : String :=
  "http://d/v4.0.0/libpod/containers/" ++ name ++ "?force=" ++ fmtBool force

/-- StopContainer: build the POST request, dropping the error of
`http.NewRequestWithContext`, and send it; when no request was built, `Do` is
called on nil and dereferences it.  A transport error is returned, and so is
every status other than 204 and 304. -/
def StopContainer (http : Http) (name : String) (timeout : Int) : CallResult :=
  if http.newRequest "POST" (stopURL name timeout) then
    match http.send "POST" (stopURL name timeout) with
    | .error err => .error ("stop container: " ++ err)
    | .ok statusCode =>
      if statusCode ≠ StatusNoContent ∧ statusCode ≠ StatusNotModified then
        .error ("stop container returned " ++ toString statusCode)
      else
        .ok
  else
    .panics

/-- RemoveContainer: build the DELETE request, dropping the error of
`http.NewRequestWithContext`, and send it; when no request was built, `Do` is
called on nil and dereferences it.  A transport error is returned, and so is
every status other than 200 and 204. -/
def RemoveContainer (http : Http) (name : String) (force : Bool) : CallResult :=
  if http.newRequest "DELETE" (removeURL name force) then
    match http.send "DELETE" (removeURL name force) with
    | .error err => .error ("remove container: " ++ err)
    | .ok statusCode =>
      if statusCode ≠ StatusOK ∧ statusCode ≠ StatusNoContent then
        .error ("remove container returned " ++ toString statusCode)
      else
        .ok
  else
    .panics

/-- The error value of `command.Run()`: nil, an `*exec.ExitError` with its exit
code, or any other error (the command could not be started, I/O failure). -/
inductive RunError where
  | nil
  | exitError (exitCode : Int)
  | other (msg : String)
deriving DecidableEq, Repr

/-- What one run of a command yields: the error value and the bytes written to
the two buffers. -/
structure RunOutcome where
  err : RunError
  stdout : String
  stderr : String
deriving DecidableEq, Repr

/-- The process runner: program and arguments to the outcome of the run. -/
abbrev Runner := String → List String → RunOutcome

/-- ExecResult of `podman/client.go`. -/
structure ExecResult where
  ExitCode : Int
  Stdout : String
  Stderr : String
deriving DecidableEq, Repr

/-- Exec: run `podman exec name cmd..`; the exit code is taken from the error
when it is an `*exec.ExitError` and is 0 otherwise; the returned error is
always nil. -/
def Exec (run : Runner) (name : String) (cmd : List String) : Except String ExecResult :=
  let args := ["exec", name] ++ cmd
  let out := run "podman" args
  let exitCode : Int :=
    match out.err with
    | .exitError code => code
    | _ => 0
  .ok { ExitCode := exitCode, Stdout := out.stdout, Stderr := out.stderr }

/-- A check `url.Parse` makes: no ASCII control character in the URL. -/
def noControlChar (url : String) : Bool :=
  url.toList.all (fun c => ¬ (c.toNat < 0x20 ∨ c.toNat = 0x7F))

/-- A runtime that answers every request with the given status; a request is
built for the URLs without a control character. -/
def answers (statusCode : Int) : Http :=
  { newRequest := fun _ url => noControlChar url, send := fun _ _ => .ok statusCode }

/-- A host where the program cannot be started: `Run` fails before anything is
written. -/
def cannotStart : Runner :=
  fun _ _ => { err := .other "exec: \"podman\": executable file not found in $PATH",
               stdout := "", stderr := "" }

/-- A host where every command succeeds and writes nothing. -/
def succeedsQuietly : Runner := fun _ _ => { err := .nil, stdout := "", stderr := "" }

/-- A host where every command exits with the given code after writing to
stderr. -/
def exitsWith (code : Int) (msg : String) : Runner :=
  fun _ _ => { err := .exitError code, stdout := "", stderr := msg }

end Podman

/-! ## systemd/generator.go and systemd/manager.go

The parsed template of the generator is a function from the unit configuration
to the rendered text or an error; `filepath.Join` and `os.WriteFile` are
functions handed to Generate, the latter acting on a file-system state.
Strings are searched and sliced as lists of characters: the patterns looked for
("@", ".service", decimal digits, white space) are ASCII, for which positions
in bytes and in characters delimit the same substrings. -/

namespace Systemd

/-- UnitConfig of `systemd/generator.go`. -/
structure UnitConfig where
  App : String
  Process : String
  Image : String
  Port : Int
  ContainerPort : Int
  Memory : String
  CPU : String
  Command : String
  EnvFile : String
  User : String
  HealthCheckPath : String
  HealthCheckInterval : Int
  HealthCheckTimeout : Int
  HealthCheckRetries : Int
deriving DecidableEq, Repr

/-- Generator of `systemd/generator.go`. -/
structure Generator where
  unitDir : String
  tmpl : UnitConfig → Except String String

/-- The file name of the template unit of an app process. -/
def unitFileName (app process : String) : String :=
  "pvdify-" ++ app ++ "-" ++ process ++ "@.service"

/-- Generate: fill the defaults into `cfg` (which the caller sees, `cfg` being
a pointer), render the template, write the unit file, return its path.  The
result is the configuration after the call, the file system after the call and
the returned path or error. -/
def Generate {σ : Type} (g : Generator) (pathJoin : String → String → String)
    (writeFile : σ → String → String → Except String σ) (fs : σ) (cfg : UnitConfig) :
    UnitConfig × σ × Except String String :=
  let cfg := if cfg.ContainerPort = 0 then { cfg with ContainerPort := 3000 } else cfg
  let cfg := if cfg.Memory = "" then { cfg with Memory := "512M" } else cfg
  let cfg := if cfg.CPU = "" then { cfg with CPU := "0.5" } else cfg
  let cfg := if cfg.User = "" then { cfg with User := "pvdify" } else cfg
  let cfg := if cfg.HealthCheckInterval = 0 then { cfg with HealthCheckInterval := 30 } else cfg
  let cfg := if cfg.HealthCheckTimeout = 0 then { cfg with HealthCheckTimeout := 5 } else cfg
  let cfg := if cfg.HealthCheckRetries = 0 then { cfg with HealthCheckRetries := 3 } else cfg
  match g.tmpl cfg with
  | .error err => (cfg, fs, .error ("execute template: " ++ err))
  | .ok buf =>
    let unitName := unitFileName cfg.App cfg.Process
    let unitPath := pathJoin g.unitDir unitName
    match writeFile fs unitPath buf with
    | .error err => (cfg, fs, .error ("write unit file: " ++ err))
    | .ok fs1 => (cfg, fs1, .ok unitPath)

/-- A file system as the list of files written, newest first; every write
succeeds. -/
def recordWrite (fs : List (String × String)) (path content : String) :
    Except String (List (String × String)) :=
  .ok ((path, content) :: fs)

/-- Joining a directory without trailing slash and a plain file name. -/
def joinPlain (dir name : String) : String := dir ++ "/" ++ name

/-- A generator whose template prints port mapping, memory and CPU. -/
def sampleGenerator : Generator :=
  { unitDir := "/etc/systemd/system",
    tmpl := fun cfg => .ok ("-p " ++ toString cfg.Port ++ ":" ++ toString cfg.ContainerPort ++
      " --memory=" ++ cfg.Memory ++ " --cpus=" ++ cfg.CPU ++ " " ++ cfg.Image) }

/-- A unit configuration giving only app, type, image and host port. -/
def bareConfig : UnitConfig :=
  { App := "web", Process := "worker", Image := "img:1", Port := 3000, ContainerPort := 0,
    Memory := "", CPU := "", Command := "", EnvFile := "", User := "", HealthCheckPath := "",
    HealthCheckInterval := 0, HealthCheckTimeout := 0, HealthCheckRetries := 0 }

/-- A unit configuration with port, memory and CPU set by the caller. -/
def fullConfig : UnitConfig :=
  { bareConfig with ContainerPort := 8080, Memory := "1G", CPU := "2", Command := "run" }

/-- The name Start, Stop, Restart and Status build for an instance of a unit. -/
def instanceName (unit : String) (inst : Int) : String :=
  unit ++ "@" ++ toString inst

/-- The name under which the supervisor lists instance `inst` of the unit of
an app process: `pvdify-<app>-<type>@<inst>.service`. -/
def listedName (app process : String) (inst : Int) : String :=
  instanceName ("pvdify-" ++ app ++ "-" ++ process) inst ++ ".service"

/-- The function `strings.Index`: the position of the first occurrence of
`substr` in `s`, or -1. -/
def Index : List Char → List Char → Int
  | [], substr => if substr = [] then 0 else -1
  | c :: cs, substr =>
    if substr.isPrefixOf (c :: cs) then 0
    else
      let k := Index cs substr
      if k = -1 then -1 else k + 1

/-- The function `strconv.Atoi`: an optional sign, then one or more decimal
digits, with a value in the range of a 64-bit int; `none` is an error. -/
def Atoi (s : List Char) : Option Int :=
  let neg := s.head? = some '-'
  let digits := if s.head? = some '-' ∨ s.head? = some '+' then s.tail else s
  if digits = [] ∨ ¬ digits.all Char.isDigit then none
  else
    let un : Nat := digits.foldl (fun n ch => n * 10 + (ch.toNat - 48)) 0
    if neg then
      if un > 2 ^ 63 then none else some (- (un : Int))
    else
      if un ≥ 2 ^ 63 then none else some (un : Int)

/-- The predicate `unicode.IsSpace`. -/
def isSpace (c : Char) : Bool :=
  c = '\t' ∨ c = '\n' ∨ c.toNat = 0x0B ∨ c.toNat = 0x0C ∨ c = '\r' ∨ c = ' ' ∨
  c.toNat = 0x85 ∨ c.toNat = 0xA0 ∨ c.toNat = 0x1680 ∨
  (0x2000 ≤ c.toNat ∧ c.toNat ≤ 0x200A) ∨ c.toNat = 0x2028 ∨ c.toNat = 0x2029 ∨
  c.toNat = 0x202F ∨ c.toNat = 0x205F ∨ c.toNat = 0x3000

/-- The function `strings.Fields`: the maximal runs of non-space characters. -/
def Fields (s : List Char) : List (List Char) :=
  (s.splitOnP isSpace).filter (fun f => f ≠ [])

/-- The name parsing of ListInstances: the text between the first "@" and the
first ".service", when the latter comes after the former, read by Atoi. -/
def parseInstance (name : List Char) : Option Int :=
  let atIdx := Index name ['@']
  let dotIdx := Index name ".service".toList
  if atIdx ≠ -1 ∧ dotIdx > atIdx then
    let numStr := (name.take dotIdx.toNat).drop (atIdx + 1).toNat
    Atoi numStr
  else none

/-- The body of the loop of ListInstances for one line: the instance number
parsed from the first field, when the line has a field. -/
def lineInstance (line : List Char) : Option Int :=
  match Fields line with
  | [] => none
  | name :: _ => parseInstance name

/-- ListInstances, from the output of `systemctl list-units`: the instance
numbers parsed from the lines, in order. -/
def ListInstances (output : String) : List Int :=
  (output.toList.splitOn '\n').filterMap lineInstance

/-- The output of `systemctl list-units` for two instances of `web` of app
`shop`. -/
def twoUnitsOutput : String :=
  "pvdify-shop-web@1.service loaded active running Pvdify shop web process 1\n" ++
  "pvdify-shop-web@12.service loaded active running Pvdify shop web process 12\n"

end Systemd

/-! ## The command `config:set` of the CLI, end to end

The request body of the client is the JSON encoding of the map built from the
arguments: a JSON object whose members are the keys with string values.  The
daemon decodes the body into SetConfigRequest, whose only field is `vars`. -/

namespace Cli

/-- The call `strings.SplitN(kv, "=", 2)`: split at the first "=". -/
def splitKV (kv : List Char) : List (List Char) :=
  match kv.span (fun c => c ≠ '=') with
  | (k, _ :: v) => [k, v]
  | (k, []) => [k]

/-- The loop of runSetConfig over `args[1:]`: every argument must split in two
parts, which are assigned into the map. -/
def parseConfigArgs : List String → ConfigData → Except String ConfigData
  | [], config => .ok config
  | kv :: rest, config =>
    match splitKV kv.toList with
    | [k, v] => parseConfigArgs rest (configSet config (String.mk k) (String.mk v))
    | _ => .error ("invalid config format: " ++ kv ++ " (expected KEY=VALUE)")

/-- Case folding of a character as far as it matters for the comparison with an
ASCII name: the letters, the long s and the Kelvin sign. -/
def foldChar (c : Char) : Char :=
  if c.toNat = 0x17F then 's' else if c.toNat = 0x212A then 'k' else c.toLower

/-- The function `strings.EqualFold` against an ASCII name. -/
def EqualFold (s name : String) : Bool :=
  s.toList.map foldChar = name.toList.map foldChar

/-- The call `json.NewDecoder(r.Body).Decode(&req)` of handleSetConfig on a body
that is a JSON object with string members: a member whose key matches the field
name `vars` cannot be stored into the map field and makes the decoding fail;
every other member is ignored, and `Vars` stays nil. -/
def decodeSetConfigRequest (body : List (String × String)) : Option SetConfigRequest :=
  if body.any (fun kv => EqualFold kv.1 "vars") then none
  else some { Vars := [] }

/-- The status code and, for an error, the message of a response. -/
def statusOf {α : Type} : Response α → Nat × String
  | .json code _ => (code, "")
  | .error code message => (code, message)
  | .noContent code => (code, "")

/-- The function parseResponse of the client with a nil target: an error for a
status of 400 and above. -/
def parseResponse {α : Type} (resp : Response α) : Except String Unit :=
  let (code, message) := statusOf resp
  if code ≥ 400 then
    if message ≠ "" then .error ("API error: " ++ message)
    else .error ("request failed with status " ++ toString code)
  else .ok ()

/-- The command `config:set NAME KEY=VALUE..` against the daemon: runSetConfig
builds the map, Client.SetConfig sends it as the body of
`PUT /api/v1/apps/NAME/config`, which the router hands to handleSetConfig. -/
def runSetConfig {β : Type} (codec : YamlCodec β) (s : Store β) (name : String)
    (kvs : List String) : Store β × Except String Unit :=
  match parseConfigArgs kvs [] with
  | .error err => (s, .error err)
  | .ok config =>
    let served := handleSetConfig codec s name (decodeSetConfigRequest config)
    (served.1, parseResponse served.2)

/-- The value the latest config snapshot of an app gives to a key. -/
def latestValue (s : Store ConfigData) (name key : String) : Option String :=
  match GetLatestConfig s name with
  | none => none
  | some cfg => configGet (plainCodec.unmarshal cfg.Data).1 key

end Cli

/-! ## Two createApp requests at the same time

The HTTP server runs every request on its own goroutine, and handleCreateApp
issues its store statements (GetApp, AllocatePort, CreateApp, UpsertProcess)
one by one, with no lock and no transaction around them.  A request in flight
is therefore a position between two statements, and a concurrent run is an
interleaving of the statements of the requests. -/

/-- Where a createApp request stands: before GetApp, before AllocatePort, before
CreateApp (holding the allocated port), before UpsertProcess, or answered. -/
inductive CreateAppPhase where
  | start (body : Option CreateAppRequest)
  | checked (req : CreateAppRequest)
  | allocated (req : CreateAppRequest) (port : Int)
  | inserted (app : App)
  | done (resp : Response App)

/-- The next statement of a createApp request: the code of handleCreateApp
between two store calls. -/
def stepCreateApp {β : Type} (cfg : PortConfig) (s : Store β) :
    CreateAppPhase → Store β × CreateAppPhase
  | .start none => (s, .done (.error 400 "invalid request body"))
  | .start (some req) =>
    if req.Name = "" then (s, .done (.error 400 "name is required"))
    else
      match GetApp s req.Name with
      | some _ => (s, .done (.error 409 "app already exists"))
      | none => (s, .checked req)
  | .checked req =>
    match AllocatePort s cfg.Start cfg.End with
    | .error _ => (s, .done (.error 500 "failed to allocate port"))
    | .ok port => (s, .allocated req port)
  | .allocated req port =>
    let app : App :=
      { Name := req.Name,
        Environment := if req.Environment = "" then "production" else req.Environment,
        Status := AppStatusCreated, Image := "", BindPort := port }
    match CreateApp s app with
    | .error _ => (s, .done (.error 500 "failed to create app"))
    | .ok (s1, app) => (s1, .inserted app)
  | .inserted app =>
    let process : Process := { AppName := app.Name, Name := "web", Command := "", Count := 1 }
    match UpsertProcess s process with
    | .error _ => (s, .done (.json 201 app))
    | .ok s2 => (s2, .done (.json 201 app))
  | .done resp => (s, .done resp)

/-- A run of two requests under a schedule: `false` lets the first request do
its next statement, `true` the second. -/
def interleave {β : Type} (cfg : PortConfig) (s : Store β) (a b : CreateAppPhase) :
    List Bool → Store β × CreateAppPhase × CreateAppPhase
  | [] => (s, a, b)
  | false :: rest => interleave cfg (stepCreateApp cfg s a).1 (stepCreateApp cfg s a).2 b rest
  | true :: rest => interleave cfg (stepCreateApp cfg s b).1 a (stepCreateApp cfg s b).2 rest

/-- The first request runs to its answer, then the second. -/
def serialSchedule : List Bool := [false, false, false, false, true, true, true, true]

/-- Both requests check and allocate before either inserts. -/
def racySchedule : List Bool := [false, false, true, true, false, false, true, true]

/-- The answer of a request that is done. -/
def CreateAppPhase.response : CreateAppPhase → Option (Response App)
  | .done resp => some resp
  | _ => none

/-- The port in a 201 answer. -/
def createdPort : Option (Response App) → Option Int
  | some (.json _ app) => some app.BindPort
  | _ => none

/-! ## Lemmas on the SQL helpers -/

theorem sqlMax_eq_none (l : List Int) : sqlMax l = none ↔ l = [] := by
  cases l with
  | nil => simp [sqlMax]
  | cons x xs =>
    simp only [sqlMax]
    cases sqlMax xs <;> simp

theorem sqlMax_eq_some (l : List Int) (m : Int) :
    sqlMax l = some m ↔ m ∈ l ∧ ∀ x ∈ l, x ≤ m := by
  induction l generalizing m with
  | nil => simp [sqlMax]
  | cons x xs ih =>
    simp only [sqlMax]
    cases hxs : sqlMax xs with
    | none =>
      have hnil : xs = [] := (sqlMax_eq_none xs).1 hxs
      subst hnil
      simp
      constructor
      · intro h; subst h; simp
      · intro h; exact h.1.symm
    | some m0 =>
      have h0 := (ih m0).1 hxs
      simp only [Option.some.injEq, List.mem_cons, forall_eq_or_imp]
      constructor
      · intro h
        subst h
        refine ⟨?_, le_max_left _ _, fun y hy => le_trans (h0.2 y hy) (le_max_right _ _)⟩
        rcases le_total x m0 with hle | hle
        · right; rw [max_eq_right hle]; exact h0.1
        · left; rw [max_eq_left hle]
      · rintro ⟨hmem, hx, hall⟩
        rcases hmem with rfl | hmem
        · exact max_eq_left (hall m0 h0.1)
        · have : m ≤ m0 := h0.2 m hmem
          have : m0 ≤ m := hall m0 h0.1
          have hm : m = m0 := le_antisymm ‹m ≤ m0› this
          subst hm
          exact max_eq_right hx

/-! ## Release status (C1) -/

theorem releasesOf_UpdateReleaseStatus {β : Type} (s : Store β) (app : String) (v : Int)
    (st : ReleaseStatus) (a : String) :
    releasesOf (UpdateReleaseStatus s app v st) a =
      (releasesOf s a).map (fun r =>
        if r.AppName = app ∧ r.Version = v then { r with Status := st } else r) := by
  unfold releasesOf UpdateReleaseStatus
  simp only [List.filter_map]
  congr 1
  apply List.filter_congr
  intro r _
  simp only [Function.comp]
  split <;> rfl

/-- C1, as stated, fails: release 1 of `web` is active, release 2 is marked
active through UpdateReleaseStatus, and afterwards both releases are active;
release 1 was not demoted to rolled_back (GetActiveRelease reports release 2,
the active release with the highest version). -/
theorem UpdateReleaseStatus_two_active :
    (GetRelease firstActive "web" 1).map (fun r => r.Status) = some ReleaseStatusActive ∧
    (GetRelease (UpdateReleaseStatus firstActive "web" 2 ReleaseStatusActive) "web" 1).map
      (fun r => r.Status) = some ReleaseStatusActive ∧
    (GetRelease (UpdateReleaseStatus firstActive "web" 2 ReleaseStatusActive) "web" 2).map
      (fun r => r.Status) = some ReleaseStatusActive ∧
    ¬ (∀ r ∈ releasesOf (UpdateReleaseStatus firstActive "web" 2 ReleaseStatusActive) "web",
        r.Status = ReleaseStatusActive → r.Version = 2) ∧
    (GetActiveRelease (UpdateReleaseStatus firstActive "web" 2 ReleaseStatusActive) "web").map
      (fun r => r.Version) = some 2 := by
  decide

/-- C1, amended: UpdateReleaseStatus sets the status of the release
(app, version) and of no other release: every release with another app or
version is kept as it was (a release that was active stays active, it is not
demoted), and the versions of every app are unchanged.  So after a release is
marked active, no other release of the app is active exactly when no other
release of the app was active before the call. -/
theorem UpdateReleaseStatus_only_target {β : Type} (s : Store β) (app : String) (v : Int)
    (st : ReleaseStatus) :
    (∀ a r, ¬ (a = app ∧ r.Version = v) →
      (r ∈ releasesOf (UpdateReleaseStatus s app v st) a ↔ r ∈ releasesOf s a)) ∧
    (∀ r ∈ releasesOf (UpdateReleaseStatus s app v st) app, r.Version = v → r.Status = st) ∧
    (∀ a, (releasesOf (UpdateReleaseStatus s app v st) a).map (fun r => r.Version) =
      (releasesOf s a).map (fun r => r.Version)) ∧
    ((∀ r ∈ releasesOf (UpdateReleaseStatus s app v ReleaseStatusActive) app,
        r.Status = ReleaseStatusActive → r.Version = v) ↔
      (∀ r ∈ releasesOf s app, r.Status = ReleaseStatusActive → r.Version = v)) := by
  have hname : ∀ a, ∀ r ∈ releasesOf s a, r.AppName = a := by
    intro a r hr
    simpa using (List.mem_filter.1 hr).2
  refine ⟨?_, ?_, ?_, ?_⟩
  · intro a r hne
    rw [releasesOf_UpdateReleaseStatus, List.mem_map]
    constructor
    · rintro ⟨r0, hr0, rfl⟩
      by_cases hc : r0.AppName = app ∧ r0.Version = v
      · exfalso
        apply hne
        rw [if_pos hc]
        exact ⟨(hname a r0 hr0).symm.trans hc.1, hc.2⟩
      · rw [if_neg hc]; exact hr0
    · intro hr
      refine ⟨r, hr, ?_⟩
      rw [if_neg]
      rintro ⟨h1, h2⟩
      exact hne ⟨(hname a r hr).symm.trans h1, h2⟩
  · intro r hr hv
    rw [releasesOf_UpdateReleaseStatus, List.mem_map] at hr
    obtain ⟨r0, hr0, rfl⟩ := hr
    by_cases hc : r0.AppName = app ∧ r0.Version = v
    · rw [if_pos hc]
    · rw [if_neg hc] at hv
      exact absurd ⟨hname app r0 hr0, hv⟩ hc
  · intro a
    rw [releasesOf_UpdateReleaseStatus, List.map_map]
    apply List.map_congr_left
    intro r _
    simp only [Function.comp]
    split <;> rfl
  · rw [releasesOf_UpdateReleaseStatus]
    constructor
    · intro h r hr hact
      by_cases hv : r.Version = v
      · exact hv
      · have := h r (List.mem_map.2 ⟨r, hr, by rw [if_neg (fun hc => hv hc.2)]⟩) hact
        exact this
    · intro h r hr hact
      obtain ⟨r0, hr0, rfl⟩ := List.mem_map.1 hr
      by_cases hc : r0.AppName = app ∧ r0.Version = v
      · rw [if_pos hc]; exact hc.2
      · rw [if_neg hc] at hact ⊢
        exact h r0 hr0 hact

/-! ## Lemmas on apps and releases -/

theorem GetApp_isSome {β : Type} (s : Store β) (name : String) :
    (GetApp s name).isSome = s.apps.any (fun r => r.name = name) := by
  unfold GetApp
  rw [Bool.eq_iff_iff]
  simp [List.find?_isSome]

theorem mem_releasesOf {β : Type} (s : Store β) (a : String) (r : Release) :
    r ∈ releasesOf s a ↔ r ∈ s.releases ∧ r.AppName = a := by
  simp [releasesOf]

theorem releasesOf_append {β : Type} (s : Store β) (a : String) (r : Release) :
    releasesOf { s with releases := s.releases ++ [r] } a =
      if r.AppName = a then releasesOf s a ++ [r] else releasesOf s a := by
  unfold releasesOf
  by_cases h : r.AppName = a <;> simp [List.filter_append, List.filter_cons, h]

theorem nodup_versions {β : Type} (s : Store β) (a : String) (h : s.uniqueReleases) :
    ((releasesOf s a).map (fun r => r.Version)).Nodup := by
  have h1 : ((releasesOf s a).map (fun r => (r.AppName, r.Version))).Nodup :=
    List.Nodup.sublist ((List.filter_sublist _).map _) h
  have h2 : (releasesOf s a).map (fun r => r.Version) =
      ((releasesOf s a).map (fun r => (r.AppName, r.Version))).map Prod.snd := by
    rw [List.map_map]; rfl
  rw [h2]
  apply List.Nodup.map_on _ h1
  intro x hx y hy hxy
  obtain ⟨rx, hrx, rfl⟩ := List.mem_map.1 hx
  obtain ⟨ry, hry, rfl⟩ := List.mem_map.1 hy
  have ex := ((mem_releasesOf s a rx).1 hrx).2
  have ey := ((mem_releasesOf s a ry).1 hry).2
  simp only at hxy
  simp [ex, ey, hxy]

/-- The version CreateRelease computes, in terms of the releases of the app. -/
theorem next_version_cases (l : List Release) :
    (l = [] ∧ (match sqlMax (l.map (fun r => r.Version)) with
        | some m => m + 1
        | none => (1 : Int)) = 1) ∨
    (∃ top ∈ l, (∀ r ∈ l, r.Version ≤ top.Version) ∧
      (match sqlMax (l.map (fun r => r.Version)) with
        | some m => m + 1
        | none => (1 : Int)) = top.Version + 1) := by
  cases h : sqlMax (l.map (fun r => r.Version)) with
  | none =>
    left
    have := (sqlMax_eq_none _).1 h
    exact ⟨List.map_eq_nil_iff.1 this, rfl⟩
  | some m =>
    right
    obtain ⟨hm, hall⟩ := (sqlMax_eq_some _ _).1 h
    obtain ⟨top, htop, rfl⟩ := List.mem_map.1 hm
    exact ⟨top, htop, fun r hr => hall _ (List.mem_map_of_mem _ hr), rfl⟩

/-- The insert of CreateRelease never violates `UNIQUE(app_name, version)`, so
CreateRelease succeeds whenever the foreign key can be satisfied. -/
theorem CreateRelease_ok {β : Type} (s : Store β) (rel : Release) (hfk : s.fkOk rel.AppName) :
    CreateRelease s rel =
      .ok ({ s with releases := s.releases ++ [{ rel with
              Version := (match sqlMax ((releasesOf s rel.AppName).map (fun r => r.Version)) with
                | some m => m + 1
                | none => 1),
              Status := if rel.Status = "" then ReleaseStatusPending else rel.Status }] },
           { rel with
              Version := (match sqlMax ((releasesOf s rel.AppName).map (fun r => r.Version)) with
                | some m => m + 1
                | none => 1),
              Status := if rel.Status = "" then ReleaseStatusPending else rel.Status }) := by
  unfold CreateRelease
  have huniq : (s.releases.any (fun r => decide (r.AppName = rel.AppName ∧ r.Version =
      (match sqlMax ((releasesOf s rel.AppName).map (fun r => r.Version)) with
        | some m => m + 1
        | none => 1)))) = false := by
    rw [List.any_eq_false]
    intro r hr
    simp only [decide_eq_true_eq, not_and]
    intro hname hv
    have hmem : r ∈ releasesOf s rel.AppName := (mem_releasesOf _ _ _).2 ⟨hr, hname⟩
    rcases next_version_cases (releasesOf s rel.AppName) with ⟨hnil, _⟩ | ⟨top, _, hmax, htop⟩
    · rw [hnil] at hmem; simp at hmem
    · rw [htop] at hv
      have := hmax r hmem
      omega
  have hfk2 : ¬ (s.foreignKeys = true ∧ ¬ (s.apps.any (fun r => r.name = rel.AppName)) = true) := by
    rintro ⟨h1, h2⟩
    have := hfk h1
    rw [GetApp_isSome] at this
    exact h2 this
  simp only [huniq, hfk2, if_false, Bool.false_eq_true]

/-- The two leading rows of `ORDER BY version DESC` when there are two rows. -/
theorem sorted_two (l : List Release) (h2 : 2 ≤ l.length) :
    ∃ a b rest, l.insertionSort releaseDesc = a :: b :: rest ∧
      b.Version ≤ a.Version ∧ (∀ r ∈ rest, r.Version ≤ b.Version) := by
  have hlen : (l.insertionSort releaseDesc).length = l.length := List.length_insertionSort _ _
  have hs : (l.insertionSort releaseDesc).Sorted releaseDesc := List.sorted_insertionSort _ _
  match hL : l.insertionSort releaseDesc with
  | [] => rw [hL] at hlen; simp at hlen; omega
  | [_] => rw [hL] at hlen; simp at hlen; omega
  | a :: b :: rest =>
    rw [hL] at hs
    refine ⟨a, b, rest, rfl, ?_, ?_⟩
    · exact List.rel_of_sorted_cons hs b (List.mem_cons_self _ _)
    · intro r hr
      exact List.rel_of_sorted_cons (List.Sorted.of_cons hs) r hr

theorem ListReleases_two {β : Type} (s : Store β) (name : String) :
    ListReleases s name 2 = ((releasesOf s name).insertionSort releaseDesc).take 2 := by
  unfold ListReleases
  simp

/-- A deploy on an existing app with a non-empty image succeeds: it appends the
release built from the request and sets the image of the app row. -/
theorem handleCreateRelease_ok {β : Type} (s : Store β) (name : String)
    (req : CreateReleaseRequest) (happ : (GetApp s name).isSome = true) (himg : req.Image ≠ "") :
    ∃ r : Release,
      handleCreateRelease s name (some req) =
        (UpdateApp { s with releases := s.releases ++ [r] } name (some req.Image) none none,
          .json 201 r) ∧
      r.AppName = name ∧ r.Image = req.Image ∧ r.CreatedBy = req.CreatedBy ∧
      r.Status = ReleaseStatusPending ∧
      r.ConfigVersion = (match GetLatestConfig s name with
        | some cfg => cfg.Version
        | none => 0) ∧
      r.Version = (match sqlMax ((releasesOf s name).map (fun r => r.Version)) with
        | some m => m + 1
        | none => 1) := by
  unfold handleCreateRelease
  cases hget : GetApp s name with
  | none => rw [hget] at happ; simp at happ
  | some a =>
    simp only [himg, if_false]
    have hok := CreateRelease_ok s
      { AppName := name, Version := 0, Image := req.Image,
        ConfigVersion := (match GetLatestConfig s name with
          | some cfg => cfg.Version
          | none => 0),
        Status := ReleaseStatusPending, CreatedBy := req.CreatedBy } (fun _ => happ)
    rw [hok]
    exact ⟨_, rfl, rfl, rfl, rfl, by simp, rfl, rfl⟩

/-! ## Release versions (C5) -/

/-- C5: CreateRelease succeeds on an app whose foreign key can be satisfied and
appends one release whose version is 1 when the app has no release and
max(existing versions of the app) + 1 otherwise; the version is the same in
every store in which the app has the same releases, whatever the releases of
other apps; and the release created by a deploy (handleCreateRelease) has
status pending. -/
theorem CreateRelease_version_is_max_plus_one {β : Type} (s : Store β) (rel : Release)
    (hfk : s.fkOk rel.AppName) :
    ∃ s1 r1, CreateRelease s rel = .ok (s1, r1) ∧
      s1.releases = s.releases ++ [r1] ∧
      r1.AppName = rel.AppName ∧ r1.Image = rel.Image ∧
      ((releasesOf s rel.AppName = [] ∧ r1.Version = 1) ∨
        (∃ top ∈ releasesOf s rel.AppName,
          (∀ r ∈ releasesOf s rel.AppName, r.Version ≤ top.Version) ∧
          r1.Version = top.Version + 1)) ∧
      (∀ s2 : Store β, s2.fkOk rel.AppName →
        releasesOf s2 rel.AppName = releasesOf s rel.AppName →
        ∃ s3, CreateRelease s2 rel = .ok (s3, r1)) ∧
      (∀ req : CreateReleaseRequest, req.Image ≠ "" → (GetApp s rel.AppName).isSome = true →
        ∃ s4 r4, handleCreateRelease s rel.AppName (some req) = (s4, .json 201 r4) ∧
          r4.Status = ReleaseStatusPending ∧ r4.Version = r1.Version ∧
          r4 ∈ releasesOf s4 rel.AppName) := by
  refine ⟨_, _, CreateRelease_ok s rel hfk, rfl, rfl, rfl, ?_, ?_, ?_⟩
  · exact next_version_cases (releasesOf s rel.AppName)
  · intro s2 hfk2 heq
    rw [CreateRelease_ok s2 rel hfk2, heq]
    exact ⟨_, rfl⟩
  · intro req himg happ
    obtain ⟨r, hr, hname, _, _, hst, _, hv⟩ := handleCreateRelease_ok s rel.AppName req happ himg
    refine ⟨_, r, hr, hst, hv, ?_⟩
    rw [mem_releasesOf]
    simp [UpdateApp, hname]

/-- C5 at a concrete input: a third release of `web` in the store `twoReleases`. -/
theorem CreateRelease_version_witness :
    twoReleases.fkOk "web" ∧
    ∃ s1 r1, CreateRelease twoReleases
        { AppName := "web", Version := 0, Image := "C", ConfigVersion := 0,
          Status := "", CreatedBy := "ci" } = .ok (s1, r1) ∧
      s1.releases = twoReleases.releases ++ [r1] ∧ r1.AppName = "web" :=
  ⟨by decide, by
    obtain ⟨s1, r1, h1, h2, h3, _⟩ := CreateRelease_version_is_max_plus_one twoReleases
      { AppName := "web", Version := 0, Image := "C", ConfigVersion := 0,
        Status := "", CreatedBy := "ci" } (by decide)
    exact ⟨s1, r1, h1, h2, h3⟩⟩

/-! ## Rollback (C2, C3) -/

/-- The rollback target when no version is named: the second row of
`ListReleases(name, 2)`, present exactly when the app has two releases. -/
theorem rollback_target_two {β : Type} (s : Store β) (name : String)
    (h2 : 2 ≤ (releasesOf s name).length) :
    ∃ a b rest, (releasesOf s name).insertionSort releaseDesc = a :: b :: rest ∧
      b.Version ≤ a.Version ∧ (∀ r ∈ rest, r.Version ≤ b.Version) ∧
      (if (ListReleases s name 2).length ≥ 2 then (ListReleases s name 2).get? 1 else none)
        = some b := by
  obtain ⟨a, b, rest, hL, hab, hrest⟩ := sorted_two (releasesOf s name) h2
  refine ⟨a, b, rest, hL, hab, hrest, ?_⟩
  rw [ListReleases_two, hL]
  simp

/-- The result of handleRollback once the target is known. -/
theorem handleRollback_with_target {β : Type} (s : Store β) (name : String)
    (req : RollbackRequest) (t : Release) (happ : (GetApp s name).isSome = true)
    (ht : (if req.Version > 0 then GetRelease s name req.Version
      else if (ListReleases s name 2).length ≥ 2 then (ListReleases s name 2).get? 1
      else none) = some t) :
    ∃ r : Release,
      handleRollback s name req = ({ s with releases := s.releases ++ [r] }, .json 201 r) ∧
      r.AppName = name ∧ r.Image = t.Image ∧ r.ConfigVersion = t.ConfigVersion ∧
      r.CreatedBy = "rollback" ∧ r.Status = ReleaseStatusPending ∧
      r.Version = (match sqlMax ((releasesOf s name).map (fun r => r.Version)) with
        | some m => m + 1
        | none => 1) := by
  unfold handleRollback
  cases hget : GetApp s name with
  | none => rw [hget] at happ; simp at happ
  | some a =>
    simp only [ht]
    have hok := CreateRelease_ok s
      { AppName := name, Version := 0, Image := t.Image, ConfigVersion := t.ConfigVersion,
        Status := ReleaseStatusPending, CreatedBy := "rollback" } (fun _ => happ)
    rw [hok]
    exact ⟨_, rfl, rfl, rfl, rfl, rfl, by simp, rfl⟩

theorem handleRollback_no_target {β : Type} (s : Store β) (name : String)
    (req : RollbackRequest)
    (ht : (if req.Version > 0 then GetRelease s name req.Version
      else if (ListReleases s name 2).length ≥ 2 then (ListReleases s name 2).get? 1
      else none) = none) :
    (handleRollback s name req).1 = s ∧
    ∃ c m, (handleRollback s name req).2 = .error c m := by
  unfold handleRollback
  cases hget : GetApp s name with
  | none => exact ⟨rfl, _, _, rfl⟩
  | some a =>
    simp only [ht]
    exact ⟨trivial, _, _, rfl⟩

/-- C2: on an existing app with at least two releases (versions unique per app,
as the schema demands), a rollback that names no version (version 0, or any
non-positive value) appends exactly one release: its version is the highest
version of the app plus one, its image and config version are those of the
release with the second-highest version, its creator is "rollback" and its
status is pending. -/
theorem handleRollback_previous {β : Type} (s : Store β) (name : String)
    (req : RollbackRequest) (happ : (GetApp s name).isSome = true)
    (huniq : s.uniqueReleases) (h2 : 2 ≤ (releasesOf s name).length)
    (hv : req.Version ≤ 0) :
    ∃ top t r : Release,
      top ∈ releasesOf s name ∧ (∀ x ∈ releasesOf s name, x.Version ≤ top.Version) ∧
      t ∈ releasesOf s name ∧ t.Version < top.Version ∧
      (∀ x ∈ releasesOf s name, x.Version < top.Version → x.Version ≤ t.Version) ∧
      handleRollback s name req = ({ s with releases := s.releases ++ [r] }, .json 201 r) ∧
      r = { AppName := name, Version := top.Version + 1, Image := t.Image,
            ConfigVersion := t.ConfigVersion, Status := ReleaseStatusPending,
            CreatedBy := "rollback" } := by
  obtain ⟨a, b, rest, hL, hab, hrest, htarget⟩ := rollback_target_two s name h2
  have hperm : (a :: b :: rest).Perm (releasesOf s name) := by
    rw [← hL]; exact List.perm_insertionSort _ _
  have hmem : ∀ x, x ∈ releasesOf s name ↔ x = a ∨ x = b ∨ x ∈ rest := by
    intro x
    rw [← hperm.mem_iff]
    simp
  have hnd : ((a :: b :: rest).map (fun r => r.Version)).Nodup :=
    ((hperm.map _).nodup_iff).2 (nodup_versions s name huniq)
  have hne : a.Version ≠ b.Version := by
    simp only [List.map_cons, List.nodup_cons, List.mem_cons, not_or] at hnd
    exact hnd.1.1
  have hlt : b.Version < a.Version := lt_of_le_of_ne hab (Ne.symm hne)
  have hmax : ∀ x ∈ releasesOf s name, x.Version ≤ a.Version := by
    intro x hx
    rcases (hmem x).1 hx with rfl | rfl | hx
    · exact le_refl _
    · exact hab
    · exact le_trans (hrest x hx) hab
  have ht : (if req.Version > 0 then GetRelease s name req.Version
      else if (ListReleases s name 2).length ≥ 2 then (ListReleases s name 2).get? 1
      else none) = some b := by
    rw [if_neg (by omega)]
    exact htarget
  obtain ⟨r, hr, h1, h2, h3, h4, h5, h6⟩ := handleRollback_with_target s name req b happ ht
  have hver : r.Version = a.Version + 1 := by
    rw [h6]
    rcases next_version_cases (releasesOf s name) with ⟨hnil, _⟩ | ⟨top, htop, htopmax, heq⟩
    · have := (hmem a).2 (Or.inl rfl)
      rw [hnil] at this; simp at this
    · rw [heq]
      have e1 := hmax top htop
      have e2 := htopmax a ((hmem a).2 (Or.inl rfl))
      omega
  refine ⟨a, b, r, (hmem a).2 (Or.inl rfl), hmax, (hmem b).2 (Or.inr (Or.inl rfl)), hlt, ?_,
    hr, ?_⟩
  · intro x hx hxlt
    rcases (hmem x).1 hx with rfl | rfl | hx
    · omega
    · exact le_refl _
    · exact hrest x hx
  · cases r
    simp only at h1 h2 h3 h4 h5 hver
    simp [h1, h2, h3, h4, h5, hver]

/-- C2 at the example of the specification: releases v1 (image A) and v2 (image B), rollback without a version gives v3 with image A. -/
theorem handleRollback_previous_witness :
    (GetApp twoReleases "web").isSome = true ∧ twoReleases.uniqueReleases ∧
    2 ≤ (releasesOf twoReleases "web").length ∧
    (∃ top t r : Release,
      top ∈ releasesOf twoReleases "web" ∧
      (∀ x ∈ releasesOf twoReleases "web", x.Version ≤ top.Version) ∧
      t ∈ releasesOf twoReleases "web" ∧ t.Version < top.Version ∧
      (∀ x ∈ releasesOf twoReleases "web", x.Version < top.Version → x.Version ≤ t.Version) ∧
      handleRollback twoReleases "web" { Version := 0 } =
        ({ twoReleases with releases := twoReleases.releases ++ [r] }, .json 201 r) ∧
      r = { AppName := "web", Version := top.Version + 1, Image := t.Image,
            ConfigVersion := t.ConfigVersion, Status := ReleaseStatusPending,
            CreatedBy := "rollback" }) ∧
    (handleRollback twoReleases "web" { Version := 0 }).2 =
      .json 201 { AppName := "web", Version := 3, Image := "A", ConfigVersion := 0,
                  Status := ReleaseStatusPending, CreatedBy := "rollback" } :=
  ⟨by decide, by decide, by decide,
    handleRollback_previous twoReleases "web" { Version := 0 }
      (by decide) (by decide) (by decide) (by decide),
    by decide⟩

/-- The list 1, 2, .., n. -/
theorem mem_one_to_n (n : Nat) (v : Int) :
    v ∈ (List.range n).map (fun (i : Nat) => (i : Int) + 1) ↔ 1 ≤ v ∧ v ≤ n := by
  simp only [List.mem_map, List.mem_range]
  constructor
  · rintro ⟨i, hi, rfl⟩
    omega
  · rintro ⟨h1, h2⟩
    refine ⟨(v - 1).toNat, ?_, ?_⟩ <;> omega

theorem nodup_one_to_n (n : Nat) :
    ((List.range n).map (fun (i : Nat) => (i : Int) + 1)).Nodup := by
  apply List.Nodup.map _ (List.nodup_range n)
  intro i j h
  simp only at h
  omega

theorem next_of_one_to_n (l : List Int)
    (h : l = (List.range l.length).map (fun (i : Nat) => (i : Int) + 1)) :
    (match sqlMax l with
      | some m => m + 1
      | none => (1 : Int)) = (l.length : Int) + 1 := by
  cases hm : sqlMax l with
  | none =>
    have := (sqlMax_eq_none l).1 hm
    subst this
    simp
  | some m =>
    obtain ⟨hmem, hall⟩ := (sqlMax_eq_some l m).1 hm
    have hm1 : 1 ≤ m ∧ m ≤ (l.length : Int) := by
      rw [h, mem_one_to_n] at hmem
      simpa using hmem
    have hn : ((l.length : Int)) ∈ l := by
      rw [h, mem_one_to_n]
      simp only [List.length_map, List.length_range]
      omega
    have h3 : m = (l.length : Int) := le_antisymm hm1.2 (hall _ hn)
    rw [h3]

theorem one_to_n_append (l : List Int)
    (h : l = (List.range l.length).map (fun (i : Nat) => (i : Int) + 1)) :
    l ++ [(l.length : Int) + 1] =
      (List.range (l ++ [(l.length : Int) + 1]).length).map (fun (i : Nat) => (i : Int) + 1) := by
  rw [List.length_append, List.length_singleton, List.range_succ, List.map_append, ← h]
  simp

/-! ### Frames of the app handlers -/

theorem CreateApp_ok {β : Type} (s : Store β) (app : App) (h : GetApp s app.Name = none) :
    CreateApp s app =
      .ok ({ s with apps := s.apps ++
              [{ name := app.Name,
                 environment := if app.Environment = "" then "production" else app.Environment,
                 status := if app.Status = "" then AppStatusCreated else app.Status,
                 image := app.Image, bind_port := some app.BindPort }] },
           { app with
              Environment := if app.Environment = "" then "production" else app.Environment,
              Status := if app.Status = "" then AppStatusCreated else app.Status }) := by
  have hany : s.apps.any (fun r => r.name = app.Name) = false := by
    rw [← GetApp_isSome, h]; rfl
  unfold CreateApp
  simp only [hany, Bool.false_eq_true, if_false]

/-- UpsertProcess touches the table `processes` only. -/
theorem UpsertProcess_frame {β : Type} (s s2 : Store β) (p : Process)
    (h : UpsertProcess s p = .ok s2) :
    s2.foreignKeys = s.foreignKeys ∧ s2.apps = s.apps ∧ s2.releases = s.releases ∧
    s2.config_vars = s.config_vars ∧ s2.domains = s.domains := by
  unfold UpsertProcess at h
  split at h
  · cases h; exact ⟨rfl, rfl, rfl, rfl, rfl⟩
  · split at h
    · cases h
    · cases h; exact ⟨rfl, rfl, rfl, rfl, rfl⟩

/-- A create request that passes the checks and gets a port answers 201 and
appends one app row carrying that port; the other tables, `processes` apart,
are untouched. -/
theorem handleCreateApp_ok {β : Type} (cfg : PortConfig) (s : Store β)
    (req : CreateAppRequest) (port : Int) (hname : req.Name ≠ "")
    (hget : GetApp s req.Name = none)
    (hport : AllocatePort s cfg.Start cfg.End = .ok port) :
    (handleCreateApp cfg s (some req)).2 = .json 201
      { Name := req.Name,
        Environment := if req.Environment = "" then "production" else req.Environment,
        Status := AppStatusCreated, Image := "", BindPort := port } ∧
    (handleCreateApp cfg s (some req)).1.apps = s.apps ++
      [{ name := req.Name,
         environment := if req.Environment = "" then "production" else req.Environment,
         status := AppStatusCreated, image := "", bind_port := some port }] ∧
    (handleCreateApp cfg s (some req)).1.foreignKeys = s.foreignKeys ∧
    (handleCreateApp cfg s (some req)).1.releases = s.releases ∧
    (handleCreateApp cfg s (some req)).1.config_vars = s.config_vars ∧
    (handleCreateApp cfg s (some req)).1.domains = s.domains := by
  have hok := CreateApp_ok s
    { Name := req.Name,
      Environment := if req.Environment = "" then "production" else req.Environment,
      Status := AppStatusCreated, Image := "", BindPort := port } hget
  have henv : (if (if req.Environment = "" then "production" else req.Environment) = ""
      then "production" else (if req.Environment = "" then "production"
        else req.Environment)) =
      (if req.Environment = "" then "production" else req.Environment) := by
    by_cases he : req.Environment = ""
    · simp [he]
    · simp [he]
  have hst : (if AppStatusCreated = "" then AppStatusCreated else AppStatusCreated)
      = AppStatusCreated := by simp
  simp only [henv, hst] at hok
  unfold handleCreateApp
  simp only [hname, if_false, hget, hport, hok]
  cases hup : UpsertProcess _ _ with
  | error e => exact ⟨rfl, rfl, rfl, rfl, rfl, rfl⟩
  | ok s2 =>
    obtain ⟨h1, h2, h3, h4, h5⟩ := UpsertProcess_frame _ _ _ hup
    exact ⟨rfl, h2, h1, h3, h4, h5⟩

/-- The two outcomes of handleCreateApp: an error that leaves the store as it
was, or 201 with one app row appended that carries the allocated port. -/
theorem handleCreateApp_cases {β : Type} (cfg : PortConfig) (s : Store β)
    (body : Option CreateAppRequest) :
    ((handleCreateApp cfg s body).1 = s ∧ ∃ c m, (handleCreateApp cfg s body).2 = .error c m) ∨
    (∃ req port, body = some req ∧ req.Name ≠ "" ∧ GetApp s req.Name = none ∧
      AllocatePort s cfg.Start cfg.End = .ok port ∧
      (handleCreateApp cfg s body).2 = .json 201
        { Name := req.Name,
          Environment := if req.Environment = "" then "production" else req.Environment,
          Status := AppStatusCreated, Image := "", BindPort := port } ∧
      (handleCreateApp cfg s body).1.apps = s.apps ++
        [{ name := req.Name,
           environment := if req.Environment = "" then "production" else req.Environment,
           status := AppStatusCreated, image := "", bind_port := some port }] ∧
      (handleCreateApp cfg s body).1.foreignKeys = s.foreignKeys ∧
      (handleCreateApp cfg s body).1.releases = s.releases ∧
      (handleCreateApp cfg s body).1.config_vars = s.config_vars ∧
      (handleCreateApp cfg s body).1.domains = s.domains) := by
  cases body with
  | none => left; exact ⟨rfl, _, _, rfl⟩
  | some req =>
    by_cases hname : req.Name = ""
    · left
      unfold handleCreateApp
      simp only [hname, if_true]
      exact ⟨trivial, _, _, rfl⟩
    · cases hget : GetApp s req.Name with
      | some a =>
        left
        unfold handleCreateApp
        simp only [hname, if_false, hget]
        exact ⟨trivial, _, _, rfl⟩
      | none =>
        cases hport : AllocatePort s cfg.Start cfg.End with
        | error e =>
          left
          unfold handleCreateApp
          simp only [hname, if_false, hget, hport]
          exact ⟨trivial, _, _, rfl⟩
        | ok port =>
          right
          exact ⟨req, port, rfl, hname, hget, rfl, handleCreateApp_ok cfg s req port hname hget hport⟩

/-! ### Effect of each request on the table `releases` -/

theorem versionsOf_congr {β : Type} (s1 s2 : Store β) (h : s2.releases = s1.releases)
    (a : String) : versionsOf s2 a = versionsOf s1 a := by
  unfold versionsOf releasesOf
  rw [h]

theorem gapless_of_eq {β : Type} (s1 s2 : Store β) (h : s2.releases = s1.releases)
    (hg : s1.gapless) : s2.gapless := by
  intro a
  rw [versionsOf_congr s1 s2 h a]
  exact hg a

theorem gapless_of_append {β : Type} (s1 s2 : Store β) (r : Release)
    (h : s2.releases = s1.releases ++ [r])
    (hv : r.Version = (match sqlMax ((releasesOf s1 r.AppName).map (fun x => x.Version)) with
      | some m => m + 1
      | none => 1))
    (hg : s1.gapless) : s2.gapless := by
  intro a
  have e : versionsOf s2 a =
      if r.AppName = a then versionsOf s1 a ++ [r.Version] else versionsOf s1 a := by
    unfold versionsOf releasesOf
    rw [h]
    by_cases hc : r.AppName = a <;> simp [List.filter_append, List.filter_cons, hc]
  rw [e]
  by_cases hc : r.AppName = a
  · rw [if_pos hc]
    have hnext := next_of_one_to_n (versionsOf s1 r.AppName) (hg r.AppName)
    have hv2 : r.Version = ((versionsOf s1 a).length : Int) + 1 := by
      rw [hv, ← hc]
      exact hnext
    rw [hv2]
    exact one_to_n_append _ (hg a)
  · rw [if_neg hc]
    exact hg a

theorem gapless_of_cascade {β : Type} (s1 s2 : Store β) (name : String)
    (h : s2.releases = s1.releases.filter (fun r => r.AppName ≠ name))
    (hg : s1.gapless) : s2.gapless := by
  intro a
  have e : versionsOf s2 a = if a = name then [] else versionsOf s1 a := by
    unfold versionsOf releasesOf
    rw [h, List.filter_filter]
    by_cases hc : a = name
    · subst hc
      simp
    · rw [if_neg hc]
      congr 1
      apply List.filter_congr
      intro r _
      by_cases hr : r.AppName = a
      · simp [hr, hc]
      · simp [hr]
  rw [e]
  by_cases hc : a = name
  · rw [if_pos hc]; rfl
  · rw [if_neg hc]; exact hg a

theorem handleCreateRelease_releases {β : Type} (s : Store β) (name : String)
    (body : Option CreateReleaseRequest) :
    (handleCreateRelease s name body).1.releases = s.releases ∨
    ∃ r : Release, (handleCreateRelease s name body).1.releases = s.releases ++ [r] ∧
      (match sqlMax ((releasesOf s r.AppName).map (fun x => x.Version)) with
        | some m => m + 1
        | none => 1) = r.Version := by
  cases hget : GetApp s name with
  | none => left; unfold handleCreateRelease; rw [hget]
  | some a =>
    cases body with
    | none => left; unfold handleCreateRelease; rw [hget]
    | some req =>
      by_cases himg : req.Image = ""
      · left; unfold handleCreateRelease; rw [hget]; simp only [himg, if_true]
      · right
        obtain ⟨r, hr, hname, _, _, _, _, hv⟩ :=
          handleCreateRelease_ok s name req (by rw [hget]; rfl) himg
        refine ⟨r, ?_, ?_⟩
        · rw [hr]; rfl
        · rw [hname, hv]

theorem handleRollback_releases {β : Type} (s : Store β) (name : String)
    (req : RollbackRequest) :
    (handleRollback s name req).1.releases = s.releases ∨
    ∃ r : Release, (handleRollback s name req).1.releases = s.releases ++ [r] ∧
      (match sqlMax ((releasesOf s r.AppName).map (fun x => x.Version)) with
        | some m => m + 1
        | none => 1) = r.Version := by
  cases hget : GetApp s name with
  | none => left; unfold handleRollback; rw [hget]
  | some a =>
    cases ht : (if req.Version > 0 then GetRelease s name req.Version
        else if (ListReleases s name 2).length ≥ 2 then (ListReleases s name 2).get? 1
        else none) with
    | none =>
      left
      rw [(handleRollback_no_target s name req ht).1]
    | some t =>
      right
      obtain ⟨r, hr, hname, _, _, _, _, hv⟩ :=
        handleRollback_with_target s name req t (by rw [hget]; rfl) ht
      refine ⟨r, ?_, ?_⟩
      · rw [hr]
      · rw [hname, hv]

theorem handleDeleteApp_releases {β : Type} (s : Store β) (name : String) :
    (handleDeleteApp s name).1.releases = s.releases ∨
    (handleDeleteApp s name).1.releases = s.releases.filter (fun r => r.AppName ≠ name) := by
  unfold handleDeleteApp DeleteApp
  cases GetApp s name with
  | none => left; rfl
  | some a =>
    by_cases h1 : s.apps.any (fun r => r.name = name) = true
    · by_cases h2 : s.foreignKeys = true
      · right; simp only [h1, h2, if_true]
      · left; simp only [h1, h2, if_true, if_false, Bool.false_eq_true]
    · left; simp only [h1, if_false, Bool.false_eq_true]

theorem handleCreateApp_releases {β : Type} (cfg : PortConfig) (s : Store β)
    (body : Option CreateAppRequest) : (handleCreateApp cfg s body).1.releases = s.releases := by
  rcases handleCreateApp_cases cfg s body with ⟨h, _⟩ | ⟨_, _, _, _, _, _, _, _, _, h, _⟩
  · rw [h]
  · exact h

theorem gapless_step {β : Type} (cfg : PortConfig) (s : Store β) (op : Op)
    (hg : s.gapless) : (step cfg s op).gapless := by
  cases op with
  | createApp body => exact gapless_of_eq _ _ (handleCreateApp_releases cfg s body) hg
  | deleteApp name =>
    rcases handleDeleteApp_releases s name with h | h
    · exact gapless_of_eq _ _ h hg
    · exact gapless_of_cascade _ _ name h hg
  | deploy name body =>
    rcases handleCreateRelease_releases s name body with h | ⟨r, h, hv⟩
    · exact gapless_of_eq _ _ h hg
    · exact gapless_of_append _ _ r h hv.symm hg
  | rollback name req =>
    rcases handleRollback_releases s name req with h | ⟨r, h, hv⟩
    · exact gapless_of_eq _ _ h hg
    · exact gapless_of_append _ _ r h hv.symm hg
  | setStatus name version status =>
    intro a
    have e : versionsOf (step cfg s (.setStatus name version status)) a = versionsOf s a := by
      unfold versionsOf step
      rw [releasesOf_UpdateReleaseStatus, List.map_map]
      apply List.map_congr_left
      intro r _
      simp only [Function.comp]
      split <;> rfl
    rw [e]
    exact hg a

theorem gapless_run {β : Type} (cfg : PortConfig) (ops : List Op) (s : Store β)
    (hg : s.gapless) : (run cfg s ops).gapless := by
  induction ops generalizing s with
  | nil => exact hg
  | cons op ops ih => exact ih _ (gapless_step cfg s op hg)

/-- C4: in every state reached from the empty store by a sequence of requests
(app creation and deletion, deploy, rollback, status updates), the release
versions of each app are exactly 1..n for its n releases: no duplicates, and a
version occurs if and only if it lies between 1 and n. -/
theorem release_versions_gapless {β : Type} (cfg : PortConfig) (fk : Bool) (ops : List Op)
    (a : String) :
    (versionsOf (run cfg (emptyStore β fk) ops) a).Nodup ∧
    ∀ v : Int, v ∈ versionsOf (run cfg (emptyStore β fk) ops) a ↔
      1 ≤ v ∧ v ≤ ((releasesOf (run cfg (emptyStore β fk) ops) a).length : Int) := by
  have hg : (run cfg (emptyStore β fk) ops).gapless :=
    gapless_run cfg ops _ (fun _ => rfl)
  have hlen : (releasesOf (run cfg (emptyStore β fk) ops) a).length =
      (versionsOf (run cfg (emptyStore β fk) ops) a).length := by
    unfold versionsOf; rw [List.length_map]
  rw [hlen]
  constructor
  · rw [hg a]; exact nodup_one_to_n _
  · intro v
    conv_lhs => rw [hg a]
    exact mem_one_to_n _ v

/-! ## Port allocation (C6, C7, C8, C9) -/

/-- The candidate port of AllocatePort and its two outcomes. -/
theorem AllocatePort_candidate {β : Type} (s : Store β) (startPort endPort : Int) :
    ∃ p : Int,
      ((∃ m ∈ assignedPorts s, (∀ x ∈ assignedPorts s, x ≤ m) ∧ startPort ≤ m ∧
          p = wrapInt64 (m + 1)) ∨
        ((∀ x ∈ assignedPorts s, x < startPort) ∧ p = startPort)) ∧
      (p ≤ endPort → AllocatePort s startPort endPort = .ok p) ∧
      (endPort < p → ∃ e, AllocatePort s startPort endPort = .error e) := by
  unfold AllocatePort
  cases hm : sqlMax (s.apps.filterMap (fun r => r.bind_port)) with
  | none =>
    have hnil : assignedPorts s = [] := (sqlMax_eq_none _).1 hm
    refine ⟨startPort, Or.inr ⟨by rw [hnil]; simp, rfl⟩, ?_, ?_⟩
    · intro h
      simp only
      rw [if_neg (by omega)]
    · intro h
      simp only
      rw [if_pos (by omega)]
      exact ⟨_, rfl⟩
  | some m =>
    obtain ⟨hmem, hall⟩ := (sqlMax_eq_some _ _).1 hm
    by_cases hge : m ≥ startPort
    · refine ⟨wrapInt64 (m + 1), Or.inl ⟨m, hmem, hall, hge, rfl⟩, ?_, ?_⟩
      · intro h
        simp only [hge, if_true]
        rw [if_neg (by omega)]
      · intro h
        simp only [hge, if_true]
        rw [if_pos (by omega)]
        exact ⟨_, rfl⟩
    · refine ⟨startPort, Or.inr ⟨fun x hx => ?_, rfl⟩, ?_, ?_⟩
      · have := hall x hx
        omega
      · intro h
        simp only [hge, if_false]
        rw [if_neg (by omega)]
      · intro h
        simp only [hge, if_false]
        rw [if_pos (by omega)]
        exact ⟨_, rfl⟩

/-- Inside the range of a Go `int` nothing wraps. -/
theorem wrapInt64_of_range (x : Int) (hlo : MinInt64 ≤ x) (hhi : x ≤ MaxInt64) :
    wrapInt64 x = x := by
  unfold wrapInt64
  simp only [MinInt64, MaxInt64] at hlo hhi
  omega

/-- One above the largest Go `int` is the smallest one. -/
theorem wrapInt64_max : wrapInt64 (MaxInt64 + 1) = MinInt64 := by decide

/-- When no bound port is the largest Go `int`, the candidate port is one above
the highest bound port, or the pool start. -/
theorem AllocatePort_candidate_below {β : Type} (s : Store β) (startPort endPort : Int)
    (hs : s.portsBelowMax) :
    ∃ p : Int,
      ((∃ m ∈ assignedPorts s, (∀ x ∈ assignedPorts s, x ≤ m) ∧ startPort ≤ m ∧ p = m + 1) ∨
        ((∀ x ∈ assignedPorts s, x < startPort) ∧ p = startPort)) ∧
      (p ≤ endPort → AllocatePort s startPort endPort = .ok p) ∧
      (endPort < p → ∃ e, AllocatePort s startPort endPort = .error e) := by
  obtain ⟨p, hp, hok, herr⟩ := AllocatePort_candidate s startPort endPort
  refine ⟨p, ?_, hok, herr⟩
  rcases hp with ⟨m, hmem, hall, hge, hpm⟩ | h
  · left
    refine ⟨m, hmem, hall, hge, ?_⟩
    have hm := hs m hmem
    simp only [MinInt64, MaxInt64] at hm
    rw [hpm]
    exact wrapInt64_of_range _ (by simp only [MinInt64]; omega) (by simp only [MaxInt64]; omega)
  · exact Or.inr h

/-- When no bound port is the largest Go `int`, a port handed out by
AllocatePort lies in the pool and above every assigned port. -/
theorem AllocatePort_ok {β : Type} (s : Store β) (startPort endPort p : Int)
    (hs : s.portsBelowMax)
    (h : AllocatePort s startPort endPort = .ok p) :
    startPort ≤ p ∧ p ≤ endPort ∧ ∀ x ∈ assignedPorts s, x < p := by
  obtain ⟨q, hq, hok, herr⟩ := AllocatePort_candidate_below s startPort endPort hs
  by_cases hle : q ≤ endPort
  · have := hok hle
    rw [this] at h
    cases h
    rcases hq with ⟨m, _, hall, hge, rfl⟩ | ⟨hall, rfl⟩
    · refine ⟨by omega, hle, fun x hx => ?_⟩
      have := hall x hx
      omega
    · exact ⟨le_refl _, hle, hall⟩
  · obtain ⟨e, he⟩ := herr (by omega)
    rw [he] at h
    cases h

/-- C6, as stated, fails: the only assigned port is 5000, outside the pool
[3000, 3999]; the claimed result is the pool start 3000, but AllocatePort
takes the maximum over all assigned ports and fails. -/
theorem AllocatePort_port_above_pool :
    assignedPorts highPortStore = [5000] ∧
    allocateSpec (assignedPorts highPortStore) 3000 3999 = some 3000 ∧
    (AllocatePort highPortStore 3000 3999).toOption = none := by
  decide

/-- C6, amended: AllocatePort computes p = (the maximum of all assigned ports)
+ 1 when that maximum is at least start, the addition being the one of a 64-bit
Go int (one above the maximum m for a 64-bit m below 2^63-1, and -2^63 for
m = 2^63-1), and p = start when no port is assigned or every assigned port is
below start; it returns p when p <= end and fails exactly when p > end.  When
every assigned port is a 64-bit integer below 2^63-1 and none exceeds end, this
is the maximum assigned port lying in [start, end] plus one, or start when no
assigned port lies in the range. -/
theorem AllocatePort_max_of_all {β : Type} (s : Store β) (startPort endPort : Int) :
    (∃ p : Int,
      ((∃ m ∈ assignedPorts s, (∀ x ∈ assignedPorts s, x ≤ m) ∧ startPort ≤ m ∧
          p = wrapInt64 (m + 1) ∧
          (MinInt64 ≤ m → m < MaxInt64 → p = m + 1) ∧ (m = MaxInt64 → p = MinInt64)) ∨
        ((∀ x ∈ assignedPorts s, x < startPort) ∧ p = startPort)) ∧
      (p ≤ endPort → AllocatePort s startPort endPort = .ok p) ∧
      (endPort < p → ∃ e, AllocatePort s startPort endPort = .error e)) ∧
    (s.portsBelowMax → (∀ x ∈ assignedPorts s, x ≤ endPort) →
      (AllocatePort s startPort endPort).toOption =
        allocateSpec (assignedPorts s) startPort endPort) := by
  constructor
  · obtain ⟨p, hp, hok, herr⟩ := AllocatePort_candidate s startPort endPort
    refine ⟨p, ?_, hok, herr⟩
    rcases hp with ⟨m, hmem, hall, hge, hpm⟩ | h
    · left
      refine ⟨m, hmem, hall, hge, hpm, ?_, ?_⟩
      · intro h1 h2
        rw [hpm]
        simp only [MinInt64, MaxInt64] at h1 h2
        exact wrapInt64_of_range _ (by simp only [MinInt64]; omega)
          (by simp only [MaxInt64]; omega)
      · intro h1
        rw [hpm, h1]
        exact wrapInt64_max
    · exact Or.inr h
  intro hs hle
  obtain ⟨p, hp, hok, herr⟩ := AllocatePort_candidate_below s startPort endPort hs
  have hspec : (match sqlMax ((assignedPorts s).filter
      (fun x => startPort ≤ x ∧ x ≤ endPort)) with
      | some m => m + 1
      | none => startPort) = p := by
    rcases hp with ⟨m, hmem, hall, hge, rfl⟩ | ⟨hall, hp2⟩
    · have : sqlMax ((assignedPorts s).filter (fun x => startPort ≤ x ∧ x ≤ endPort))
          = some m := by
        rw [sqlMax_eq_some]
        refine ⟨?_, fun x hx => hall x (List.mem_filter.1 hx).1⟩
        rw [List.mem_filter]
        exact ⟨hmem, by simp [hge, hle m hmem]⟩
      rw [this]
    · have : (assignedPorts s).filter (fun x => startPort ≤ x ∧ x ≤ endPort) = [] := by
        rw [List.filter_eq_nil_iff]
        intro x hx
        have := hall x hx
        simp only [decide_eq_true_eq, not_and]
        omega
      rw [this, hp2]
      rfl
  unfold allocateSpec
  simp only [hspec]
  by_cases hpe : p ≤ endPort
  · rw [hok hpe, if_pos hpe]; rfl
  · obtain ⟨e, he⟩ := herr (by omega)
    rw [he, if_neg hpe]; rfl

/-- C6, amended, at a concrete input: port 3000 assigned, pool [3000, 3999], next port 3001. -/
theorem AllocatePort_max_of_all_witness :
    fullPool.portsBelowMax ∧
    (∀ x ∈ assignedPorts fullPool, x ≤ 3999) ∧
    (AllocatePort fullPool 3000 3999).toOption = allocateSpec (assignedPorts fullPool) 3000 3999 ∧
    (AllocatePort fullPool 3000 3999).toOption = some 3001 :=
  ⟨by decide, by decide,
    (AllocatePort_max_of_all fullPool 3000 3999).2 (by decide) (by decide), by decide⟩

theorem assignedPorts_append {β : Type} (s1 s2 : Store β) (row : AppRow)
    (h : s2.apps = s1.apps ++ [row]) :
    assignedPorts s2 = assignedPorts s1 ++ row.bind_port.toList := by
  unfold assignedPorts
  rw [h, List.filterMap_append]
  cases hb : row.bind_port <;> simp [List.filterMap_cons, hb]

/-- C8, as stated, fails: app `b` held port 3001 and was deleted; the next
created app `c` is handed port 3001 again. -/
theorem freed_top_port_is_reused :
    (GetApp (run defaultPorts (emptyStore Unit true)
        [.createApp (some { Name := "a", Environment := "" }),
         .createApp (some { Name := "b", Environment := "" })]) "b").map (fun a => a.BindPort)
      = some 3001 ∧
    GetApp afterDelete "b" = none ∧
    assignedPorts afterDelete = [3000] ∧
    (handleCreateApp defaultPorts afterDelete (some { Name := "c", Environment := "" })).2 =
      .json 201 { Name := "c", Environment := "production", Status := AppStatusCreated,
                  Image := "", BindPort := 3001 } := by
  decide

/-- C8, amended: in every state in which the bound ports are 64-bit integers
below 2^63-1 (so after every sequence of createApp and deleteApp that leads to
such a state), the port a successful createApp hands out is greater than every
port bound at that moment; hence a port freed by a deletion is not handed out
again as long as some existing app holds that port or a higher one.  The port
handed out is exactly one above the highest bound port when that port is at
least start, and start otherwise, whether or not a deleted app held it
before. -/
theorem handleCreateApp_port_above_bound {β : Type} (cfg : PortConfig) (s : Store β)
    (body : Option CreateAppRequest) (c : Nat) (app : App)
    (hs : s.portsBelowMax)
    (h : (handleCreateApp cfg s body).2 = .json c app) :
    (∀ x ∈ assignedPorts s, x < app.BindPort) ∧
    (∀ q : Int, (∃ x ∈ assignedPorts s, q ≤ x) → app.BindPort ≠ q) ∧
    (∀ m ∈ assignedPorts s, (∀ x ∈ assignedPorts s, x ≤ m) → cfg.Start ≤ m →
      app.BindPort = m + 1) ∧
    ((∀ x ∈ assignedPorts s, x < cfg.Start) → app.BindPort = cfg.Start) := by
  rcases handleCreateApp_cases cfg s body with
    ⟨_, c0, m0, herr⟩ | ⟨req, port, _, _, _, hport, hresp, _⟩
  · rw [herr] at h
    exact Response.noConfusion h
  · rw [hresp] at h
    cases h
    obtain ⟨_, _, hfresh⟩ := AllocatePort_ok s _ _ _ hs hport
    obtain ⟨q, hq, hok, herr⟩ := AllocatePort_candidate_below s cfg.Start cfg.End hs
    have hqp : q = port := by
      by_cases hle : q ≤ cfg.End
      · have := hok hle
        rw [hport] at this
        cases this
        rfl
      · obtain ⟨e, he⟩ := herr (by omega)
        rw [hport] at he
        cases he
    refine ⟨hfresh, ?_, ?_, ?_⟩
    · rintro q1 ⟨x, hx, hqx⟩ heq
      have := hfresh x hx
      simp only at heq
      omega
    · intro m hm hmax hge
      show port = m + 1
      rcases hq with ⟨m1, hm1, hmax1, _, hq1⟩ | ⟨hall, _⟩
      · have h1 := hmax m1 hm1
        have h2 := hmax1 m hm
        omega
      · have := hall m hm
        omega
    · intro hall
      show port = cfg.Start
      rcases hq with ⟨m1, hm1, _, hge1, _⟩ | ⟨_, hq1⟩
      · have := hall m1 hm1
        omega
      · omega

/-- C8, amended, at a concrete input: with port 3000 bound, the new app gets 3001 and not
3000. -/
theorem handleCreateApp_port_above_bound_witness :
    afterDelete.portsBelowMax ∧
    (handleCreateApp defaultPorts afterDelete (some { Name := "c", Environment := "" })).2 =
      .json 201 { Name := "c", Environment := "production", Status := AppStatusCreated,
                  Image := "", BindPort := 3001 } ∧
    ((∀ x ∈ assignedPorts afterDelete, x < 3001) ∧
      (∀ q : Int, (∃ x ∈ assignedPorts afterDelete, q ≤ x) → (3001 : Int) ≠ q)) :=
  ⟨by decide, by decide,
    ⟨(handleCreateApp_port_above_bound defaultPorts afterDelete
      (some { Name := "c", Environment := "" }) 201
      { Name := "c", Environment := "production", Status := AppStatusCreated,
        Image := "", BindPort := 3001 } (by decide) (by decide)).1,
     (handleCreateApp_port_above_bound defaultPorts afterDelete
      (some { Name := "c", Environment := "" }) 201
      { Name := "c", Environment := "production", Status := AppStatusCreated,
        Image := "", BindPort := 3001 } (by decide) (by decide)).2.1⟩⟩

theorem configGet_set_self (m : ConfigData) (k v : String) :
    configGet (configSet m k v) k = some v := by
  simp [configGet, configSet]

theorem configGet_set_ne (m : ConfigData) (k v k2 : String) (h : k2 ≠ k) :
    configGet (configSet m k v) k2 = configGet m k2 := by
  unfold configGet configSet
  rw [List.find?_cons_of_neg _ (by simpa using Ne.symm h)]
  congr 1
  induction m with
  | nil => rfl
  | cons e rest ih =>
    by_cases he : e.1 = k
    · have hne : e.1 ≠ k2 := by rw [he]; exact Ne.symm h
      rw [List.filter_cons_of_neg (by simpa using he), ih,
        List.find?_cons_of_neg _ (by simpa using hne)]
    · rw [List.filter_cons_of_pos (by simpa using he)]
      by_cases hk : e.1 = k2
      · rw [List.find?_cons_of_pos _ (by simpa using hk),
          List.find?_cons_of_pos _ (by simpa using hk)]
      · rw [List.find?_cons_of_neg _ (by simpa using hk),
          List.find?_cons_of_neg _ (by simpa using hk), ih]

/-- The merge loop of handleSetConfig: a key of the request carries the value
of the request, every other key keeps its value. -/
theorem configGet_merge (c : ConfigData) (hc : isMap c) (m : ConfigData) (k : String) :
    configGet (c.foldl (fun vars kv => configSet vars kv.1 kv.2) m) k =
      (match configGet c k with
        | some x => some x
        | none => configGet m k) := by
  induction c generalizing m with
  | nil => rfl
  | cons e rest ih =>
    have hnd : e.1 ∉ rest.map (fun kv => kv.1) ∧ isMap rest := by
      unfold isMap at hc
      rw [List.map_cons, List.nodup_cons] at hc
      exact hc
    rw [List.foldl_cons, ih hnd.2]
    by_cases hk : e.1 = k
    · have hrest : configGet rest k = none := by
        unfold configGet
        rw [Option.map_eq_none', List.find?_eq_none]
        intro x hx
        simp only [decide_eq_true_eq]
        intro hxk
        exact hnd.1 (List.mem_map.2 ⟨x, hx, hxk.trans hk.symm⟩)
      have hhead : configGet (e :: rest) k = some e.2 := by
        unfold configGet
        rw [List.find?_cons_of_pos _ (by simpa using hk)]
        rfl
      rw [hrest, hhead, ← hk]
      exact configGet_set_self m e.1 e.2
    · have hhead : configGet (e :: rest) k = configGet rest k := by
        unfold configGet
        rw [List.find?_cons_of_neg _ (by simpa using hk)]
      rw [hhead, configGet_set_ne m e.1 e.2 k (Ne.symm hk)]

theorem mem_configsOf {β : Type} (s : Store β) (a : String) (c : ConfigVar β) :
    c ∈ configsOf s a ↔ c ∈ s.config_vars ∧ c.AppName = a := by
  simp [configsOf]

theorem GetLatestConfig_none {β : Type} (s : Store β) (name : String) :
    GetLatestConfig s name = none ↔ configsOf s name = [] := by
  unfold GetLatestConfig
  rw [List.head?_eq_none_iff]
  constructor
  · intro h
    have := List.length_insertionSort configDesc (configsOf s name)
    rw [h] at this
    exact List.length_eq_zero.1 this.symm
  · intro h
    rw [h]; rfl

/-- The row of `ORDER BY version DESC LIMIT 1` is a snapshot of the app with
the highest version. -/
theorem GetLatestConfig_some {β : Type} (s : Store β) (name : String) (c : ConfigVar β)
    (h : GetLatestConfig s name = some c) :
    c ∈ configsOf s name ∧ ∀ x ∈ configsOf s name, x.Version ≤ c.Version := by
  unfold GetLatestConfig at h
  have hs := List.sorted_insertionSort configDesc (configsOf s name)
  have hp := List.perm_insertionSort configDesc (configsOf s name)
  match hL : (configsOf s name).insertionSort configDesc with
  | [] => rw [hL] at h; cases h
  | c0 :: rest =>
    rw [hL] at h hs hp
    simp only [List.head?_cons, Option.some.injEq] at h
    subst h
    refine ⟨hp.mem_iff.1 (List.mem_cons_self _ _), fun x hx => ?_⟩
    rcases List.mem_cons.1 (hp.mem_iff.2 hx) with rfl | hx
    · exact le_refl _
    · exact List.rel_of_sorted_cons hs x hx

/-- The version CreateConfigVersion assigns is the latest version plus one
(1 when the app has no snapshot), and its insert succeeds. -/
theorem CreateConfigVersion_ok {β : Type} (s : Store β) (name : String) (data : β) (v : Int)
    (hfk : s.fkOk name)
    (hv : (GetLatestConfig s name = none ∧ v = 0) ∨
      ∃ c, GetLatestConfig s name = some c ∧ c.Version = v) :
    CreateConfigVersion s name data =
      .ok ({ s with config_vars := s.config_vars ++
              [{ AppName := name, Version := v + 1, Data := data }] },
           { AppName := name, Version := v + 1, Data := data }) := by
  have hbound : ∀ x ∈ configsOf s name, x.Version ≤ v := by
    rcases hv with ⟨hnone, _⟩ | ⟨c, hc, rfl⟩
    · intro x hx
      rw [(GetLatestConfig_none s name).1 hnone] at hx
      simp at hx
    · exact (GetLatestConfig_some s name c hc).2
  have hver : (match sqlMax ((configsOf s name).map (fun c => c.Version)) with
      | some m => m + 1
      | none => (1 : Int)) = v + 1 := by
    rcases hv with ⟨hnone, rfl⟩ | ⟨c, hc, rfl⟩
    · rw [(GetLatestConfig_none s name).1 hnone]
      rfl
    · have hmax : sqlMax ((configsOf s name).map (fun c => c.Version)) = some c.Version := by
        rw [sqlMax_eq_some]
        refine ⟨List.mem_map_of_mem _ (GetLatestConfig_some s name c hc).1, ?_⟩
        intro x hx
        obtain ⟨y, hy, rfl⟩ := List.mem_map.1 hx
        exact hbound y hy
      rw [hmax]
  have huniq : (s.config_vars.any
      (fun c => decide (c.AppName = name ∧ c.Version = v + 1))) = false := by
    rw [List.any_eq_false]
    intro x hx
    simp only [decide_eq_true_eq, not_and]
    intro hname hxv
    have := hbound x ((mem_configsOf s name x).2 ⟨hx, hname⟩)
    omega
  have hfk2 : ¬ (s.foreignKeys = true ∧ ¬ (s.apps.any (fun r => r.name = name)) = true) := by
    rintro ⟨h1, h2⟩
    have := hfk h1
    rw [GetApp_isSome] at this
    exact h2 this
  unfold CreateConfigVersion
  simp only [hver, huniq, hfk2, if_false, Bool.false_eq_true]

/-- After a snapshot with the next version is appended, it is the latest. -/
theorem GetLatestConfig_append {β : Type} (s : Store β) (name : String) (data : β) (v : Int)
    (hv : (GetLatestConfig s name = none ∧ v = 0) ∨
      ∃ c, GetLatestConfig s name = some c ∧ c.Version = v) :
    GetLatestConfig { s with config_vars := s.config_vars ++
        [{ AppName := name, Version := v + 1, Data := data }] } name =
      some { AppName := name, Version := v + 1, Data := data } := by
  have hbound : ∀ x ∈ configsOf s name, x.Version ≤ v := by
    rcases hv with ⟨hnone, _⟩ | ⟨c, hc, rfl⟩
    · intro x hx
      rw [(GetLatestConfig_none s name).1 hnone] at hx
      simp at hx
    · exact (GetLatestConfig_some s name c hc).2
  have hcfg : configsOf { s with config_vars := s.config_vars ++
      [{ AppName := name, Version := v + 1, Data := data }] } name =
      configsOf s name ++ [{ AppName := name, Version := v + 1, Data := data }] := by
    simp [configsOf, List.filter_append, List.filter_cons]
  cases hl : GetLatestConfig { s with config_vars := s.config_vars ++
      [{ AppName := name, Version := v + 1, Data := data }] } name with
  | none =>
    have := (GetLatestConfig_none _ name).1 hl
    rw [hcfg] at this
    simp at this
  | some c =>
    obtain ⟨hmem, hmax⟩ := GetLatestConfig_some _ name c hl
    rw [hcfg] at hmem hmax
    rcases List.mem_append.1 hmem with hold | hnew
    · have h1 := hbound c hold
      have h2 := hmax { AppName := name, Version := v + 1, Data := data } (by simp)
      simp only at h2
      omega
    · rw [List.mem_singleton] at hnew
      rw [hnew]

/-- The result of handleSetConfig on an existing app with a lawful codec. -/
theorem handleSetConfig_ok {β : Type} (codec : YamlCodec β) (hcodec : codec.lawful)
    (s : Store β) (name : String) (c : ConfigData)
    (happ : (GetApp s name).isSome = true) (v : Int) (m : ConfigData)
    (hlatest : (GetLatestConfig s name = none ∧ v = 0 ∧ m = []) ∨
      (∃ cfg, GetLatestConfig s name = some cfg ∧ cfg.Version = v ∧
        (codec.unmarshal cfg.Data).1 = m)) :
    ∃ data,
      codec.marshal (c.foldl (fun vars kv => configSet vars kv.1 kv.2) m) = some data ∧
      handleSetConfig codec s name (some { Vars := c }) =
        ({ s with config_vars := s.config_vars ++
            [{ AppName := name, Version := v + 1, Data := data }] },
          .json 200 { version := v + 1,
                      vars := c.foldl (fun vars kv => configSet vars kv.1 kv.2) m }) := by
  obtain ⟨data, hdata, _⟩ := hcodec (c.foldl (fun vars kv => configSet vars kv.1 kv.2) m)
  refine ⟨data, hdata, ?_⟩
  have hcur : (match GetLatestConfig s name with
      | some currentCfg => (codec.unmarshal currentCfg.Data).1
      | none => ([] : ConfigData)) = m := by
    rcases hlatest with ⟨hnone, _, hm⟩ | ⟨cfg, hcfg, _, hm⟩
    · rw [hnone, hm]
    · rw [hcfg]; exact hm
  have hv : (GetLatestConfig s name = none ∧ v = 0) ∨
      ∃ c, GetLatestConfig s name = some c ∧ c.Version = v := by
    rcases hlatest with ⟨hnone, hv0, _⟩ | ⟨cfg, hcfg, hcv, _⟩
    · exact Or.inl ⟨hnone, hv0⟩
    · exact Or.inr ⟨cfg, hcfg, hcv⟩
  have hcreate := CreateConfigVersion_ok s name data v (fun _ => happ) hv
  unfold handleSetConfig
  cases hget : GetApp s name with
  | none => rw [hget] at happ; simp at happ
  | some a =>
    simp only [hcur, hdata, hcreate]

/-- The answer of handleGetConfig when the latest snapshot decodes. -/
theorem handleGetConfig_ok {β : Type} (codec : YamlCodec β) (s : Store β) (name : String)
    (cfg : ConfigVar β) (happ : (GetApp s name).isSome = true)
    (hlatest : GetLatestConfig s name = some cfg)
    (hdec : (codec.unmarshal cfg.Data).2 = true) :
    handleGetConfig codec s name =
      .json 200 { version := cfg.Version, vars := (codec.unmarshal cfg.Data).1 } := by
  unfold handleGetConfig
  cases hget : GetApp s name with
  | none => rw [hget] at happ; simp at happ
  | some a =>
    simp only [hlatest]
    have hpair : codec.unmarshal cfg.Data = ((codec.unmarshal cfg.Data).1, true) := by
      rw [← hdec]
    rw [hpair]

/-- The result of handleSetConfig on an existing app when the merged map
serialises. -/
theorem handleSetConfig_marshal {β : Type} (codec : YamlCodec β)
    (s : Store β) (name : String) (c : ConfigData)
    (happ : (GetApp s name).isSome = true) (v : Int) (m : ConfigData)
    (hlatest : (GetLatestConfig s name = none ∧ v = 0 ∧ m = []) ∨
      (∃ cfg, GetLatestConfig s name = some cfg ∧ cfg.Version = v ∧
        (codec.unmarshal cfg.Data).1 = m))
    (data : β)
    (hdata : codec.marshal (c.foldl (fun vars kv => configSet vars kv.1 kv.2) m) = some data) :
    handleSetConfig codec s name (some { Vars := c }) =
      ({ s with config_vars := s.config_vars ++
          [{ AppName := name, Version := v + 1, Data := data }] },
        .json 200 { version := v + 1,
                    vars := c.foldl (fun vars kv => configSet vars kv.1 kv.2) m }) := by
  have hcur : (match GetLatestConfig s name with
      | some currentCfg => (codec.unmarshal currentCfg.Data).1
      | none => ([] : ConfigData)) = m := by
    rcases hlatest with ⟨hnone, _, hm⟩ | ⟨cfg, hcfg, _, hm⟩
    · rw [hnone, hm]
    · rw [hcfg]; exact hm
  have hv : (GetLatestConfig s name = none ∧ v = 0) ∨
      ∃ c, GetLatestConfig s name = some c ∧ c.Version = v := by
    rcases hlatest with ⟨hnone, hv0, _⟩ | ⟨cfg, hcfg, hcv, _⟩
    · exact Or.inl ⟨hnone, hv0⟩
    · exact Or.inr ⟨cfg, hcfg, hcv⟩
  have hcreate := CreateConfigVersion_ok s name data v (fun _ => happ) hv
  unfold handleSetConfig
  cases hget : GetApp s name with
  | none => rw [hget] at happ; simp at happ
  | some a =>
    simp only [hcur, hdata, hcreate]

/-- What handleGetConfig answers once a snapshot that decodes was appended with
the next version. -/
theorem handleGetConfig_appended {β : Type} (codec : YamlCodec β) (s : Store β)
    (name : String) (happ : (GetApp s name).isSome = true) (v : Int) (data : β)
    (hv : (GetLatestConfig s name = none ∧ v = 0) ∨
      ∃ c, GetLatestConfig s name = some c ∧ c.Version = v)
    (hdec : (codec.unmarshal data).2 = true) :
    handleGetConfig codec { s with config_vars := s.config_vars ++
        [{ AppName := name, Version := v + 1, Data := data }] } name =
      .json 200 { version := v + 1, vars := (codec.unmarshal data).1 } := by
  have hlatest := GetLatestConfig_append s name data v hv
  have happ1 : (GetApp { s with config_vars := s.config_vars ++
      [{ AppName := name, Version := v + 1, Data := data }] } name).isSome = true := happ
  exact handleGetConfig_ok codec _ name _ happ1 hlatest hdec

/-- The state after setConfig {X:1} and setConfig {Y:2} on an app without
config, when the codec reads back the maps made of X = 1 and Y = 2: the latest
snapshot has version 2 and decodes to X = 1, Y = 2. -/
theorem set_X_then_Y_entries {β : Type} (codec : YamlCodec β)
    (hXY : ∀ m2, holdsOnly [("X", "1"), ("Y", "2")] m2 → codec.roundTrips m2)
    (s : Store β) (name : String) (happ : (GetApp s name).isSome = true)
    (hnone : GetLatestConfig s name = none) :
    ∃ d2,
      (GetApp (handleSetConfig codec
          (handleSetConfig codec s name (some { Vars := [("X", "1")] })).1
          name (some { Vars := [("Y", "2")] })).1 name).isSome = true ∧
      GetLatestConfig (handleSetConfig codec
          (handleSetConfig codec s name (some { Vars := [("X", "1")] })).1
          name (some { Vars := [("Y", "2")] })).1 name =
        some { AppName := name, Version := 2, Data := d2 } ∧
      (codec.unmarshal d2).2 = true ∧
      configGet (codec.unmarshal d2).1 "X" = some "1" ∧
      configGet (codec.unmarshal d2).1 "Y" = some "2" ∧
      ∀ k, k ≠ "X" → k ≠ "Y" → configGet (codec.unmarshal d2).1 k = none := by
  have hlook1 : ∀ k, configGet
      (([("X", "1")] : ConfigData).foldl (fun vars kv => configSet vars kv.1 kv.2) []) k =
      configGet [("X", "1")] k := by
    intro k
    rw [configGet_merge _ (by decide) _ k]
    cases configGet [("X", "1")] k <;> rfl
  have hentry1 : ∀ k v, configGet [("X", "1")] k = some v → (k, v) = ("X", "1") := by
    intro k v hkv
    by_cases hk : "X" = k
    · have : configGet [("X", "1")] k = some "1" := by simp [configGet, hk]
      rw [this] at hkv
      cases hkv
      rw [← hk]
    · have : configGet [("X", "1")] k = none := by simp [configGet, hk]
      rw [this] at hkv
      cases hkv
  obtain ⟨d1, hd1, hdec1, hr1⟩ := hXY
    (([("X", "1")] : ConfigData).foldl (fun vars kv => configSet vars kv.1 kv.2) [])
    (by
      intro k v hkv
      rw [hlook1] at hkv
      rw [hentry1 k v hkv]
      exact List.mem_cons_self _ _)
  have hres1 := handleSetConfig_marshal codec s name [("X", "1")] happ 0 []
    (Or.inl ⟨hnone, rfl, rfl⟩) d1 hd1
  rw [hres1]
  simp only
  have happ1 : (GetApp { s with config_vars := s.config_vars ++
      [{ AppName := name, Version := 0 + 1, Data := d1 }] } name).isSome = true := happ
  have hlatest1 := GetLatestConfig_append s name d1 0 (Or.inl ⟨hnone, rfl⟩)
  have hlook2 : ∀ k, configGet
      (([("Y", "2")] : ConfigData).foldl (fun vars kv => configSet vars kv.1 kv.2)
        (codec.unmarshal d1).1) k =
      (match configGet [("Y", "2")] k with
        | some x => some x
        | none => configGet [("X", "1")] k) := by
    intro k
    rw [configGet_merge _ (by decide) _ k, hr1 k, hlook1 k]
  obtain ⟨d2, hd2, hdec2, hr2⟩ := hXY
    (([("Y", "2")] : ConfigData).foldl (fun vars kv => configSet vars kv.1 kv.2)
      (codec.unmarshal d1).1)
    (by
      intro k v hkv
      rw [hlook2] at hkv
      by_cases hk : "Y" = k
      · have : configGet [("Y", "2")] k = some "2" := by simp [configGet, hk]
        rw [this] at hkv
        cases hkv
        rw [← hk]
        exact List.mem_cons_of_mem _ (List.mem_cons_self _ _)
      · have : configGet [("Y", "2")] k = none := by simp [configGet, hk]
        rw [this] at hkv
        rw [hentry1 k v hkv]
        exact List.mem_cons_self _ _)
  have hres2 := handleSetConfig_marshal codec _ name [("Y", "2")] happ1
    (0 + 1) (codec.unmarshal d1).1 (Or.inr ⟨_, hlatest1, rfl, rfl⟩) d2 hd2
  rw [hres2]
  simp only
  have hlatest2 := GetLatestConfig_append
    { s with config_vars := s.config_vars ++
      [{ AppName := name, Version := 0 + 1, Data := d1 }] } name d2 (0 + 1)
    (Or.inr ⟨_, hlatest1, rfl⟩)
  have htwo : ((0 : Int) + 1 + 1) = 2 := by norm_num
  rw [htwo] at hlatest2
  refine ⟨d2, happ, hlatest2, hdec2, ?_, ?_, ?_⟩
  · rw [hr2, hlook2]; rfl
  · rw [hr2, hlook2]; rfl
  · intro k hx hy
    rw [hr2, hlook2]
    have h1 : configGet [("Y", "2")] k = none := by
      simp [configGet, Ne.symm hy]
    have h2 : configGet [("X", "1")] k = none := by
      simp [configGet, Ne.symm hx]
    rw [h1, h2]

/-- C10, as stated, fails: on the app `web` without config, setConfig with the
changes map {"<<": "x"} answers 200 with version 1 and that map and appends the
snapshot; the snapshot written cannot be read back (the key is the YAML merge
key), so getConfig answers 500 and the snapshot has no map; the next setConfig,
{Y:2}, merges into an empty map and its snapshot of version 2 has lost the
key. -/
theorem handleSetConfig_merge_key_unreadable :
    (handleSetConfig mergeKeyCodec freshApp "web" (some { Vars := [("<<", "x")] })).2 =
      .json 200 { version := 1, vars := [("<<", "x")] } ∧
    (GetLatestConfig
      (handleSetConfig mergeKeyCodec freshApp "web" (some { Vars := [("<<", "x")] })).1
      "web").map (fun cfg => cfg.Version) = some 1 ∧
    handleGetConfig mergeKeyCodec
      (handleSetConfig mergeKeyCodec freshApp "web" (some { Vars := [("<<", "x")] })).1
      "web" = .error 500 "failed to parse config" ∧
    (handleSetConfig mergeKeyCodec
      (handleSetConfig mergeKeyCodec freshApp "web" (some { Vars := [("<<", "x")] })).1
      "web" (some { Vars := [("Y", "2")] })).2 =
      .json 200 { version := 2, vars := [("Y", "2")] } := by
  decide

/-- C10, amended: on an existing app whose latest config snapshot has version v
and decodes to the map m (v = 0 and m empty when it has none), setConfig with
the changes map c computes the merged map (every key of c carries the value of
c, every other key keeps the value of m, no other key appears); when the
merged map serialises, it appends one snapshot of version v + 1 holding the
serialised merged map and answers 200 with that version and the merged map
(when it does not serialise, the answer is 500 and nothing is stored).
When the YAML library reads back the merged map it wrote, the stored snapshot
decodes to the same keys and values and getConfig returns version v + 1 with
them.  So on an app without config, when the library reads back the maps made
of X = 1 and Y = 2, set {X:1}, then set {Y:2}, then get yields version 2 and
the map {X:1, Y:2}. -/
theorem handleSetConfig_appends_merged {β : Type} (codec : YamlCodec β)
    (s : Store β) (name : String) (c : ConfigData) (hc : isMap c)
    (happ : (GetApp s name).isSome = true) (v : Int) (m : ConfigData)
    (hlatest : (GetLatestConfig s name = none ∧ v = 0 ∧ m = []) ∨
      (∃ cfg, GetLatestConfig s name = some cfg ∧ cfg.Version = v ∧
        (codec.unmarshal cfg.Data).1 = m)) :
    (∃ merged,
      (∀ k, configGet merged k =
        (match configGet c k with
          | some x => some x
          | none => configGet m k)) ∧
      (∀ data, codec.marshal merged = some data →
        handleSetConfig codec s name (some { Vars := c }) =
          ({ s with config_vars := s.config_vars ++
              [{ AppName := name, Version := v + 1, Data := data }] },
            .json 200 { version := v + 1, vars := merged })) ∧
      (codec.marshal merged = none →
        handleSetConfig codec s name (some { Vars := c }) =
          (s, .error 500 "failed to serialize config")) ∧
      (codec.roundTrips merged →
        ∃ data,
          handleSetConfig codec s name (some { Vars := c }) =
            ({ s with config_vars := s.config_vars ++
                [{ AppName := name, Version := v + 1, Data := data }] },
              .json 200 { version := v + 1, vars := merged }) ∧
          (codec.unmarshal data).2 = true ∧
          (∀ k, configGet (codec.unmarshal data).1 k = configGet merged k) ∧
          handleGetConfig codec (handleSetConfig codec s name (some { Vars := c })).1 name =
            .json 200 { version := v + 1, vars := (codec.unmarshal data).1 })) ∧
    (GetLatestConfig s name = none →
      (∀ m2, holdsOnly [("X", "1"), ("Y", "2")] m2 → codec.roundTrips m2) →
      ∃ vars,
        handleGetConfig codec
          (handleSetConfig codec
            (handleSetConfig codec s name (some { Vars := [("X", "1")] })).1
            name (some { Vars := [("Y", "2")] })).1 name
          = .json 200 { version := 2, vars := vars } ∧
        configGet vars "X" = some "1" ∧ configGet vars "Y" = some "2" ∧
        ∀ k, k ≠ "X" → k ≠ "Y" → configGet vars k = none) := by
  have hv : (GetLatestConfig s name = none ∧ v = 0) ∨
      ∃ c, GetLatestConfig s name = some c ∧ c.Version = v := by
    rcases hlatest with ⟨hnone, hv0, _⟩ | ⟨cfg, hcfg, hcv, _⟩
    · exact Or.inl ⟨hnone, hv0⟩
    · exact Or.inr ⟨cfg, hcfg, hcv⟩
  constructor
  · refine ⟨_, configGet_merge c hc m, ?_, ?_, ?_⟩
    · intro data hdata
      exact handleSetConfig_marshal codec s name c happ v m hlatest data hdata
    · intro hfail
      have hcur : (match GetLatestConfig s name with
          | some currentCfg => (codec.unmarshal currentCfg.Data).1
          | none => ([] : ConfigData)) = m := by
        rcases hlatest with ⟨hnone, _, hm⟩ | ⟨cfg, hcfg, _, hm⟩
        · rw [hnone, hm]
        · rw [hcfg]; exact hm
      unfold handleSetConfig
      cases hget : GetApp s name with
      | none => rw [hget] at happ; simp at happ
      | some a =>
        simp only [hcur, hfail]
    · rintro ⟨data, hdata, hdec, hlook⟩
      have hres := handleSetConfig_marshal codec s name c happ v m hlatest data hdata
      refine ⟨data, hres, hdec, hlook, ?_⟩
      rw [hres]
      exact handleGetConfig_appended codec s name happ v data hv hdec
  · intro hnone hXY
    obtain ⟨d2, happ2, hlatest2, hdec2, hx, hy, hother⟩ :=
      set_X_then_Y_entries codec hXY s name happ hnone
    exact ⟨(codec.unmarshal d2).1,
      handleGetConfig_ok codec _ name _ happ2 hlatest2 hdec2, hx, hy, hother⟩

theorem plainCodec_lawful : plainCodec.lawful := by
  intro m
  refine ⟨m, rfl, ?_⟩
  intro d2 h
  cases h
  exact ⟨rfl, fun _ => rfl⟩

/-- C10, amended, at a concrete input: the first setConfig {X:1} on an app
without config, with the codec that rejects the merge key. -/
theorem handleSetConfig_appends_merged_witness :
    isMap [("X", "1")] ∧ (GetApp freshApp "web").isSome = true ∧
    GetLatestConfig freshApp "web" = none ∧
    handleSetConfig mergeKeyCodec freshApp "web" (some { Vars := [("X", "1")] }) =
      ({ freshApp with config_vars := freshApp.config_vars ++
          [{ AppName := "web", Version := 0 + 1, Data := [("X", "1")] }] },
        .json 200 { version := 0 + 1, vars := [("X", "1")] }) ∧
    (∃ merged,
      (∀ k, configGet merged k =
        (match configGet [("X", "1")] k with
          | some x => some x
          | none => configGet [] k)) ∧
      (∀ data, mergeKeyCodec.marshal merged = some data →
        handleSetConfig mergeKeyCodec freshApp "web" (some { Vars := [("X", "1")] }) =
          ({ freshApp with config_vars := freshApp.config_vars ++
              [{ AppName := "web", Version := 0 + 1, Data := data }] },
            .json 200 { version := 0 + 1, vars := merged }))) :=
  ⟨by decide, by decide, by decide, by decide, by
    obtain ⟨merged, h1, h2, _, _⟩ := (handleSetConfig_appends_merged mergeKeyCodec freshApp "web"
      [("X", "1")] (by decide) (by decide) 0 [] (Or.inl ⟨by decide, rfl, rfl⟩)).1
    exact ⟨merged, h1, h2⟩⟩

/-! ## Unsetting config keys (C11, C12) and append-only snapshots (C13) -/

/-- Every store has a latest config version for an app: the version of the
latest snapshot, or 0 when there is none. -/
theorem latest_version_exists {β : Type} (s : Store β) (name : String) :
    ∃ v : Int, (GetLatestConfig s name = none ∧ v = 0) ∨
      ∃ c, GetLatestConfig s name = some c ∧ c.Version = v := by
  cases h : GetLatestConfig s name with
  | none => exact ⟨0, Or.inl ⟨rfl, rfl⟩⟩
  | some c => exact ⟨c.Version, Or.inr ⟨c, rfl, rfl⟩⟩

/-- The two outcomes of handleSetConfig: an error that leaves the store as it
was, or 200 with one snapshot of the next version appended. -/
theorem handleSetConfig_cases {β : Type} (codec : YamlCodec β) (s : Store β) (name : String)
    (body : Option SetConfigRequest) :
    ((handleSetConfig codec s name body).1 = s ∧
      ∃ c m, (handleSetConfig codec s name body).2 = .error c m) ∨
    (∃ (data : β) (v : Int) (vars : ConfigData),
      ((GetLatestConfig s name = none ∧ v = 0) ∨
        ∃ c, GetLatestConfig s name = some c ∧ c.Version = v) ∧
      handleSetConfig codec s name body =
        ({ s with config_vars := s.config_vars ++
            [{ AppName := name, Version := v + 1, Data := data }] },
          .json 200 { version := v + 1, vars := vars })) := by
  unfold handleSetConfig
  cases hget : GetApp s name with
  | none => left; exact ⟨rfl, _, _, rfl⟩
  | some a =>
    cases body with
    | none => left; exact ⟨rfl, _, _, rfl⟩
    | some req =>
      simp only
      cases hm : codec.marshal _ with
      | none => left; exact ⟨rfl, _, _, rfl⟩
      | some data =>
        right
        obtain ⟨v, hv⟩ := latest_version_exists s name
        have hok := CreateConfigVersion_ok s name data v
          (fun _ => by rw [hget]; rfl) hv
        simp only [hok]
        exact ⟨data, v, _, hv, rfl⟩

/-- The two outcomes of handleUnsetConfig: an error that leaves the store as
it was, or 204 with one snapshot of the next version appended. -/
theorem handleUnsetConfig_cases {β : Type} (codec : YamlCodec β) (nilData : β) (s : Store β)
    (name key : String) :
    ((handleUnsetConfig codec nilData s name key).1 = s ∧
      ∃ c m, (handleUnsetConfig codec nilData s name key).2 = .error c m) ∨
    (∃ (data : β) (v : Int),
      ((GetLatestConfig s name = none ∧ v = 0) ∨
        ∃ c, GetLatestConfig s name = some c ∧ c.Version = v) ∧
      handleUnsetConfig codec nilData s name key =
        ({ s with config_vars := s.config_vars ++
            [{ AppName := name, Version := v + 1, Data := data }] },
          .noContent 204)) := by
  unfold handleUnsetConfig
  cases hget : GetApp s name with
  | none => left; exact ⟨rfl, _, _, rfl⟩
  | some a =>
    simp only
    cases hk : configGet _ key with
    | none => left; exact ⟨rfl, _, _, rfl⟩
    | some x =>
      right
      obtain ⟨v, hv⟩ := latest_version_exists s name
      have hok := CreateConfigVersion_ok s name
        ((codec.marshal (configDelete (match GetLatestConfig s name with
          | some currentCfg => (codec.unmarshal currentCfg.Data).1
          | none => []) key)).getD nilData) v
        (fun _ => by rw [hget]; rfl) hv
      simp only [hok]
      exact ⟨_, v, hv, rfl⟩

/-- C11: unsetConfig of a key that is absent from the latest config map of the
app, or on an app without any config snapshot, answers 404 (not found) and
leaves the store as it was: the snapshots of the app and its latest snapshot
are unchanged, no config version is created. -/
theorem handleUnsetConfig_absent_key {β : Type} (codec : YamlCodec β) (nilData : β)
    (s : Store β) (name key : String)
    (habsent : GetLatestConfig s name = none ∨
      ∃ cfg, GetLatestConfig s name = some cfg ∧
        configGet (codec.unmarshal cfg.Data).1 key = none) :
    (handleUnsetConfig codec nilData s name key).1 = s ∧
    (∃ m, (handleUnsetConfig codec nilData s name key).2 = .error 404 m) ∧
    ((GetApp s name).isSome = true →
      (handleUnsetConfig codec nilData s name key).2 = .error 404 "config key not found") ∧
    configsOf (handleUnsetConfig codec nilData s name key).1 name = configsOf s name ∧
    GetLatestConfig (handleUnsetConfig codec nilData s name key).1 name =
      GetLatestConfig s name := by
  have hkey : configGet (match GetLatestConfig s name with
      | some currentCfg => (codec.unmarshal currentCfg.Data).1
      | none => ([] : ConfigData)) key = none := by
    rcases habsent with hnone | ⟨cfg, hcfg, hk⟩
    · rw [hnone]; rfl
    · rw [hcfg]; exact hk
  have hres : (handleUnsetConfig codec nilData s name key).1 = s ∧
      (∃ m, (handleUnsetConfig codec nilData s name key).2 = .error 404 m) ∧
      ((GetApp s name).isSome = true →
        (handleUnsetConfig codec nilData s name key).2 =
          .error 404 "config key not found") := by
    unfold handleUnsetConfig
    cases hget : GetApp s name with
    | none => exact ⟨rfl, ⟨_, rfl⟩, fun h => by simp at h⟩
    | some a =>
      simp only [hkey]
      exact ⟨trivial, ⟨_, rfl⟩, fun _ => trivial⟩
  refine ⟨hres.1, hres.2.1, hres.2.2, ?_, ?_⟩
  · rw [hres.1]
  · rw [hres.1]

/-- C11 at a concrete input: the key Z is not in the map {X:1, Y:2}. -/
theorem handleUnsetConfig_absent_key_witness :
    (GetLatestConfig xyConfig "web" = none ∨
      ∃ cfg, GetLatestConfig xyConfig "web" = some cfg ∧
        configGet (plainCodec.unmarshal cfg.Data).1 "Z" = none) ∧
    (handleUnsetConfig plainCodec [] xyConfig "web" "Z").1 = xyConfig ∧
    (handleUnsetConfig plainCodec [] xyConfig "web" "Z").2 =
      .error 404 "config key not found" :=
  ⟨Or.inr ⟨_, rfl, by decide⟩,
    (handleUnsetConfig_absent_key plainCodec [] xyConfig "web" "Z"
      (Or.inr ⟨_, rfl, by decide⟩)).1,
    (handleUnsetConfig_absent_key plainCodec [] xyConfig "web" "Z"
      (Or.inr ⟨_, rfl, by decide⟩)).2.2.1 (by decide)⟩

/-- The result of handleUnsetConfig on an existing app whose latest map holds
the key, with a lawful codec. -/
theorem handleUnsetConfig_ok {β : Type} (codec : YamlCodec β) (hcodec : codec.lawful)
    (nilData : β) (s : Store β) (name key : String)
    (happ : (GetApp s name).isSome = true) (cfg : ConfigVar β)
    (hlatest : GetLatestConfig s name = some cfg)
    (hkey : (configGet (codec.unmarshal cfg.Data).1 key).isSome = true) :
    ∃ data,
      codec.marshal (configDelete (codec.unmarshal cfg.Data).1 key) = some data ∧
      handleUnsetConfig codec nilData s name key =
        ({ s with config_vars := s.config_vars ++
            [{ AppName := name, Version := cfg.Version + 1, Data := data }] },
          .noContent 204) := by
  obtain ⟨data, hdata, _⟩ := hcodec (configDelete (codec.unmarshal cfg.Data).1 key)
  refine ⟨data, hdata, ?_⟩
  have hcreate := CreateConfigVersion_ok s name data cfg.Version (fun _ => happ)
    (Or.inr ⟨cfg, hlatest, rfl⟩)
  unfold handleUnsetConfig
  cases hget : GetApp s name with
  | none => rw [hget] at happ; simp at happ
  | some a =>
    simp only [hlatest]
    cases hk : configGet (codec.unmarshal cfg.Data).1 key with
    | none => rw [hk] at hkey; simp at hkey
    | some x =>
      simp only [hdata, Option.getD_some, hcreate]

/-- The state after setConfig {X:1} and setConfig {Y:2} on an app without
config: the latest snapshot has version 2 and decodes to X = 1, Y = 2. -/
theorem set_X_then_Y {β : Type} (codec : YamlCodec β) (hcodec : codec.lawful)
    (s : Store β) (name : String) (happ : (GetApp s name).isSome = true)
    (hnone : GetLatestConfig s name = none) :
    ∃ d2,
      (GetApp (handleSetConfig codec
          (handleSetConfig codec s name (some { Vars := [("X", "1")] })).1
          name (some { Vars := [("Y", "2")] })).1 name).isSome = true ∧
      GetLatestConfig (handleSetConfig codec
          (handleSetConfig codec s name (some { Vars := [("X", "1")] })).1
          name (some { Vars := [("Y", "2")] })).1 name =
        some { AppName := name, Version := 2, Data := d2 } ∧
      (codec.unmarshal d2).2 = true ∧
      configGet (codec.unmarshal d2).1 "X" = some "1" ∧
      configGet (codec.unmarshal d2).1 "Y" = some "2" ∧
      ∀ k, k ≠ "X" → k ≠ "Y" → configGet (codec.unmarshal d2).1 k = none := by
  obtain ⟨d1, hd1, hres1⟩ := handleSetConfig_ok codec hcodec s name [("X", "1")] happ 0 []
    (Or.inl ⟨hnone, rfl, rfl⟩)
  obtain ⟨_, _, hround1⟩ := hcodec
    (([("X", "1")] : ConfigData).foldl (fun vars kv => configSet vars kv.1 kv.2) [])
  have hr1 := (hround1 d1 hd1).2
  rw [hres1]
  simp only
  have happ1 : (GetApp { s with config_vars := s.config_vars ++
      [{ AppName := name, Version := 0 + 1, Data := d1 }] } name).isSome = true := happ
  have hlatest1 := GetLatestConfig_append s name d1 0 (Or.inl ⟨hnone, rfl⟩)
  obtain ⟨d2, hd2, hres2⟩ := handleSetConfig_ok codec hcodec _ name [("Y", "2")] happ1
    (0 + 1) (codec.unmarshal d1).1 (Or.inr ⟨_, hlatest1, rfl, rfl⟩)
  obtain ⟨_, _, hround2⟩ := hcodec
    (([("Y", "2")] : ConfigData).foldl (fun vars kv => configSet vars kv.1 kv.2)
      (codec.unmarshal d1).1)
  have hr2 := hround2 d2 hd2
  rw [hres2]
  simp only
  have hlatest2 := GetLatestConfig_append
    { s with config_vars := s.config_vars ++
      [{ AppName := name, Version := 0 + 1, Data := d1 }] } name d2 (0 + 1)
    (Or.inr ⟨_, hlatest1, rfl⟩)
  have htwo : ((0 : Int) + 1 + 1) = 2 := by norm_num
  rw [htwo] at hlatest2
  have hlook : ∀ k, configGet (codec.unmarshal d2).1 k =
      (match configGet [("Y", "2")] k with
        | some x => some x
        | none =>
          (match configGet [("X", "1")] k with
            | some x => some x
            | none => none)) := by
    intro k
    rw [hr2.2 k, configGet_merge _ (by decide) _ k, hr1 k,
      configGet_merge _ (by decide) _ k]
    rfl
  refine ⟨d2, happ, hlatest2, hr2.1, ?_, ?_, ?_⟩
  · rw [hlook]; rfl
  · rw [hlook]; rfl
  · intro k hx hy
    rw [hlook]
    have h1 : configGet [("Y", "2")] k = none := by
      simp [configGet, Ne.symm hy]
    have h2 : configGet [("X", "1")] k = none := by
      simp [configGet, Ne.symm hx]
    rw [h1, h2]

/-- What appending the snapshot with the next version does to the table
`config_vars`, as seen through the queries. -/
theorem append_snapshot_frame {β : Type} (s : Store β) (name : String) (data : β) (v : Int)
    (hv : (GetLatestConfig s name = none ∧ v = 0) ∨
      ∃ c, GetLatestConfig s name = some c ∧ c.Version = v) :
    (∀ c ∈ configsOf s name, c.Version < v + 1) ∧
    GetConfigVersion { s with config_vars := s.config_vars ++
        [{ AppName := name, Version := v + 1, Data := data }] } name (v + 1) =
      some { AppName := name, Version := v + 1, Data := data } ∧
    (∀ a w c, GetConfigVersion s a w = some c →
      GetConfigVersion { s with config_vars := s.config_vars ++
        [{ AppName := name, Version := v + 1, Data := data }] } a w = some c) ∧
    (∀ a, a ≠ name →
      configsOf { s with config_vars := s.config_vars ++
        [{ AppName := name, Version := v + 1, Data := data }] } a = configsOf s a) := by
  have hbound : ∀ x ∈ configsOf s name, x.Version ≤ v := by
    rcases hv with ⟨hnone, _⟩ | ⟨c, hc, rfl⟩
    · intro x hx
      rw [(GetLatestConfig_none s name).1 hnone] at hx
      simp at hx
    · exact (GetLatestConfig_some s name c hc).2
  refine ⟨?_, ?_, ?_, ?_⟩
  · intro c hc
    have := hbound c hc
    omega
  · unfold GetConfigVersion
    have hold : s.config_vars.find?
        (fun c => decide (c.AppName = name ∧ c.Version = v + 1)) = none := by
      rw [List.find?_eq_none]
      intro x hx
      simp only [decide_eq_true_eq, not_and]
      intro hname hxv
      have := hbound x ((mem_configsOf s name x).2 ⟨hx, hname⟩)
      omega
    simp only [List.find?_append, hold, Option.none_or]
    simp
  · intro a w c hc
    unfold GetConfigVersion at hc ⊢
    simp only [List.find?_append, hc]
    rfl
  · intro a ha
    unfold configsOf
    simp only [List.filter_append]
    have : ([{ AppName := name, Version := v + 1, Data := data }] : List (ConfigVar β)).filter
        (fun c => decide (c.AppName = a)) = [] := by
      simp [List.filter_cons, Ne.symm ha]
    rw [this, List.append_nil]

/-- C13: config snapshots are append-only.  Every successful setConfig (200)
or unsetConfig (204) appends exactly one snapshot of the app, whose version is
the next one (the latest version plus one, 1 for the first, above every
existing version of the app); every snapshot GetConfigVersion returned before
is still returned unchanged, and the snapshots of other apps are untouched.
With a lawful codec a setConfig on an existing app always succeeds, also with
empty changes or changes equal to the current values. -/
theorem config_snapshots_append_only {β : Type} (codec : YamlCodec β) (nilData : β)
    (s s2 : Store β) (name : String)
    (hsucc : (∃ body b, handleSetConfig codec s name body = (s2, .json 200 b)) ∨
      (∃ key, handleUnsetConfig codec nilData s name key = (s2, .noContent 204))) :
    (∃ new : ConfigVar β,
      s2.config_vars = s.config_vars ++ [new] ∧ new.AppName = name ∧
      ((GetLatestConfig s name = none ∧ new.Version = 1) ∨
        (∃ c, GetLatestConfig s name = some c ∧ new.Version = c.Version + 1)) ∧
      (∀ c ∈ configsOf s name, c.Version < new.Version) ∧
      GetConfigVersion s2 name new.Version = some new ∧
      (∀ a w c, GetConfigVersion s a w = some c → GetConfigVersion s2 a w = some c) ∧
      (∀ a, a ≠ name → configsOf s2 a = configsOf s a)) ∧
    (codec.lawful → (GetApp s name).isSome = true → ∀ changes : ConfigData,
      ∃ b, (handleSetConfig codec s name (some { Vars := changes })).2 = .json 200 b) := by
  constructor
  · have hshape : ∃ (data : β) (v : Int),
        ((GetLatestConfig s name = none ∧ v = 0) ∨
          ∃ c, GetLatestConfig s name = some c ∧ c.Version = v) ∧
        s2 = { s with config_vars := s.config_vars ++
          [{ AppName := name, Version := v + 1, Data := data }] } := by
      rcases hsucc with ⟨body, b, h⟩ | ⟨key, h⟩
      · rcases handleSetConfig_cases codec s name body with
          ⟨_, c, m, herr⟩ | ⟨data, v, vars, hv, hres⟩
        · rw [h] at herr
          exact Response.noConfusion herr
        · rw [h] at hres
          exact ⟨data, v, hv, (Prod.mk.inj hres).1⟩
      · rcases handleUnsetConfig_cases codec nilData s name key with
          ⟨_, c, m, herr⟩ | ⟨data, v, hv, hres⟩
        · rw [h] at herr
          exact Response.noConfusion herr
        · rw [h] at hres
          exact ⟨data, v, hv, (Prod.mk.inj hres).1⟩
    obtain ⟨data, v, hv, hs2⟩ := hshape
    obtain ⟨h1, h2, h3, h4⟩ := append_snapshot_frame s name data v hv
    subst hs2
    refine ⟨{ AppName := name, Version := v + 1, Data := data }, rfl, rfl, ?_, h1, h2, h3, h4⟩
    rcases hv with ⟨hnone, hv0⟩ | ⟨c, hc, hcv⟩
    · left
      refine ⟨hnone, ?_⟩
      simp only [hv0]
      norm_num
    · right
      exact ⟨c, hc, by simp only [hcv]⟩
  · intro hcodec happ changes
    obtain ⟨v, hv⟩ := latest_version_exists s name
    have hlatest : (GetLatestConfig s name = none ∧ v = 0 ∧
        (match GetLatestConfig s name with
          | some cfg => (codec.unmarshal cfg.Data).1
          | none => ([] : ConfigData)) = []) ∨
        (∃ cfg, GetLatestConfig s name = some cfg ∧ cfg.Version = v ∧
          (codec.unmarshal cfg.Data).1 =
            (match GetLatestConfig s name with
              | some cfg => (codec.unmarshal cfg.Data).1
              | none => ([] : ConfigData))) := by
      rcases hv with ⟨hnone, hv0⟩ | ⟨c, hc, hcv⟩
      · left; exact ⟨hnone, hv0, by rw [hnone]⟩
      · right; exact ⟨c, hc, hcv, by rw [hc]⟩
    obtain ⟨data, _, hres⟩ := handleSetConfig_ok codec hcodec s name changes happ v _ hlatest
    rw [hres]
    exact ⟨_, rfl⟩

/-- C13 at a concrete input: an empty setConfig on the map {X:1, Y:2} still
appends a snapshot. -/
theorem config_snapshots_append_only_witness :
    handleSetConfig plainCodec xyConfig "web" (some { Vars := [] }) =
      ({ xyConfig with config_vars := xyConfig.config_vars ++
          [{ AppName := "web", Version := 3, Data := [("Y", "2"), ("X", "1")] }] },
        .json 200 { version := 3, vars := [("Y", "2"), ("X", "1")] }) ∧
    (∃ new : ConfigVar ConfigData,
      ({ xyConfig with config_vars := xyConfig.config_vars ++
          [{ AppName := "web", Version := 3, Data := [("Y", "2"), ("X", "1")] }] }
        : Store ConfigData).config_vars = xyConfig.config_vars ++ [new] ∧
      new.AppName = "web" ∧
      ((GetLatestConfig xyConfig "web" = none ∧ new.Version = 1) ∨
        (∃ c, GetLatestConfig xyConfig "web" = some c ∧ new.Version = c.Version + 1))) :=
  ⟨by decide, by
    obtain ⟨new, h1, h2, h3, _⟩ := (config_snapshots_append_only plainCodec [] xyConfig
      { xyConfig with config_vars := xyConfig.config_vars ++
          [{ AppName := "web", Version := 3, Data := [("Y", "2"), ("X", "1")] }] }
      "web" (Or.inl ⟨some { Vars := [] },
        { version := 3, vars := [("Y", "2"), ("X", "1")] }, by decide⟩)).1
    exact ⟨new, h1, h2, h3⟩⟩

/-! ## Scaling (C14, C15, C16) -/

theorem GetApp_congr {β : Type} (s1 s2 : Store β) (h : s2.apps = s1.apps) (name : String) :
    GetApp s2 name = GetApp s1 name := by
  unfold GetApp
  rw [h]

/-- ScaleProcess when the process exists: the count of the matching rows is
set, nothing else changes. -/
theorem ScaleProcess_update {β : Type} (s : Store β) (appName name : String) (count : Int)
    (hany : s.processes.any (fun p => p.AppName = appName ∧ p.Name = name) = true) :
    ScaleProcess s appName name count =
      .ok { s with processes := s.processes.map (fun p =>
        if p.AppName = appName ∧ p.Name = name then { p with Count := count } else p) } := by
  unfold ScaleProcess
  rw [if_pos hany]

/-- ScaleProcess when the process does not exist and the app does: a new
process without command is appended. -/
theorem ScaleProcess_insert {β : Type} (s : Store β) (appName name : String) (count : Int)
    (happ : (GetApp s appName).isSome = true)
    (hany : s.processes.any (fun p => p.AppName = appName ∧ p.Name = name) = false) :
    ScaleProcess s appName name count =
      .ok { s with processes := s.processes ++
        [{ AppName := appName, Name := name, Command := "", Count := count }] } := by
  unfold ScaleProcess UpsertProcess
  have hfk : ¬ (s.foreignKeys = true ∧ ¬ (s.apps.any (fun r => r.name = appName)) = true) := by
    rintro ⟨_, h2⟩
    rw [GetApp_isSome] at happ
    exact h2 happ
  simp only [hany, hfk, if_false, Bool.false_eq_true]

/-- The effect of ScaleProcess on an existing app, through the queries. -/
theorem ScaleProcess_ok {β : Type} (s : Store β) (appName name : String) (count : Int)
    (happ : (GetApp s appName).isSome = true) :
    ∃ s1, ScaleProcess s appName name count = .ok s1 ∧
      s1.foreignKeys = s.foreignKeys ∧ s1.apps = s.apps ∧ s1.releases = s.releases ∧
      s1.config_vars = s.config_vars ∧ s1.domains = s.domains ∧
      GetProcess s1 appName name =
        some { AppName := appName, Name := name,
               Command := (match GetProcess s appName name with
                 | some q => q.Command
                 | none => ""),
               Count := count } ∧
      (∀ a t, ¬ (a = appName ∧ t = name) → GetProcess s1 a t = GetProcess s a t) ∧
      (∀ p : Process, ¬ (p.AppName = appName ∧ p.Name = name) →
        (p ∈ s1.processes ↔ p ∈ s.processes)) ∧
      (s.uniqueProcesses → s1.uniqueProcesses) := by
  by_cases hany : s.processes.any (fun p => p.AppName = appName ∧ p.Name = name) = true
  · refine ⟨_, ScaleProcess_update s appName name count hany, rfl, rfl, rfl, rfl, rfl, ?_, ?_,
      ?_, ?_⟩
    · unfold GetProcess
      simp only [List.find?_map]
      have hcomp : ((fun p : Process => decide (p.AppName = appName ∧ p.Name = name)) ∘
          (fun p : Process =>
            if p.AppName = appName ∧ p.Name = name then { p with Count := count } else p)) =
          (fun p : Process => decide (p.AppName = appName ∧ p.Name = name)) := by
        funext p
        simp only [Function.comp]
        split <;> rfl
      rw [hcomp]
      cases hf : s.processes.find?
          (fun p => decide (p.AppName = appName ∧ p.Name = name)) with
      | none =>
        rw [List.find?_eq_none] at hf
        rw [List.any_eq_true] at hany
        obtain ⟨x, hx, hpx⟩ := hany
        exact absurd hpx (hf x hx)
      | some q =>
        have hq := List.find?_some hf
        simp only [decide_eq_true_eq] at hq
        simp only [Option.map_some', hq, and_self, if_true]
    · intro a t hne
      unfold GetProcess
      simp only [List.find?_map]
      have hcomp : ((fun p : Process => decide (p.AppName = a ∧ p.Name = t)) ∘
          (fun p : Process =>
            if p.AppName = appName ∧ p.Name = name then { p with Count := count } else p)) =
          (fun p : Process => decide (p.AppName = a ∧ p.Name = t)) := by
        funext p
        simp only [Function.comp]
        split <;> rfl
      rw [hcomp]
      cases hf : s.processes.find? (fun p => decide (p.AppName = a ∧ p.Name = t)) with
      | none => rfl
      | some q =>
        have hq := List.find?_some hf
        simp only [decide_eq_true_eq] at hq
        have hnot : ¬ (q.AppName = appName ∧ q.Name = name) := by
          rintro ⟨h1, h2⟩
          exact hne ⟨hq.1.symm.trans h1, hq.2.symm.trans h2⟩
        simp only [Option.map_some', hnot, if_false]
    · intro p hne
      simp only [List.mem_map]
      constructor
      · rintro ⟨q, hq, hqp⟩
        by_cases hc : q.AppName = appName ∧ q.Name = name
        · rw [if_pos hc] at hqp
          exfalso
          apply hne
          rw [← hqp]
          exact hc
        · rw [if_neg hc] at hqp
          rw [← hqp]; exact hq
      · intro hp
        exact ⟨p, hp, by rw [if_neg hne]⟩
    · intro hu
      unfold Store.uniqueProcesses at hu ⊢
      have hkeys : (s.processes.map (fun p =>
          if p.AppName = appName ∧ p.Name = name then { p with Count := count } else p)).map
            (fun p => (p.AppName, p.Name)) = s.processes.map (fun p => (p.AppName, p.Name)) := by
        rw [List.map_map]
        apply List.map_congr_left
        intro p _
        simp only [Function.comp]
        split <;> rfl
      simp only [hkeys]
      exact hu
  · have hany2 : s.processes.any (fun p => p.AppName = appName ∧ p.Name = name) = false := by
      simpa using hany
    have hnone : s.processes.find?
        (fun p => decide (p.AppName = appName ∧ p.Name = name)) = none := by
      rw [List.find?_eq_none]
      rw [List.any_eq_false] at hany2
      exact hany2
    refine ⟨_, ScaleProcess_insert s appName name count happ hany2, rfl, rfl, rfl, rfl, rfl,
      ?_, ?_, ?_, ?_⟩
    · unfold GetProcess
      simp only [List.find?_append, hnone, Option.none_or]
      simp
    · intro a t hne
      unfold GetProcess
      simp only [List.find?_append]
      have hnew : ([{ AppName := appName, Name := name, Command := "", Count := count }] :
          List Process).find? (fun p => decide (p.AppName = a ∧ p.Name = t)) = none := by
        rw [List.find?_eq_none]
        intro x hx
        rw [List.mem_singleton] at hx
        subst hx
        simp only [decide_eq_true_eq]
        rintro ⟨h1, h2⟩
        exact hne ⟨h1.symm, h2.symm⟩
      rw [hnew]
      cases s.processes.find? (fun p => decide (p.AppName = a ∧ p.Name = t)) <;> rfl
    · intro p hne
      simp only [List.mem_append, List.mem_singleton]
      constructor
      · rintro (hp | hp)
        · exact hp
        · exfalso
          apply hne
          rw [hp]
          exact ⟨rfl, rfl⟩
      · intro hp
        exact Or.inl hp
    · intro hu
      unfold Store.uniqueProcesses at hu ⊢
      simp only [List.map_append, List.map_cons, List.map_nil]
      rw [List.nodup_append]
      refine ⟨hu, List.nodup_singleton _, ?_⟩
      intro x hx hx2
      rw [List.mem_singleton] at hx2
      subst hx2
      obtain ⟨q, hq, hqk⟩ := List.mem_map.1 hx
      rw [List.any_eq_false] at hany2
      apply hany2 q hq
      simp only [Prod.mk.injEq] at hqk
      simpa using hqk

/-- The loop of handleScale over non-negative counts with distinct process
names, on an existing app: it ends with 200, every visited process has the
requested count, and the other definitions are as before. -/
theorem scaleLoop_ok {β : Type} (name : String) (l : List (String × Int))
    (hnonneg : ∀ e ∈ l, 0 ≤ e.2) (hnd : (l.map (fun e => e.1)).Nodup)
    (s : Store β) (happ : (GetApp s name).isSome = true) :
    ∃ s2, scaleLoop s name l = (s2, .json 200 (ListProcesses s2 name)) ∧
      s2.foreignKeys = s.foreignKeys ∧ s2.apps = s.apps ∧ s2.releases = s.releases ∧
      s2.config_vars = s.config_vars ∧ s2.domains = s.domains ∧
      (∀ e ∈ l, GetProcess s2 name e.1 =
        some { AppName := name, Name := e.1,
               Command := (match GetProcess s name e.1 with
                 | some q => q.Command
                 | none => ""),
               Count := e.2 }) ∧
      (∀ a t, ¬ (a = name ∧ t ∈ l.map (fun e => e.1)) → GetProcess s2 a t = GetProcess s a t) ∧
      (∀ p : Process, ¬ (p.AppName = name ∧ p.Name ∈ l.map (fun e => e.1)) →
        (p ∈ s2.processes ↔ p ∈ s.processes)) ∧
      (s.uniqueProcesses → s2.uniqueProcesses) := by
  induction l generalizing s with
  | nil =>
    exact ⟨s, rfl, rfl, rfl, rfl, rfl, rfl, fun e he => by simp at he, fun _ _ _ => rfl,
      fun _ _ => Iff.rfl, fun h => h⟩
  | cons e rest ih =>
    obtain ⟨t, n⟩ := e
    have hn : ¬ n < 0 := by
      have := hnonneg (t, n) (List.mem_cons_self _ _)
      simp only at this
      omega
    have hnd2 : t ∉ rest.map (fun e => e.1) ∧ (rest.map (fun e => e.1)).Nodup := by
      rw [List.map_cons, List.nodup_cons] at hnd
      exact hnd
    obtain ⟨s1, hs1, hfk1, happs1, hrel1, hcfg1, hdom1, hget1, hframe1, hmem1, hu1⟩ :=
      ScaleProcess_ok s name t n happ
    have happ1 : (GetApp s1 name).isSome = true := by
      rw [GetApp_congr s s1 happs1]; exact happ
    obtain ⟨s2, hs2, hfk2, happs2, hrel2, hcfg2, hdom2, hget2, hframe2, hmem2, hu2⟩ :=
      ih (fun e he => hnonneg e (List.mem_cons_of_mem _ he)) hnd2.2 s1 happ1
    refine ⟨s2, ?_, hfk2.trans hfk1, happs2.trans happs1, hrel2.trans hrel1,
      hcfg2.trans hcfg1, hdom2.trans hdom1, ?_, ?_, ?_, fun h => hu2 (hu1 h)⟩
    · simp only [scaleLoop, hn, if_false, hs1]
      exact hs2
    · intro e he
      rcases List.mem_cons.1 he with rfl | he
      · simp only
        rw [hframe2 name t (fun h => hnd2.1 h.2), hget1]
      · have hne : e.1 ≠ t := by
          intro h
          apply hnd2.1
          rw [← h]
          exact List.mem_map_of_mem _ he
        rw [hget2 e he, hframe1 name e.1 (fun h => hne h.2)]
    · intro a t2 hne
      have h1 : ¬ (a = name ∧ t2 ∈ rest.map (fun e => e.1)) := by
        rintro ⟨ha, ht⟩
        exact hne ⟨ha, List.mem_cons_of_mem _ ht⟩
      have h2 : ¬ (a = name ∧ t2 = t) := by
        rintro ⟨ha, ht⟩
        apply hne
        refine ⟨ha, ?_⟩
        rw [ht]
        exact List.mem_cons_self _ _
      rw [hframe2 a t2 h1, hframe1 a t2 h2]
    · intro p hne
      have h1 : ¬ (p.AppName = name ∧ p.Name ∈ rest.map (fun e => e.1)) := by
        rintro ⟨ha, ht⟩
        exact hne ⟨ha, List.mem_cons_of_mem _ ht⟩
      have h2 : ¬ (p.AppName = name ∧ p.Name = t) := by
        rintro ⟨ha, ht⟩
        apply hne
        refine ⟨ha, ?_⟩
        rw [ht]
        exact List.mem_cons_self _ _
      rw [hmem2 p h1, hmem1 p h2]

/-- C14 is broken by the code at this input: the app `web` has the process
`web` with count 1; the request names web = 3 and worker = -1 and the loop
visits web first.  The answer is 400 "count must be non-negative", but the
count of `web` has already been set to 3. -/
theorem handleScale_rejects_after_mutation :
    GetProcess freshApp "web" "web" =
      some { AppName := "web", Name := "web", Command := "", Count := 1 } ∧
    (handleScale freshApp "web" (some { Processes := [("web", 3), ("worker", -1)] })).2 =
      .error 400 "count must be non-negative" ∧
    GetProcess (handleScale freshApp "web"
        (some { Processes := [("web", 3), ("worker", -1)] })).1 "web" "web" =
      some { AppName := "web", Name := "web", Command := "", Count := 3 } ∧
    (handleScale freshApp "web" (some { Processes := [("web", 3), ("worker", -1)] })).1
      ≠ freshApp := by
  decide

/-- C15: after a scale request with distinct process names and counts that are
all non-negative on an existing app, each named process type has a definition
with the requested count, created with an empty command when it did not exist
and with its command unchanged when it did; the (app, type) pairs are still
unique; the definitions of types not named and of other apps are unchanged, and
so are the other tables.  A request that names at least one process is answered
200 with the process list. -/
theorem handleScale_sets_counts {β : Type} (s : Store β) (name : String) (req : ScaleRequest)
    (happ : (GetApp s name).isSome = true)
    (hnonneg : ∀ e ∈ req.Processes, 0 ≤ e.2)
    (hmap : (req.Processes.map (fun e => e.1)).Nodup) :
    (∀ e ∈ req.Processes, GetProcess (handleScale s name (some req)).1 name e.1 =
      some { AppName := name, Name := e.1,
             Command := (match GetProcess s name e.1 with
               | some q => q.Command
               | none => ""),
             Count := e.2 }) ∧
    (s.uniqueProcesses → (handleScale s name (some req)).1.uniqueProcesses) ∧
    (∀ p : Process, ¬ (p.AppName = name ∧ p.Name ∈ req.Processes.map (fun e => e.1)) →
      (p ∈ (handleScale s name (some req)).1.processes ↔ p ∈ s.processes)) ∧
    (∀ a t, ¬ (a = name ∧ t ∈ req.Processes.map (fun e => e.1)) →
      GetProcess (handleScale s name (some req)).1 a t = GetProcess s a t) ∧
    ((handleScale s name (some req)).1.apps = s.apps ∧
      (handleScale s name (some req)).1.releases = s.releases ∧
      (handleScale s name (some req)).1.config_vars = s.config_vars ∧
      (handleScale s name (some req)).1.domains = s.domains) ∧
    (req.Processes ≠ [] →
      (handleScale s name (some req)).2 =
        .json 200 (ListProcesses (handleScale s name (some req)).1 name)) := by
  by_cases hempty : req.Processes = []
  · have hres : handleScale s name (some req) = (s, .error 400 "processes is required") := by
      unfold handleScale
      cases hget : GetApp s name with
      | none => rw [hget] at happ; simp at happ
      | some a => simp [hempty]
    rw [hres, hempty]
    exact ⟨fun e he => by simp at he, fun h => h, fun _ _ => Iff.rfl, fun _ _ _ => rfl,
      ⟨rfl, rfl, rfl, rfl⟩, fun h => absurd rfl h⟩
  · obtain ⟨s2, hs2, _, happs, hrel, hcfg, hdom, hget, hframe, hmem, hu⟩ :=
      scaleLoop_ok name req.Processes hnonneg hmap s happ
    have hres : handleScale s name (some req) = (s2, .json 200 (ListProcesses s2 name)) := by
      unfold handleScale
      cases hg : GetApp s name with
      | none => rw [hg] at happ; simp at happ
      | some a =>
        have hlen : ¬ req.Processes.length = 0 := by
          intro h
          exact hempty (List.length_eq_zero.1 h)
        simp only [hlen, if_false]
        exact hs2
    rw [hres]
    exact ⟨hget, hu, hmem, hframe, ⟨happs, hrel, hcfg, hdom⟩, fun _ => rfl⟩

/-- C15 at a concrete input: web = 3 and worker = 2 on the app `web`. -/
theorem handleScale_sets_counts_witness :
    (GetApp freshApp "web").isSome = true ∧
    (∀ e ∈ [(("web" : String), (3 : Int)), ("worker", 2)], 0 ≤ e.2) ∧
    ([(("web" : String), (3 : Int)), ("worker", 2)].map (fun e => e.1)).Nodup ∧
    (∀ e ∈ [(("web" : String), (3 : Int)), ("worker", 2)],
      GetProcess (handleScale freshApp "web"
          (some { Processes := [("web", 3), ("worker", 2)] })).1 "web" e.1 =
        some { AppName := "web", Name := e.1,
               Command := (match GetProcess freshApp "web" e.1 with
                 | some q => q.Command
                 | none => ""),
               Count := e.2 }) ∧
    (handleScale freshApp "web" (some { Processes := [("web", 3), ("worker", 2)] })).2 =
      .json 200 [{ AppName := "web", Name := "web", Command := "", Count := 3 },
                 { AppName := "web", Name := "worker", Command := "", Count := 2 }] :=
  ⟨by decide, by decide, by decide,
    (handleScale_sets_counts freshApp "web" { Processes := [("web", 3), ("worker", 2)] }
      (by decide) (by decide) (by decide)).1,
    by decide⟩

theorem filter_instancesOf (l : List Process) (t : String) :
    (instancesOf l).filter (fun i => i.Name = t) =
      instancesOf (l.filter (fun p => p.Name = t)) := by
  induction l with
  | nil => rfl
  | cons p rest ih =>
    have hcons : ∀ (q : Process) (r : List Process), instancesOf (q :: r) =
        (List.range q.Count.toNat).map (fun (i : Nat) =>
          ({ Name := q.Name, Instance := (i : Int) + 1, State := "unknown",
             Container := "", Uptime := "" } : ProcessStatus)) ++ instancesOf r := by
      intro q r
      simp [instancesOf, List.flatMap_cons]
    rw [hcons, List.filter_append, ih]
    by_cases hp : p.Name = t
    · rw [List.filter_cons_of_pos (by simpa using hp), hcons]
      congr 1
      rw [List.filter_eq_self]
      intro x hx
      obtain ⟨i, _, rfl⟩ := List.mem_map.1 hx
      simpa using hp
    · rw [List.filter_cons_of_neg (by simpa using hp)]
      have : ((List.range p.Count.toNat).map (fun (i : Nat) =>
          ({ Name := p.Name, Instance := (i : Int) + 1, State := "unknown",
             Container := "", Uptime := "" } : ProcessStatus))).filter
            (fun i => decide (i.Name = t)) = [] := by
        rw [List.filter_eq_nil_iff]
        intro x hx
        obtain ⟨i, _, rfl⟩ := List.mem_map.1 hx
        simpa using hp
      rw [this, List.nil_append]

/-- With unique (app, type) pairs, the row GetProcess finds is the only row of
that app and type. -/
theorem unique_process_row (l : List Process) (a t : String) (p : Process)
    (hu : (l.map (fun q => (q.AppName, q.Name))).Nodup)
    (hf : l.find? (fun q => q.AppName = a ∧ q.Name = t) = some p) :
    l.filter (fun q => q.AppName = a ∧ q.Name = t) = [p] := by
  induction l with
  | nil => cases hf
  | cons x xs ih =>
    rw [List.map_cons, List.nodup_cons] at hu
    by_cases hx : x.AppName = a ∧ x.Name = t
    · rw [List.find?_cons_of_pos _ (by simpa using hx)] at hf
      cases hf
      rw [List.filter_cons_of_pos (by simpa using hx)]
      congr 1
      rw [List.filter_eq_nil_iff]
      intro y hy
      simp only [decide_eq_true_eq]
      intro hyk
      apply hu.1
      rw [List.mem_map]
      exact ⟨y, hy, by rw [hyk.1, hyk.2, hx.1, hx.2]⟩
    · rw [List.find?_cons_of_neg _ (by simpa using hx)] at hf
      rw [List.filter_cons_of_neg (by simpa using hx)]
      exact ih hu.2 hf

/-- The instances handleListProcesses derives for one process type: the
indices 1..Count of its definition. -/
theorem instances_of_type {β : Type} (s : Store β) (name t : String) (p : Process)
    (hu : s.uniqueProcesses) (hp : GetProcess s name t = some p) :
    (instancesOf (ListProcesses s name)).filter (fun i => i.Name = t) =
      (List.range p.Count.toNat).map (fun (i : Nat) =>
        ({ Name := p.Name, Instance := (i : Int) + 1, State := "unknown",
           Container := "", Uptime := "" } : ProcessStatus)) := by
  rw [filter_instancesOf]
  have hperm : ((ListProcesses s name).filter (fun q => q.Name = t)).Perm
      (s.processes.filter (fun q => q.AppName = name ∧ q.Name = t)) := by
    unfold ListProcesses
    refine ((List.perm_insertionSort _ _).filter _).trans ?_
    rw [List.filter_filter]
    apply List.Perm.of_eq
    apply List.filter_congr
    intro q _
    rw [Bool.and_comm]
    simp
  rw [unique_process_row s.processes name t p hu hp] at hperm
  rw [List.perm_singleton.1 hperm]
  simp [instancesOf, List.flatMap_cons]

/-- A scale request for one process type with a non-negative count. -/
theorem handleScale_single {β : Type} (s : Store β) (name t : String) (n : Int)
    (happ : (GetApp s name).isSome = true) (hn : 0 ≤ n) :
    ∃ s2 cmd, (handleScale s name (some { Processes := [(t, n)] })).1 = s2 ∧
      (GetApp s2 name).isSome = true ∧
      GetProcess s2 name t = some { AppName := name, Name := t, Command := cmd, Count := n } ∧
      (s.uniqueProcesses → s2.uniqueProcesses) := by
  obtain ⟨s2, hs2, _, happs, _, _, _, hget, _, _, hu⟩ :=
    scaleLoop_ok name [(t, n)] (fun e he => by
      rw [List.mem_singleton] at he; rw [he]; exact hn) (by simp) s happ
  refine ⟨s2, _, ?_, ?_, hget (t, n) (List.mem_singleton.2 rfl), hu⟩
  · unfold handleScale
    cases hg : GetApp s name with
    | none => rw [hg] at happ; simp at happ
    | some a =>
      simp only [List.length_singleton, Nat.succ_ne_zero, if_false]
      rw [hs2]
  · rw [GetApp_congr s s2 happs]; exact happ

theorem handleListProcesses_ok {β : Type} (s : Store β) (name : String)
    (happ : (GetApp s name).isSome = true) :
    handleListProcesses s name =
      .json 200 { definitions := ListProcesses s name,
                  instances := instancesOf (ListProcesses s name) } := by
  unfold handleListProcesses
  cases hg : GetApp s name with
  | none => rw [hg] at happ; simp at happ
  | some a => rfl

/-- C16, as stated, fails: scale {"web": 3} followed by scale {"web": 1} makes
no call to the supervisor.  On a host where nothing is supervised, index 1 of
web is not supervised afterwards; on a host where indices 1, 2 and 3 are
supervised, indices 2 and 3 are still supervised (orphaned) while the desired
count is 1. -/
theorem scale_does_not_touch_units :
    (idleHost.scaleThreeThenOne "web").units = [] ∧
    ("pvdify-web-web", (1 : Int)) ∉ (idleHost.scaleThreeThenOne "web").units ∧
    ("pvdify-web-web", (2 : Int)) ∈ (busyHost.scaleThreeThenOne "web").units ∧
    ("pvdify-web-web", (3 : Int)) ∈ (busyHost.scaleThreeThenOne "web").units ∧
    GetProcess (busyHost.scaleThreeThenOne "web").store "web" "web" =
      some { AppName := "web", Name := "web", Command := "", Count := 1 } := by
  decide

/-- C16, amended: on an existing app (process definitions unique per app and
type), after scale {"web": 3} handleListProcesses reports the instances 1, 2
and 3 of web, and after the following scale {"web": 1} it reports exactly
instance 1 of web, each in state "unknown": the instances are the indices
1..desiredCount derived from the stored definition.  The two requests leave
the supervised units as they were: no unit is started, stopped or removed. -/
theorem scale_three_then_one_instances {β : Type} (h : Host β) (name : String)
    (happ : (GetApp h.store name).isSome = true) (hu : h.store.uniqueProcesses) :
    (∃ d1 i1,
      handleListProcesses (h.scale name (some { Processes := [("web", 3)] })).1.store name =
        .json 200 { definitions := d1, instances := i1 } ∧
      i1.filter (fun i => i.Name = "web") =
        [{ Name := "web", Instance := 1, State := "unknown", Container := "", Uptime := "" },
         { Name := "web", Instance := 2, State := "unknown", Container := "", Uptime := "" },
         { Name := "web", Instance := 3, State := "unknown", Container := "", Uptime := "" }]) ∧
    (∃ d2 i2,
      handleListProcesses (h.scaleThreeThenOne name).store name =
        .json 200 { definitions := d2, instances := i2 } ∧
      i2.filter (fun i => i.Name = "web") =
        [{ Name := "web", Instance := 1, State := "unknown", Container := "", Uptime := "" }]) ∧
    (∃ cmd, GetProcess (h.scaleThreeThenOne name).store name "web" =
      some { AppName := name, Name := "web", Command := cmd, Count := 1 }) ∧
    (h.scaleThreeThenOne name).units = h.units := by
  obtain ⟨s1, cmd1, hs1, happ1, hget1, hu1⟩ :=
    handleScale_single h.store name "web" 3 happ (by norm_num)
  obtain ⟨s2, cmd2, hs2, happ2, hget2, hu2⟩ :=
    handleScale_single s1 name "web" 1 happ1 (by norm_num)
  have e1 : (h.scale name (some { Processes := [("web", 3)] })).1.store = s1 := hs1
  have e2 : (h.scaleThreeThenOne name).store = s2 := by
    unfold Host.scaleThreeThenOne
    show (handleScale (h.scale name (some { Processes := [("web", 3)] })).1.store name
      (some { Processes := [("web", 1)] })).1 = s2
    rw [e1]
    exact hs2
  refine ⟨?_, ?_, ?_, rfl⟩
  · rw [e1]
    refine ⟨_, _, handleListProcesses_ok s1 name happ1, ?_⟩
    rw [instances_of_type s1 name "web" _ (hu1 hu) hget1]
    rfl
  · rw [e2]
    refine ⟨_, _, handleListProcesses_ok s2 name happ2, ?_⟩
    rw [instances_of_type s2 name "web" _ (hu2 (hu1 hu)) hget2]
    rfl
  · rw [e2]
    exact ⟨cmd2, hget2⟩

/-- C16, amended, at a concrete input: the host with three supervised units. -/
theorem scale_three_then_one_instances_witness :
    (GetApp busyHost.store "web").isSome = true ∧ busyHost.store.uniqueProcesses ∧
    (∃ d2 i2,
      handleListProcesses (busyHost.scaleThreeThenOne "web").store "web" =
        .json 200 { definitions := d2, instances := i2 } ∧
      i2.filter (fun i => i.Name = "web") =
        [{ Name := "web", Instance := 1, State := "unknown", Container := "", Uptime := "" }]) ∧
    (busyHost.scaleThreeThenOne "web").units = busyHost.units :=
  ⟨by decide, by decide,
    (scale_three_then_one_instances busyHost "web" (by decide) (by decide)).2.1,
    (scale_three_then_one_instances busyHost "web" (by decide) (by decide)).2.2.2⟩

/-! ## Ingress routes (C17, C18, C19) -/

theorem updateExisting_none (rules : List Tunnel.IngressRule) (h svc : String)
    (hno : ∀ r ∈ rules, r.Hostname ≠ h) : Tunnel.updateExisting rules h svc = none := by
  induction rules with
  | nil => rfl
  | cons r rest ih =>
    have hr : r.Hostname ≠ h := hno r (List.mem_cons_self _ _)
    simp only [Tunnel.updateExisting, hr, if_false,
      ih (fun x hx => hno x (List.mem_cons_of_mem _ hx)), Option.map_none']

/-- The loop replaces the service of the first rule with the hostname. -/
theorem updateExisting_split (pre post : List Tunnel.IngressRule) (r : Tunnel.IngressRule)
    (h svc : String) (hpre : ∀ x ∈ pre, x.Hostname ≠ h) (hr : r.Hostname = h) :
    Tunnel.updateExisting (pre ++ r :: post) h svc =
      some (pre ++ { Hostname := h, Service := svc } :: post) := by
  induction pre with
  | nil =>
    simp only [List.nil_append, Tunnel.updateExisting, hr, if_true]
  | cons x xs ih =>
    have hx : x.Hostname ≠ h := hpre x (List.mem_cons_self _ _)
    have hrec := ih (fun y hy => hpre y (List.mem_cons_of_mem _ hy))
    show Tunnel.updateExisting (x :: (xs ++ r :: post)) h svc = _
    simp only [Tunnel.updateExisting, hx, if_false, hrec, Option.map_some', List.cons_append]

/-- A list with a rule for the hostname splits at the first such rule. -/
theorem first_rule_split (rules : List Tunnel.IngressRule) (h : String)
    (hex : ∃ r ∈ rules, r.Hostname = h) :
    ∃ pre r post, rules = pre ++ r :: post ∧ r.Hostname = h ∧ ∀ x ∈ pre, x.Hostname ≠ h := by
  induction rules with
  | nil =>
    obtain ⟨r, hr, _⟩ := hex
    simp at hr
  | cons x xs ih =>
    by_cases hx : x.Hostname = h
    · exact ⟨[], x, xs, rfl, hx, fun y hy => by simp at hy⟩
    · obtain ⟨r, hr, hrh⟩ := hex
      have hr2 : r ∈ xs := by
        rcases List.mem_cons.1 hr with rfl | hr
        · exact absurd hrh hx
        · exact hr
      obtain ⟨pre, r2, post, hsplit, hr2h, hpre⟩ := ih ⟨r, hr2, hrh⟩
      refine ⟨x :: pre, r2, post, by rw [hsplit]; rfl, hr2h, ?_⟩
      intro y hy
      rcases List.mem_cons.1 hy with rfl | hy
      · exact hx
      · exact hpre y hy

/-- AddRoute on a list with a rule for the hostname. -/
theorem ingressAfterAdd_existing (pre post : List Tunnel.IngressRule) (r : Tunnel.IngressRule)
    (h : String) (p : Int) (hpre : ∀ x ∈ pre, x.Hostname ≠ h) (hr : r.Hostname = h) :
    Tunnel.ingressAfterAdd (pre ++ r :: post) h p =
      pre ++ { Hostname := h, Service := Tunnel.serviceURL p } :: post := by
  unfold Tunnel.ingressAfterAdd
  rw [updateExisting_split pre post r h _ hpre hr]

/-- AddRoute on a non-empty list without a rule for the hostname: the new rule
goes before the last rule. -/
theorem ingressAfterAdd_absent (init : List Tunnel.IngressRule) (c : Tunnel.IngressRule)
    (h : String) (p : Int) (hno : ∀ x ∈ init ++ [c], x.Hostname ≠ h) :
    Tunnel.ingressAfterAdd (init ++ [c]) h p =
      init ++ [{ Hostname := h, Service := Tunnel.serviceURL p }, c] := by
  unfold Tunnel.ingressAfterAdd
  rw [updateExisting_none _ h _ hno]
  have hlen : (init ++ [c]).length - 1 = init.length := by simp
  have hpos : (init ++ [c]).length > 0 := by simp
  simp only [hpos, if_true, hlen, List.take_left', List.drop_left']
  simp

/-- AddRoute on the empty list. -/
theorem ingressAfterAdd_nil (h : String) (p : Int) :
    Tunnel.ingressAfterAdd [] h p =
      [{ Hostname := h, Service := Tunnel.serviceURL p }, Tunnel.catchAll] := by
  rfl

/-- The rule list AddRoute computes, for a non-empty hostname h.  On a rule
list that has a rule for h, the service of the first such rule is replaced in
place: the list keeps its length, the rule keeps its position, every other rule
is unchanged, and computing it again from the result changes nothing.  On a
rule list without a rule for h, computing it for t1 and then for t2 yields
exactly one rule for h, with target t2, placed before the last rule of the
list, which stays last; on the empty list the result is that rule followed by a
catch-all. -/
theorem ingressAfterAdd_in_place (rules : List Tunnel.IngressRule) (h : String) (p : Int)
    (hne : h ≠ "") :
    ((∃ r ∈ rules, r.Hostname = h) →
      (∃ pre r post, rules = pre ++ r :: post ∧ r.Hostname = h ∧
        (∀ x ∈ pre, x.Hostname ≠ h) ∧
        Tunnel.ingressAfterAdd rules h p =
          pre ++ { Hostname := h, Service := Tunnel.serviceURL p } :: post) ∧
      (Tunnel.ingressAfterAdd rules h p).length = rules.length ∧
      Tunnel.ingressAfterAdd (Tunnel.ingressAfterAdd rules h p) h p =
        Tunnel.ingressAfterAdd rules h p) ∧
    ((∀ r ∈ rules, r.Hostname ≠ h) → ∀ t1 t2 : Int,
      (Tunnel.ingressAfterAdd (Tunnel.ingressAfterAdd rules h t1) h t2).filter
          (fun r => r.Hostname = h) = [{ Hostname := h, Service := Tunnel.serviceURL t2 }] ∧
      (∀ init c, rules = init ++ [c] →
        Tunnel.ingressAfterAdd (Tunnel.ingressAfterAdd rules h t1) h t2 =
          init ++ [{ Hostname := h, Service := Tunnel.serviceURL t2 }, c]) ∧
      (rules = [] →
        Tunnel.ingressAfterAdd (Tunnel.ingressAfterAdd rules h t1) h t2 =
          [{ Hostname := h, Service := Tunnel.serviceURL t2 }, Tunnel.catchAll])) := by
  constructor
  · intro hex
    obtain ⟨pre, r, post, hsplit, hr, hpre⟩ := first_rule_split rules h hex
    have hres := ingressAfterAdd_existing pre post r h p hpre hr
    rw [← hsplit] at hres
    refine ⟨⟨pre, r, post, hsplit, hr, hpre, hres⟩, ?_, ?_⟩
    · rw [hres, hsplit]
      simp
    · rw [hres]
      exact ingressAfterAdd_existing pre post _ h p hpre rfl
  · intro hno t1 t2
    have hfilter : ∀ l : List Tunnel.IngressRule, (∀ x ∈ l, x.Hostname ≠ h) →
        l.filter (fun r => decide (r.Hostname = h)) = [] := by
      intro l hl
      rw [List.filter_eq_nil_iff]
      intro x hx
      simpa using hl x hx
    rcases List.eq_nil_or_concat rules with hnil | ⟨init, c, hconcat⟩
    · subst hnil
      have hres : Tunnel.ingressAfterAdd (Tunnel.ingressAfterAdd [] h t1) h t2 =
          [{ Hostname := h, Service := Tunnel.serviceURL t2 }, Tunnel.catchAll] := by
        rw [ingressAfterAdd_nil]
        exact ingressAfterAdd_existing [] [Tunnel.catchAll] _ h t2 (fun x hx => by simp at hx) rfl
      refine ⟨?_, ?_, fun _ => hres⟩
      · rw [hres]
        have hc : Tunnel.catchAll.Hostname ≠ h := fun e => hne e.symm
        simp [List.filter_cons, hc]
      · intro init c hic
        exfalso
        have := congrArg List.length hic
        simp at this
    · rw [List.concat_eq_append] at hconcat
      subst hconcat
      have hres : Tunnel.ingressAfterAdd (Tunnel.ingressAfterAdd (init ++ [c]) h t1) h t2 =
          init ++ [{ Hostname := h, Service := Tunnel.serviceURL t2 }, c] := by
        rw [ingressAfterAdd_absent init c h t1 hno]
        exact ingressAfterAdd_existing init [c] _ h t2
          (fun x hx => hno x (List.mem_append_left _ hx)) rfl
      refine ⟨?_, ?_, fun hnil => ?_⟩
      · rw [hres, List.filter_append,
          hfilter init (fun x hx => hno x (List.mem_append_left _ hx))]
        have hc : c.Hostname ≠ h := hno c (by simp)
        simp [List.filter_cons, hc]
      · intro init2 c2 hic
        obtain ⟨e1, e2⟩ := List.append_inj' hic rfl
        rw [hres, e1]
        simp only [List.cons.injEq, and_true] at e2
        rw [e2]
      · exfalso
        have := congrArg List.length hnil
        simp at this

/-- AddRoute on a file that loads and a result that serialises: the file then
holds the serialised configuration with the rule list AddRoute computes. -/
theorem AddRoute_ok {β : Type} (codec : Tunnel.ConfigCodec β) (m : Tunnel.Manager)
    (file : Option β) (cfg : Tunnel.Config) (h : String) (p : Int) (data : β)
    (hload : m.Load codec file = .ok cfg)
    (hm : codec.marshal { cfg with Ingress := Tunnel.ingressAfterAdd cfg.Ingress h p } =
      .ok data) :
    m.AddRoute codec file h p = (some data, none) := by
  unfold Tunnel.Manager.AddRoute
  rw [hload]
  unfold Tunnel.Manager.Save
  dsimp only
  rw [hm]

/-- RemoveRoute on a file that loads and a result that serialises. -/
theorem RemoveRoute_ok {β : Type} (codec : Tunnel.ConfigCodec β) (m : Tunnel.Manager)
    (file : Option β) (cfg : Tunnel.Config) (h : String) (data : β)
    (hload : m.Load codec file = .ok cfg)
    (hm : codec.marshal { cfg with Ingress := Tunnel.ingressAfterRemove cfg.Ingress h } =
      .ok data) :
    m.RemoveRoute codec file h = (some data, none) := by
  unfold Tunnel.Manager.RemoveRoute
  rw [hload]
  unfold Tunnel.Manager.Save
  dsimp only
  rw [hm]

/-- Load of a file whose content parses. -/
theorem Load_some {β : Type} (codec : Tunnel.ConfigCodec β) (m : Tunnel.Manager)
    (data : β) (cfg : Tunnel.Config) (hu : codec.unmarshal data = .ok cfg) :
    m.Load codec (some data) = .ok cfg := by
  unfold Tunnel.Manager.Load
  dsimp only
  rw [hu]

/-- C17, as stated, fails: on a missing config file, AddRoute for the hostname
"\na.x.com" (a line feed, then a.x.com) and port 3000 succeeds and writes the
file; the second AddRoute for that hostname, with port 3001, cannot parse the
file the first one wrote: it returns an error and the file still holds the
target of the first call. -/
theorem AddRoute_twice_second_fails :
    Tunnel.Manager.AddRoute Tunnel.lineCodec Tunnel.sampleManager none "\na.x.com" 3000 =
      (some { Tunnel := "", CredentialsFile := "",
              Ingress := [{ Hostname := "\na.x.com", Service := "http://localhost:3000" },
                          Tunnel.catchAll] }, none) ∧
    (Tunnel.Manager.AddRoute Tunnel.lineCodec Tunnel.sampleManager
      (Tunnel.Manager.AddRoute Tunnel.lineCodec Tunnel.sampleManager none "\na.x.com" 3000).1
      "\na.x.com" 3001).2 ≠ none ∧
    (Tunnel.Manager.AddRoute Tunnel.lineCodec Tunnel.sampleManager
      (Tunnel.Manager.AddRoute Tunnel.lineCodec Tunnel.sampleManager none "\na.x.com" 3000).1
      "\na.x.com" 3001).1.map (fun cfg => cfg.Ingress) =
      some [{ Hostname := "\na.x.com", Service := "http://localhost:3000" },
            Tunnel.catchAll] := by
  decide

/-- C17, amended: for a config file that loads to the configuration cfg (a
missing file loads to the configuration with only the catch-all) and a
non-empty hostname h.  When cfg has a rule for h and the new configuration
serialises, AddRoute(h, p) returns nil and writes cfg with the service of the
first rule for h replaced in place (same position, same length, every other
rule unchanged); and when the file it wrote parses back to what was written,
AddRoute(h, p) again returns nil and writes the same bytes.  When cfg has no
rule for h, the configurations serialise and the file written by
AddRoute(h, t1) parses back to what was written, AddRoute(h, t1) then
AddRoute(h, t2) returns nil and writes the configuration with exactly one rule
for h, with target t2, placed before the last rule of cfg, which stays last
(after a catch-all added when cfg had no rule at all). -/
theorem AddRoute_replaces_in_place {β : Type} (codec : Tunnel.ConfigCodec β)
    (m : Tunnel.Manager) (file : Option β) (cfg : Tunnel.Config) (h : String)
    (hne : h ≠ "") (hload : m.Load codec file = .ok cfg) :
    ((∃ r ∈ cfg.Ingress, r.Hostname = h) → ∀ (p : Int) (data : β),
      codec.marshal { cfg with Ingress := Tunnel.ingressAfterAdd cfg.Ingress h p } = .ok data →
      m.AddRoute codec file h p = (some data, none) ∧
      (∃ pre r post, cfg.Ingress = pre ++ r :: post ∧ r.Hostname = h ∧
        (∀ x ∈ pre, x.Hostname ≠ h) ∧
        Tunnel.ingressAfterAdd cfg.Ingress h p =
          pre ++ { Hostname := h, Service := Tunnel.serviceURL p } :: post) ∧
      (Tunnel.ingressAfterAdd cfg.Ingress h p).length = cfg.Ingress.length ∧
      (codec.unmarshal data =
          .ok { cfg with Ingress := Tunnel.ingressAfterAdd cfg.Ingress h p } →
        m.AddRoute codec (m.AddRoute codec file h p).1 h p = (some data, none))) ∧
    ((∀ r ∈ cfg.Ingress, r.Hostname ≠ h) → ∀ (t1 t2 : Int) (d1 d2 : β),
      codec.marshal { cfg with Ingress := Tunnel.ingressAfterAdd cfg.Ingress h t1 } = .ok d1 →
      codec.unmarshal d1 =
        .ok { cfg with Ingress := Tunnel.ingressAfterAdd cfg.Ingress h t1 } →
      codec.marshal
        { cfg with
          Ingress := Tunnel.ingressAfterAdd (Tunnel.ingressAfterAdd cfg.Ingress h t1) h t2 } =
        .ok d2 →
      m.AddRoute codec (m.AddRoute codec file h t1).1 h t2 = (some d2, none) ∧
      (Tunnel.ingressAfterAdd (Tunnel.ingressAfterAdd cfg.Ingress h t1) h t2).filter
          (fun r => r.Hostname = h) = [{ Hostname := h, Service := Tunnel.serviceURL t2 }] ∧
      (∀ init c, cfg.Ingress = init ++ [c] →
        Tunnel.ingressAfterAdd (Tunnel.ingressAfterAdd cfg.Ingress h t1) h t2 =
          init ++ [{ Hostname := h, Service := Tunnel.serviceURL t2 }, c]) ∧
      (cfg.Ingress = [] →
        Tunnel.ingressAfterAdd (Tunnel.ingressAfterAdd cfg.Ingress h t1) h t2 =
          [{ Hostname := h, Service := Tunnel.serviceURL t2 }, Tunnel.catchAll])) := by
  have hlist := ingressAfterAdd_in_place cfg.Ingress h
  constructor
  · intro hex p data hm
    obtain ⟨hsplit, hlen, hidem⟩ := (hlist p hne).1 hex
    have hfirst := AddRoute_ok codec m file cfg h p data hload hm
    refine ⟨hfirst, hsplit, hlen, ?_⟩
    intro hu
    rw [hfirst]
    refine AddRoute_ok codec m (some data) _ h p data (Load_some codec m data _ hu) ?_
    show codec.marshal (Tunnel.Config.mk cfg.Tunnel cfg.CredentialsFile
      (Tunnel.ingressAfterAdd (Tunnel.ingressAfterAdd cfg.Ingress h p) h p)) = .ok data
    rw [hidem]
    exact hm
  · intro hno t1 t2 d1 d2 hm1 hu1 hm2
    obtain ⟨hfilter, hinit, hnil⟩ := (hlist 0 hne).2 hno t1 t2
    have hfirst := AddRoute_ok codec m file cfg h t1 d1 hload hm1
    refine ⟨?_, hfilter, hinit, hnil⟩
    rw [hfirst]
    exact AddRoute_ok codec m (some d1) _ h t2 d2 (Load_some codec m d1 _ hu1) hm2

/-- C17, amended, at a concrete input: the route a.x.com added twice to a
missing config file. -/
theorem AddRoute_replaces_in_place_witness :
    ("a.x.com" : String) ≠ "" ∧
    Tunnel.Manager.Load Tunnel.lineCodec Tunnel.sampleManager none =
      .ok (Tunnel.defaultConfig Tunnel.sampleManager) ∧
    (∀ r ∈ (Tunnel.defaultConfig Tunnel.sampleManager).Ingress, r.Hostname ≠ "a.x.com") ∧
    Tunnel.Manager.AddRoute Tunnel.lineCodec Tunnel.sampleManager
      (Tunnel.Manager.AddRoute Tunnel.lineCodec Tunnel.sampleManager none "a.x.com" 3000).1
      "a.x.com" 3001 =
      (some { Tunnel := "", CredentialsFile := "",
              Ingress := [{ Hostname := "a.x.com", Service := "http://localhost:3001" },
                          { Hostname := "", Service := "http_status:404" }] }, none) :=
  ⟨by decide, rfl, by decide,
    ((AddRoute_replaces_in_place Tunnel.lineCodec Tunnel.sampleManager none
      (Tunnel.defaultConfig Tunnel.sampleManager) "a.x.com" (by decide) rfl).2
      (by decide) 3000 3001 _ _ rfl rfl rfl).1⟩

/-- C18, as stated, fails for the empty hostname: the catch-all is the rule
without hostname, so AddRoute("", 8080) on the default list takes the catch-all
for the existing rule and overwrites its service. -/
theorem AddRoute_empty_hostname_overwrites_catch_all :
    Tunnel.ingressAfterAdd [Tunnel.catchAll] "" 8080 =
      [{ Hostname := "", Service := "http://localhost:8080" }] ∧
    (Tunnel.ingressAfterAdd [Tunnel.catchAll] "" 8080).getLast? ≠ some Tunnel.catchAll ∧
    (Tunnel.Manager.AddRoute Tunnel.lineCodec
        { configPath := "/etc/tunnel.yml", credentialsFile := "", tunnelID := "" }
        none "" 8080).1.map (fun cfg => cfg.Ingress) =
      some [{ Hostname := "", Service := "http://localhost:8080" }] := by
  decide

/-- C18, amended: for a rule list that ends in a catch-all rule (a rule with
no hostname) and every non-empty hostname h and port p, after AddRoute(h, p)
the list still ends in that same, unmodified catch-all rule.  When h had no
rule, the rules before the catch-all are the previous ones in their order
followed by the new rule; when h had a rule, the first such rule has its
service replaced in place. -/
theorem AddRoute_keeps_catch_all (init : List Tunnel.IngressRule) (c : Tunnel.IngressRule)
    (h : String) (p : Int) (hc : c.Hostname = "") (hne : h ≠ "") :
    ∃ init2, Tunnel.ingressAfterAdd (init ++ [c]) h p = init2 ++ [c] ∧
      (Tunnel.ingressAfterAdd (init ++ [c]) h p).getLast? = some c ∧
      ((∀ r ∈ init, r.Hostname ≠ h) →
        init2 = init ++ [{ Hostname := h, Service := Tunnel.serviceURL p }]) ∧
      ((∃ r ∈ init, r.Hostname = h) →
        ∃ pre r post, init = pre ++ r :: post ∧ r.Hostname = h ∧
          (∀ x ∈ pre, x.Hostname ≠ h) ∧
          init2 = pre ++ { Hostname := h, Service := Tunnel.serviceURL p } :: post) := by
  have hch : c.Hostname ≠ h := by rw [hc]; exact Ne.symm hne
  by_cases hex : ∃ r ∈ init, r.Hostname = h
  · obtain ⟨pre, r, post, hsplit, hr, hpre⟩ := first_rule_split init h hex
    have hres : Tunnel.ingressAfterAdd (init ++ [c]) h p =
        (pre ++ { Hostname := h, Service := Tunnel.serviceURL p } :: post) ++ [c] := by
      rw [hsplit]
      have := ingressAfterAdd_existing pre (post ++ [c]) r h p hpre hr
      simpa using this
    refine ⟨_, hres, ?_, ?_, ?_⟩
    · rw [hres]; exact List.getLast?_concat _
    · intro hno
      obtain ⟨r0, hr0, hr0h⟩ := hex
      exact absurd hr0h (hno r0 hr0)
    · intro _
      exact ⟨pre, r, post, hsplit, hr, hpre, rfl⟩
  · have hno : ∀ r ∈ init, r.Hostname ≠ h := by
      intro r hr hrh
      exact hex ⟨r, hr, hrh⟩
    have hno2 : ∀ x ∈ init ++ [c], x.Hostname ≠ h := by
      intro x hx
      rcases List.mem_append.1 hx with hx | hx
      · exact hno x hx
      · rw [List.mem_singleton] at hx
        rw [hx]; exact hch
    have hres : Tunnel.ingressAfterAdd (init ++ [c]) h p =
        (init ++ [{ Hostname := h, Service := Tunnel.serviceURL p }]) ++ [c] := by
      rw [ingressAfterAdd_absent init c h p hno2]
      simp
    refine ⟨_, hres, ?_, ?_, ?_⟩
    · rw [hres]; exact List.getLast?_concat _
    · intro _; rfl
    · intro hex2
      exact absurd hex2 hex

/-- C18, amended, at a concrete input: a second route added to a list with
one route and the catch-all. -/
theorem AddRoute_keeps_catch_all_witness :
    Tunnel.catchAll.Hostname = "" ∧ ("b.x.com" : String) ≠ "" ∧
    (∃ init2,
      Tunnel.ingressAfterAdd ([{ Hostname := "a.x.com", Service := "http://localhost:3000" }]
          ++ [Tunnel.catchAll]) "b.x.com" 3001 = init2 ++ [Tunnel.catchAll] ∧
      (Tunnel.ingressAfterAdd ([{ Hostname := "a.x.com", Service := "http://localhost:3000" }]
          ++ [Tunnel.catchAll]) "b.x.com" 3001).getLast? = some Tunnel.catchAll) :=
  ⟨rfl, by decide, by
    obtain ⟨init2, h1, h2, _⟩ := AddRoute_keeps_catch_all
      [{ Hostname := "a.x.com", Service := "http://localhost:3000" }] Tunnel.catchAll
      "b.x.com" 3001 rfl (by decide)
    exact ⟨init2, h1, h2⟩⟩

/-- C19, as stated, fails for the empty hostname: RemoveRoute("") deletes the
rules without hostname, that is the catch-all, and the list no longer ends in
a catch-all rule. -/
theorem RemoveRoute_empty_hostname_removes_catch_all :
    Tunnel.ingressAfterRemove
        [{ Hostname := "a.x.com", Service := "http://localhost:3000" }, Tunnel.catchAll] "" =
      [{ Hostname := "a.x.com", Service := "http://localhost:3000" }] ∧
    Tunnel.catchAll ∉ Tunnel.ingressAfterRemove
        [{ Hostname := "a.x.com", Service := "http://localhost:3000" }, Tunnel.catchAll] "" ∧
    (Tunnel.Manager.RemoveRoute Tunnel.lineCodec
        { configPath := "/etc/tunnel.yml", credentialsFile := "", tunnelID := "" }
        none "").1.map (fun cfg => cfg.Ingress) = some [] := by
  decide

/-- C19, amended: for a rule list that ends in a catch-all rule and every
non-empty hostname h, RemoveRoute(h) deletes every rule whose hostname is h,
keeps all other rules in their original order, and keeps the catch-all: the
resulting list is the other rules before the catch-all, followed by the
catch-all. -/
theorem RemoveRoute_keeps_catch_all (init : List Tunnel.IngressRule) (c : Tunnel.IngressRule)
    (h : String) (hc : c.Hostname = "") (hne : h ≠ "") :
    Tunnel.ingressAfterRemove (init ++ [c]) h =
      init.filter (fun r => r.Hostname ≠ h) ++ [c] ∧
    (Tunnel.ingressAfterRemove (init ++ [c]) h).getLast? = some c ∧
    (∀ r ∈ Tunnel.ingressAfterRemove (init ++ [c]) h, r.Hostname ≠ h) ∧
    (∀ r ∈ init ++ [c], r.Hostname ≠ h → r ∈ Tunnel.ingressAfterRemove (init ++ [c]) h) ∧
    (Tunnel.ingressAfterRemove (init ++ [c]) h).Sublist (init ++ [c]) := by
  have hch : c.Hostname ≠ h := by rw [hc]; exact Ne.symm hne
  have hres : Tunnel.ingressAfterRemove (init ++ [c]) h =
      init.filter (fun r => r.Hostname ≠ h) ++ [c] := by
    unfold Tunnel.ingressAfterRemove
    rw [List.filter_append]
    congr 1
    simp [List.filter_cons, hch]
  refine ⟨hres, ?_, ?_, ?_, ?_⟩
  · rw [hres]; exact List.getLast?_concat _
  · intro r hr
    unfold Tunnel.ingressAfterRemove at hr
    simpa using (List.mem_filter.1 hr).2
  · intro r hr hrh
    unfold Tunnel.ingressAfterRemove
    rw [List.mem_filter]
    exact ⟨hr, by simpa using hrh⟩
  · unfold Tunnel.ingressAfterRemove
    exact List.filter_sublist _

/-- C19, amended, at a concrete input: the route a.x.com removed. -/
theorem RemoveRoute_keeps_catch_all_witness :
    Tunnel.catchAll.Hostname = "" ∧ ("a.x.com" : String) ≠ "" ∧
    Tunnel.ingressAfterRemove
        ([{ Hostname := "a.x.com", Service := "http://localhost:3000" },
          { Hostname := "b.x.com", Service := "http://localhost:3001" }] ++ [Tunnel.catchAll])
        "a.x.com" =
      ([{ Hostname := "a.x.com", Service := "http://localhost:3000" },
        { Hostname := "b.x.com", Service := "http://localhost:3001" }] :
          List Tunnel.IngressRule).filter (fun r => r.Hostname ≠ "a.x.com")
        ++ [Tunnel.catchAll] :=
  ⟨rfl, by decide,
    (RemoveRoute_keeps_catch_all
      [{ Hostname := "a.x.com", Service := "http://localhost:3000" },
       { Hostname := "b.x.com", Service := "http://localhost:3001" }] Tunnel.catchAll
      "a.x.com" rfl (by decide)).1⟩

/-! ## Release history (C20) -/

/-- The two outcomes of handleCreateRelease: an error that leaves the store
as it was, or 201 with the new release appended to the table. -/
theorem handleCreateRelease_cases {β : Type} (s : Store β) (name : String)
    (body : Option CreateReleaseRequest) :
    (∃ c m, handleCreateRelease s name body = (s, .error c m)) ∨
    (∃ r : Release, (handleCreateRelease s name body).2 = .json 201 r ∧
      (handleCreateRelease s name body).1.releases = s.releases ++ [r] ∧ r.AppName = name) := by
  cases hget : GetApp s name with
  | none => left; unfold handleCreateRelease; rw [hget]; exact ⟨_, _, rfl⟩
  | some a =>
    cases body with
    | none => left; unfold handleCreateRelease; rw [hget]; exact ⟨_, _, rfl⟩
    | some req =>
      by_cases himg : req.Image = ""
      · left; unfold handleCreateRelease; rw [hget]
        simp only [himg, if_true]
        exact ⟨_, _, rfl⟩
      · right
        obtain ⟨r, hr, hname, _⟩ :=
          handleCreateRelease_ok s name req (by rw [hget]; rfl) himg
        refine ⟨r, ?_, ?_, hname⟩
        · rw [hr]
        · rw [hr]; rfl

/-- The two outcomes of handleRollback: an error that leaves the store as it
was, or 201 with the new release appended to the table. -/
theorem handleRollback_cases {β : Type} (s : Store β) (name : String)
    (req : RollbackRequest) :
    (∃ c m, handleRollback s name req = (s, .error c m)) ∨
    (∃ r : Release, (handleRollback s name req).2 = .json 201 r ∧
      (handleRollback s name req).1.releases = s.releases ++ [r] ∧ r.AppName = name) := by
  cases hget : GetApp s name with
  | none => left; unfold handleRollback; rw [hget]; exact ⟨_, _, rfl⟩
  | some a =>
    cases ht : (if req.Version > 0 then GetRelease s name req.Version
        else if (ListReleases s name 2).length ≥ 2 then (ListReleases s name 2).get? 1
        else none) with
    | none =>
      left
      obtain ⟨h1, c, m, h2⟩ := handleRollback_no_target s name req ht
      exact ⟨c, m, Prod.ext h1 h2⟩
    | some t =>
      right
      obtain ⟨r, hr, hname, _⟩ :=
        handleRollback_with_target s name req t (by rw [hget]; rfl) ht
      refine ⟨r, ?_, ?_, hname⟩
      · rw [hr]
      · rw [hr]

/-- A release that GetRelease found is still found after a row is appended. -/
theorem GetRelease_append {β : Type} (s s2 : Store β) (r : Release)
    (h : s2.releases = s.releases ++ [r]) (a : String) (v : Int) (x : Release)
    (hx : GetRelease s a v = some x) : GetRelease s2 a v = some x := by
  unfold GetRelease at hx ⊢
  rw [h, List.find?_append, hx]
  rfl

/-- C20: deploy and rollback never rewrite release history.  handleCreateRelease
and handleRollback either answer with an error and leave the store as it was,
or answer 201 and the table of releases is the previous table, every row
unchanged in all fields and in its place, followed by exactly one new release
of the named app; every release GetRelease returned before is returned
unchanged afterwards. -/
theorem deploy_rollback_append_only {β : Type} (s : Store β) (name : String) :
    (∀ body : Option CreateReleaseRequest,
      (∃ c m, handleCreateRelease s name body = (s, .error c m)) ∨
      (∃ r : Release, (handleCreateRelease s name body).2 = .json 201 r ∧
        (handleCreateRelease s name body).1.releases = s.releases ++ [r] ∧
        r.AppName = name ∧
        (∀ x ∈ s.releases, x ∈ (handleCreateRelease s name body).1.releases) ∧
        (∀ a v x, GetRelease s a v = some x →
          GetRelease (handleCreateRelease s name body).1 a v = some x) ∧
        (∀ a, a ≠ name → releasesOf (handleCreateRelease s name body).1 a = releasesOf s a))) ∧
    (∀ req : RollbackRequest,
      (∃ c m, handleRollback s name req = (s, .error c m)) ∨
      (∃ r : Release, (handleRollback s name req).2 = .json 201 r ∧
        (handleRollback s name req).1.releases = s.releases ++ [r] ∧
        r.AppName = name ∧
        (∀ x ∈ s.releases, x ∈ (handleRollback s name req).1.releases) ∧
        (∀ a v x, GetRelease s a v = some x →
          GetRelease (handleRollback s name req).1 a v = some x) ∧
        (∀ a, a ≠ name → releasesOf (handleRollback s name req).1 a = releasesOf s a))) := by
  have hother : ∀ (s2 : Store β) (r : Release), s2.releases = s.releases ++ [r] →
      r.AppName = name → ∀ a, a ≠ name → releasesOf s2 a = releasesOf s a := by
    intro s2 r h hr a ha
    unfold releasesOf
    rw [h, List.filter_append]
    have : ([r] : List Release).filter (fun x => decide (x.AppName = a)) = [] := by
      simp [List.filter_cons, hr, Ne.symm ha]
    rw [this, List.append_nil]
  constructor
  · intro body
    rcases handleCreateRelease_cases s name body with herr | ⟨r, hresp, hrel, hname⟩
    · exact Or.inl herr
    · refine Or.inr ⟨r, hresp, hrel, hname, ?_, ?_, hother _ r hrel hname⟩
      · intro x hx
        rw [hrel]
        exact List.mem_append_left _ hx
      · intro a v x hx
        exact GetRelease_append s _ r hrel a v x hx
  · intro req
    rcases handleRollback_cases s name req with herr | ⟨r, hresp, hrel, hname⟩
    · exact Or.inl herr
    · refine Or.inr ⟨r, hresp, hrel, hname, ?_, ?_, hother _ r hrel hname⟩
      · intro x hx
        rw [hrel]
        exact List.mem_append_left _ hx
      · intro a v x hx
        exact GetRelease_append s _ r hrel a v x hx

/-! ## Status transitions (C21) -/

/-- GetRelease after UpdateReleaseStatus: the same row, with the new status
when it is the row named by the update. -/
theorem GetRelease_UpdateReleaseStatus {β : Type} (s : Store β) (app : String) (v : Int)
    (st : ReleaseStatus) (a : String) (w : Int) :
    GetRelease (UpdateReleaseStatus s app v st) a w =
      (GetRelease s a w).map (fun r =>
        if r.AppName = app ∧ r.Version = v then { r with Status := st } else r) := by
  unfold GetRelease UpdateReleaseStatus
  simp only [List.find?_map]
  congr 1
  congr 1
  funext r
  simp only [Function.comp]
  split <;> rfl

/-- C21, as stated, fails: release 1 of `web` is failed, a terminal status, and
UpdateReleaseStatus still moves it to active; it also moves a pending release
straight to rolled_back, and accepts a status outside the five constants. -/
theorem UpdateReleaseStatus_leaves_terminal_status :
    (GetRelease failedRelease "web" 1).map (fun r => r.Status) = some ReleaseStatusFailed ∧
    (GetRelease (UpdateReleaseStatus failedRelease "web" 1 ReleaseStatusActive) "web" 1).map
      (fun r => r.Status) = some ReleaseStatusActive ∧
    (GetRelease oneRelease "web" 1).map (fun r => r.Status) = some ReleaseStatusPending ∧
    (GetRelease (UpdateReleaseStatus oneRelease "web" 1 ReleaseStatusRolledBack) "web" 1).map
      (fun r => r.Status) = some ReleaseStatusRolledBack ∧
    (GetRelease (UpdateReleaseStatus oneRelease "web" 1 "archived") "web" 1).map
      (fun r => r.Status) = some "archived" := by
  decide

/-- C21, amended: UpdateReleaseStatus checks no transition.  For every release
that exists and every status value, whatever the current status of the release
(failed and rolled_back included), after UpdateReleaseStatus the release has
the given status and is otherwise unchanged. -/
theorem UpdateReleaseStatus_any_transition {β : Type} (s : Store β) (app : String) (v : Int)
    (st : ReleaseStatus) (r : Release) (h : GetRelease s app v = some r) :
    GetRelease (UpdateReleaseStatus s app v st) app v = some { r with Status := st } := by
  rw [GetRelease_UpdateReleaseStatus, h]
  have hr := List.find?_some h
  simp only [decide_eq_true_eq] at hr
  simp only [Option.map_some', hr, and_self, if_true]

/-- C21, amended, at a concrete input: a failed release is set to active. -/
theorem UpdateReleaseStatus_any_transition_witness :
    GetRelease failedRelease "web" 1 =
      some { AppName := "web", Version := 1, Image := "A", ConfigVersion := 0,
             Status := ReleaseStatusFailed, CreatedBy := "ci" } ∧
    GetRelease (UpdateReleaseStatus failedRelease "web" 1 ReleaseStatusActive) "web" 1 =
      some { ({ AppName := "web", Version := 1, Image := "A", ConfigVersion := 0,
                Status := ReleaseStatusFailed, CreatedBy := "ci" } : Release) with
             Status := ReleaseStatusActive } :=
  ⟨by decide,
    UpdateReleaseStatus_any_transition failedRelease "web" 1 ReleaseStatusActive _ (by decide)⟩

/-! ## Config version of a deploy (C22) -/

/-- C22: on an existing app, a deploy with an image answers 201 with a release
that is stored in the table, carries the requested image and creator, and
records as config version the version of the latest config snapshot of the
app at that moment (the highest snapshot version of the app), or 0 when the
app has no snapshot. -/
theorem handleCreateRelease_records_config_version {β : Type} (s : Store β) (name : String)
    (req : CreateReleaseRequest) (happ : (GetApp s name).isSome = true)
    (himg : req.Image ≠ "") :
    ∃ r : Release,
      (handleCreateRelease s name (some req)).2 = .json 201 r ∧
      r ∈ releasesOf (handleCreateRelease s name (some req)).1 name ∧
      r.Image = req.Image ∧ r.CreatedBy = req.CreatedBy ∧
      (configsOf s name = [] → r.ConfigVersion = 0) ∧
      (∀ cfg, GetLatestConfig s name = some cfg →
        r.ConfigVersion = cfg.Version ∧ cfg ∈ configsOf s name ∧
        ∀ c ∈ configsOf s name, c.Version ≤ r.ConfigVersion) := by
  obtain ⟨r, hr, hname, himage, hby, _, hcv, _⟩ := handleCreateRelease_ok s name req happ himg
  refine ⟨r, by rw [hr], ?_, himage, hby, ?_, ?_⟩
  · rw [hr, mem_releasesOf]
    simp [UpdateApp, hname]
  · intro hnil
    rw [(GetLatestConfig_none s name).2 hnil] at hcv
    exact hcv
  · intro cfg hcfg
    rw [hcfg] at hcv
    obtain ⟨hmem, hmax⟩ := GetLatestConfig_some s name cfg hcfg
    refine ⟨hcv, hmem, ?_⟩
    intro c hc
    rw [hcv]
    exact hmax c hc

/-- C22 at a concrete input: a deploy on the app whose latest config has
version 2. -/
theorem handleCreateRelease_records_config_version_witness :
    (GetApp xyConfig "web").isSome = true ∧
    (handleCreateRelease xyConfig "web" (some { Image := "A", CreatedBy := "ci" })).2 =
      .json 201 { AppName := "web", Version := 1, Image := "A", ConfigVersion := 2,
                  Status := ReleaseStatusPending, CreatedBy := "ci" } ∧
    (∃ r : Release,
      (handleCreateRelease xyConfig "web" (some { Image := "A", CreatedBy := "ci" })).2 =
        .json 201 r ∧
      r ∈ releasesOf (handleCreateRelease xyConfig "web"
        (some { Image := "A", CreatedBy := "ci" })).1 "web" ∧
      r.Image = "A" ∧ r.CreatedBy = "ci") :=
  ⟨by decide, by decide, by
    obtain ⟨r, h1, h2, h3, h4, _⟩ := handleCreateRelease_records_config_version xyConfig "web"
      { Image := "A", CreatedBy := "ci" } (by decide) (by decide)
    exact ⟨r, h1, h2, h3, h4⟩⟩

/-! ## RemoveRoute after AddRoute (C30) -/

/-- The rule list RemoveRoute computes from the one AddRoute computed, for a
rule list that ends in a catch-all rule and has no rule for the non-empty
hostname h: the original rule list. -/
theorem ingressAfterRemove_after_add (init : List Tunnel.IngressRule)
    (c : Tunnel.IngressRule) (h : String) (p : Int) (hc : c.Hostname = "") (hne : h ≠ "")
    (hno : ∀ r ∈ init ++ [c], r.Hostname ≠ h) :
    Tunnel.ingressAfterRemove (Tunnel.ingressAfterAdd (init ++ [c]) h p) h = init ++ [c] := by
  have hch : c.Hostname ≠ h := by rw [hc]; exact Ne.symm hne
  rw [ingressAfterAdd_absent init c h p hno]
  unfold Tunnel.ingressAfterRemove
  rw [List.filter_append]
  have hinit : init.filter (fun rule => decide (rule.Hostname ≠ h)) = init := by
    rw [List.filter_eq_self]
    intro r hr
    simpa using hno r (List.mem_append_left _ hr)
  rw [hinit]
  congr 1
  simp [List.filter_cons, hch]

/-- C30, as stated, fails: on a config file with the route a.x.com and the
catch-all, AddRoute for the hostname "\nb.x.com" (a line feed, then b.x.com)
succeeds and writes the file; RemoveRoute for that hostname cannot parse the
file AddRoute wrote, returns an error, and the file keeps the added rule: the
original rule list is not restored. -/
theorem RemoveRoute_after_AddRoute_fails :
    (Tunnel.Manager.AddRoute Tunnel.lineCodec Tunnel.sampleManager
      (some { Tunnel := "", CredentialsFile := "",
              Ingress := [{ Hostname := "a.x.com", Service := "http://localhost:3000" },
                          Tunnel.catchAll] }) "\nb.x.com" 3001).2 = none ∧
    (Tunnel.Manager.RemoveRoute Tunnel.lineCodec Tunnel.sampleManager
      (Tunnel.Manager.AddRoute Tunnel.lineCodec Tunnel.sampleManager
        (some { Tunnel := "", CredentialsFile := "",
                Ingress := [{ Hostname := "a.x.com", Service := "http://localhost:3000" },
                            Tunnel.catchAll] }) "\nb.x.com" 3001).1 "\nb.x.com").2 ≠ none ∧
    (Tunnel.Manager.RemoveRoute Tunnel.lineCodec Tunnel.sampleManager
      (Tunnel.Manager.AddRoute Tunnel.lineCodec Tunnel.sampleManager
        (some { Tunnel := "", CredentialsFile := "",
                Ingress := [{ Hostname := "a.x.com", Service := "http://localhost:3000" },
                            Tunnel.catchAll] }) "\nb.x.com" 3001).1 "\nb.x.com").1.map
        (fun cfg => cfg.Ingress) =
      some [{ Hostname := "a.x.com", Service := "http://localhost:3000" },
            { Hostname := "\nb.x.com", Service := "http://localhost:3001" },
            Tunnel.catchAll] := by
  decide

/-- C30, amended: for a config file that loads to a configuration cfg whose
rule list ends in a catch-all rule and has no rule for the non-empty hostname
h, and every port p: when the configurations serialise and the file written by
AddRoute(h, p) parses back to what was written, AddRoute(h, p) followed by
RemoveRoute(h) returns nil and leaves the file with the serialisation of cfg,
that is with exactly the original rule list; loading that file gives cfg again
when it parses back to what was written. -/
theorem RemoveRoute_undoes_AddRoute {β : Type} (codec : Tunnel.ConfigCodec β)
    (m : Tunnel.Manager) (file : Option β) (cfg : Tunnel.Config)
    (init : List Tunnel.IngressRule) (c : Tunnel.IngressRule) (h : String) (p : Int)
    (d1 d0 : β)
    (hload : m.Load codec file = .ok cfg) (hcfg : cfg.Ingress = init ++ [c])
    (hc : c.Hostname = "") (hne : h ≠ "") (hno : ∀ r ∈ init ++ [c], r.Hostname ≠ h)
    (hm1 : codec.marshal { cfg with Ingress := Tunnel.ingressAfterAdd cfg.Ingress h p } =
      .ok d1)
    (hu1 : codec.unmarshal d1 =
      .ok { cfg with Ingress := Tunnel.ingressAfterAdd cfg.Ingress h p })
    (hm0 : codec.marshal cfg = .ok d0) :
    m.RemoveRoute codec (m.AddRoute codec file h p).1 h = (some d0, none) ∧
    Tunnel.ingressAfterRemove (Tunnel.ingressAfterAdd cfg.Ingress h p) h = cfg.Ingress ∧
    (codec.unmarshal d0 = .ok cfg →
      m.Load codec (m.RemoveRoute codec (m.AddRoute codec file h p).1 h).1 = .ok cfg) := by
  have hlist : Tunnel.ingressAfterRemove (Tunnel.ingressAfterAdd cfg.Ingress h p) h =
      cfg.Ingress := by
    rw [hcfg]
    exact ingressAfterRemove_after_add init c h p hc hne hno
  have hfirst := AddRoute_ok codec m file cfg h p d1 hload hm1
  have hsecond : m.RemoveRoute codec (m.AddRoute codec file h p).1 h = (some d0, none) := by
    rw [hfirst]
    refine RemoveRoute_ok codec m (some d1) _ h d0 (Load_some codec m d1 _ hu1) ?_
    show codec.marshal (Tunnel.Config.mk cfg.Tunnel cfg.CredentialsFile
      (Tunnel.ingressAfterRemove (Tunnel.ingressAfterAdd cfg.Ingress h p) h)) = .ok d0
    rw [hlist]
    exact hm0
  refine ⟨hsecond, hlist, ?_⟩
  intro hu0
  rw [hsecond]
  exact Load_some codec m d0 cfg hu0

/-- C30, amended, at a concrete input: the route b.x.com added to and removed
from a file with the route a.x.com and the catch-all. -/
theorem RemoveRoute_undoes_AddRoute_witness :
    Tunnel.catchAll.Hostname = "" ∧ ("b.x.com" : String) ≠ "" ∧
    (∀ r ∈ [({ Hostname := "a.x.com", Service := "http://localhost:3000" } :
        Tunnel.IngressRule)] ++ [Tunnel.catchAll], r.Hostname ≠ "b.x.com") ∧
    Tunnel.Manager.RemoveRoute Tunnel.lineCodec Tunnel.sampleManager
      (Tunnel.Manager.AddRoute Tunnel.lineCodec Tunnel.sampleManager
        (some { Tunnel := "", CredentialsFile := "",
                Ingress := [{ Hostname := "a.x.com", Service := "http://localhost:3000" }] ++
                  [Tunnel.catchAll] }) "b.x.com" 3001).1 "b.x.com" =
      (some { Tunnel := "", CredentialsFile := "",
              Ingress := [{ Hostname := "a.x.com", Service := "http://localhost:3000" }] ++
                [Tunnel.catchAll] }, none) :=
  ⟨rfl, by decide, by decide,
    (RemoveRoute_undoes_AddRoute Tunnel.lineCodec Tunnel.sampleManager
      (some { Tunnel := "", CredentialsFile := "",
              Ingress := [{ Hostname := "a.x.com", Service := "http://localhost:3000" }] ++
                [Tunnel.catchAll] })
      { Tunnel := "", CredentialsFile := "",
        Ingress := [{ Hostname := "a.x.com", Service := "http://localhost:3000" }] ++
          [Tunnel.catchAll] }
      [{ Hostname := "a.x.com", Service := "http://localhost:3000" }] Tunnel.catchAll
      "b.x.com" 3001 _ _ rfl rfl rfl (by decide) (by decide) rfl rfl rfl).1⟩

/-! ## Domains (C23) -/

theorem GetDomain_isSome {β : Type} (s : Store β) (d : String) :
    (GetDomain s d).isSome = true ↔ d ∈ domainNames s := by
  unfold GetDomain domainNames
  rw [List.find?_isSome]
  simp only [decide_eq_true_eq, List.mem_map]

/-- The outcomes of handleAddDomain: an error with the store untouched, or one
pending row for the requested domain appended to table `domains`. -/
theorem handleAddDomain_cases {β : Type} (s : Store β) (name : String)
    (body : Option AddDomainRequest) :
    ((handleAddDomain s name body).1 = s ∧ ∃ c m, (handleAddDomain s name body).2 = .error c m) ∨
    (∃ req, body = some req ∧ req.Domain ≠ "" ∧ req.Domain ∉ domainNames s ∧
      (handleAddDomain s name body).1 =
        { s with domains := s.domains ++
          [{ Domain := req.Domain, AppName := name, Status := DomainStatusPending,
             CFRecordID := "" }] }) := by
  unfold handleAddDomain
  cases GetApp s name with
  | none => left; exact ⟨rfl, _, _, rfl⟩
  | some a =>
    cases body with
    | none => left; exact ⟨rfl, _, _, rfl⟩
    | some req =>
      by_cases hd : req.Domain = ""
      · left; dsimp only; rw [if_pos hd]; exact ⟨rfl, _, _, rfl⟩
      · dsimp only
        rw [if_neg hd]
        cases hg : GetDomain s req.Domain with
        | some d => left; exact ⟨rfl, _, _, rfl⟩
        | none =>
          have hnot : req.Domain ∉ domainNames s := by
            rw [← GetDomain_isSome, hg]; simp
          have hany : s.domains.any (fun d => decide (d.Domain = req.Domain)) = false := by
            rw [Bool.eq_false_iff]
            intro h
            rw [List.any_eq_true] at h
            obtain ⟨d, hd1, hd2⟩ := h
            simp only [decide_eq_true_eq] at hd2
            exact hnot (List.mem_map.2 ⟨d, hd1, hd2⟩)
          by_cases hfk : s.foreignKeys = true ∧ ¬ s.apps.any (fun r => r.name = name) = true
          · have hc : CreateDomain s (Domain.mk req.Domain name DomainStatusPending "") =
                .error "insert domain: FOREIGN KEY constraint failed" := by
              unfold CreateDomain
              simp only [hany, Bool.false_eq_true, if_false]
              rw [if_pos hfk]
            left
            rw [hc]
            exact ⟨rfl, _, _, rfl⟩
          · have hc : CreateDomain s (Domain.mk req.Domain name DomainStatusPending "") =
                .ok ({ s with domains := s.domains ++
                  [{ Domain := req.Domain, AppName := name, Status := DomainStatusPending,
                     CFRecordID := "" }] },
                  { Domain := req.Domain, AppName := name, Status := DomainStatusPending,
                     CFRecordID := "" }) := by
              unfold CreateDomain
              simp only [hany, Bool.false_eq_true, if_false]
              rw [if_neg hfk]
              rfl
            right
            rw [hc]
            exact ⟨req, rfl, hd, hnot, rfl⟩

theorem handleRemoveDomain_domains {β : Type} (s : Store β) (name domainName : String) :
    (handleRemoveDomain s name domainName).1.domains = s.domains ∨
    (handleRemoveDomain s name domainName).1.domains =
      s.domains.filter (fun d => d.Domain ≠ domainName) := by
  unfold handleRemoveDomain
  cases GetApp s name with
  | none => left; rfl
  | some a =>
    cases GetDomain s domainName with
    | none => left; rfl
    | some d =>
      by_cases hn : d.AppName ≠ name
      · left; dsimp only; rw [if_pos hn]
      · dsimp only
        rw [if_neg hn]
        unfold DeleteDomain
        by_cases h1 : s.domains.any (fun d => d.Domain = domainName) = true
        · right; simp only [h1, if_true]
        · left; simp only [h1, if_false, Bool.false_eq_true]

theorem handleDeleteApp_domains {β : Type} (s : Store β) (name : String) :
    (handleDeleteApp s name).1.domains = s.domains ∨
    (handleDeleteApp s name).1.domains = s.domains.filter (fun d => d.AppName ≠ name) := by
  unfold handleDeleteApp DeleteApp
  cases GetApp s name with
  | none => left; rfl
  | some a =>
    by_cases h1 : s.apps.any (fun r => r.name = name) = true
    · by_cases h2 : s.foreignKeys = true
      · right; simp only [h1, h2, if_true]
      · left; simp only [h1, h2, if_true, if_false, Bool.false_eq_true]
    · left; simp only [h1, if_false, Bool.false_eq_true]

theorem domainsOk_of_eq {β : Type} (s t : Store β) (h : t.domains = s.domains)
    (hs : s.domainsOk) : t.domainsOk := by
  unfold Store.domainsOk domainNames at *
  rw [h]; exact hs

theorem domainsOk_of_filter {β : Type} (s t : Store β) (p : Domain → Bool)
    (h : t.domains = s.domains.filter p) (hs : s.domainsOk) : t.domainsOk := by
  unfold Store.domainsOk domainNames at *
  rw [h]
  have hsub : List.Sublist ((s.domains.filter p).map (fun d => d.Domain))
      (s.domains.map (fun d => d.Domain)) :=
    List.Sublist.map _ (List.filter_sublist _)
  exact ⟨hs.1.sublist hsub, fun hmem => hs.2 (hsub.subset hmem)⟩

theorem domainsOk_step {β : Type} (cfg : PortConfig) (s : Store β) (op : DomainOp)
    (hs : s.domainsOk) : (domainStep cfg s op).domainsOk := by
  cases op with
  | createApp body =>
    refine domainsOk_of_eq s _ ?_ hs
    rcases handleCreateApp_cases cfg s body with ⟨h, _⟩ | ⟨_, _, _, _, _, _, _, _, _, _, _, h⟩
    · show (handleCreateApp cfg s body).1.domains = s.domains
      rw [h]
    · exact h
  | deleteApp name =>
    rcases handleDeleteApp_domains s name with h | h
    · exact domainsOk_of_eq s _ h hs
    · exact domainsOk_of_filter s _ _ h hs
  | addDomain name body =>
    rcases handleAddDomain_cases s name body with ⟨h, _⟩ | ⟨req, _, hne, hnot, h⟩
    · show (handleAddDomain s name body).1.domainsOk
      rw [h]; exact hs
    · show (handleAddDomain s name body).1.domainsOk
      rw [h]
      unfold Store.domainsOk domainNames at *
      simp only [List.map_append, List.map_cons, List.map_nil]
      constructor
      · rw [List.nodup_append]
        refine ⟨hs.1, List.nodup_singleton _, ?_⟩
        intro a ha hb
        rw [List.mem_singleton] at hb
        rw [hb] at ha
        exact hnot ha
      · intro hmem
        rw [List.mem_append, List.mem_singleton] at hmem
        rcases hmem with h1 | h1
        · exact hs.2 h1
        · exact hne h1.symm
  | removeDomain name domainName =>
    rcases handleRemoveDomain_domains s name domainName with h | h
    · exact domainsOk_of_eq s _ h hs
    · exact domainsOk_of_filter s _ _ h hs

theorem domainsOk_run {β : Type} (cfg : PortConfig) (ops : List DomainOp) (s : Store β)
    (hs : s.domainsOk) : (domainRun cfg s ops).domainsOk := by
  induction ops generalizing s with
  | nil => exact hs
  | cons op ops ih => exact ih _ (domainsOk_step cfg s op hs)

/-- C23: in every state reached from the empty store by a sequence of requests
(app creation and deletion, addDomain, removeDomain), no domain name is
registered twice, so two rows with the same name are the same row and name one
app; and addDomain of a registered hostname, for whatever app, leaves the store
unchanged: it answers 409 "domain already in use" when the named app exists,
and 404 when the named app does not exist. -/
theorem domain_belongs_to_one_app {β : Type} (cfg : PortConfig) (fk : Bool)
    (ops : List DomainOp) :
    (domainNames (domainRun cfg (emptyStore β fk) ops)).Nodup ∧
    (∀ d1 ∈ (domainRun cfg (emptyStore β fk) ops).domains,
      ∀ d2 ∈ (domainRun cfg (emptyStore β fk) ops).domains,
        d1.Domain = d2.Domain → d1 = d2 ∧ d1.AppName = d2.AppName) ∧
    (∀ (name : String) (req : AddDomainRequest),
      req.Domain ∈ domainNames (domainRun cfg (emptyStore β fk) ops) →
      (handleAddDomain (domainRun cfg (emptyStore β fk) ops) name (some req)).1 =
          domainRun cfg (emptyStore β fk) ops ∧
      ((GetApp (domainRun cfg (emptyStore β fk) ops) name).isSome = true →
        (handleAddDomain (domainRun cfg (emptyStore β fk) ops) name (some req)).2 =
          .error 409 "domain already in use") ∧
      ((GetApp (domainRun cfg (emptyStore β fk) ops) name).isSome = false →
        (handleAddDomain (domainRun cfg (emptyStore β fk) ops) name (some req)).2 =
          .error 404 "app not found")) := by
  have hok : (domainRun cfg (emptyStore β fk) ops).domainsOk :=
    domainsOk_run cfg ops _ ⟨List.nodup_nil, List.not_mem_nil _⟩
  generalize domainRun cfg (emptyStore β fk) ops = s at hok
  refine ⟨hok.1, ?_, ?_⟩
  · intro d1 h1 d2 h2 he
    have := List.inj_on_of_nodup_map hok.1 h1 h2 he
    exact ⟨this, by rw [this]⟩
  · intro name req hreg
    have hne : req.Domain ≠ "" := fun h => hok.2 (h ▸ hreg)
    have hsome := (GetDomain_isSome s req.Domain).2 hreg
    obtain ⟨d, hd⟩ := Option.isSome_iff_exists.1 hsome
    unfold handleAddDomain
    cases GetApp s name with
    | none => exact ⟨rfl, ⟨fun h => (by cases h), fun _ => rfl⟩⟩
    | some a =>
      dsimp only
      rw [if_neg hne, hd]
      exact ⟨rfl, ⟨fun _ => rfl, fun h => (by cases h)⟩⟩

/-- C23 at a concrete input: after `a.x.com` went to `web` and `b.x.com` to
`api`, adding `a.x.com` to `api` or again to `web` is a 409 and changes
nothing. -/
theorem domain_belongs_to_one_app_witness :
    domainNames (domainRun defaultPorts (emptyStore Unit true) twoDomains) =
      ["a.x.com", "b.x.com"] ∧
    handleAddDomain (domainRun defaultPorts (emptyStore Unit true) twoDomains) "api"
        (some { Domain := "a.x.com" }) =
      (domainRun defaultPorts (emptyStore Unit true) twoDomains,
        .error 409 "domain already in use") ∧
    handleAddDomain (domainRun defaultPorts (emptyStore Unit true) twoDomains) "web"
        (some { Domain := "a.x.com" }) =
      (domainRun defaultPorts (emptyStore Unit true) twoDomains,
        .error 409 "domain already in use") ∧
    (handleAddDomain (domainRun defaultPorts (emptyStore Unit true) twoDomains) "api"
        (some { Domain := "a.x.com" })).1 =
      domainRun defaultPorts (emptyStore Unit true) twoDomains :=
  ⟨by decide, by decide, by decide,
    ((@domain_belongs_to_one_app Unit defaultPorts true twoDomains).2.2 "api"
      { Domain := "a.x.com" } (by decide)).1⟩

/-! ## Container runtime client (C24, C25) -/

/-- C24, as stated, fails: when the runtime answers 404 (no such container),
StopContainer and RemoveContainer both return an error, while they return no
error on the answer 204. -/
theorem StopContainer_absent_is_error :
    Podman.StopContainer (Podman.answers 404) "web-1" 10 =
      .error "stop container returned 404" ∧
    Podman.RemoveContainer (Podman.answers 404) "web-1" true =
      .error "remove container returned 404" ∧
    Podman.StopContainer (Podman.answers 204) "web-1" 10 = .ok ∧
    Podman.RemoveContainer (Podman.answers 204) "web-1" true = .ok := by
  decide

/-- C24, amended: for every container name for which the request is built (the
URL with the name in it parses), StopContainer returns no error exactly when
the runtime answers 204 or 304 (stopped, or already stopped), and
RemoveContainer returns no error exactly when it answers 200 or 204; every
other answer, 404 for an absent container included, is returned as the error
"stop container returned <status>" or "remove container returned <status>".
For a name for which no request is built the call panics: the error of
`http.NewRequestWithContext` is dropped and the nil request is sent. -/
theorem StopContainer_accepted_statuses (http : Podman.Http) (name : String)
    (timeout : Int) (force : Bool) :
    (http.newRequest "POST" (Podman.stopURL name timeout) = true →
      (Podman.StopContainer http name timeout = .ok ↔
        (http.send "POST" (Podman.stopURL name timeout) = .ok 204 ∨
         http.send "POST" (Podman.stopURL name timeout) = .ok 304)) ∧
      (∀ code : Int, http.send "POST" (Podman.stopURL name timeout) = .ok code →
        code ≠ 204 → code ≠ 304 →
        Podman.StopContainer http name timeout =
          .error ("stop container returned " ++ toString code))) ∧
    (http.newRequest "DELETE" (Podman.removeURL name force) = true →
      (Podman.RemoveContainer http name force = .ok ↔
        (http.send "DELETE" (Podman.removeURL name force) = .ok 200 ∨
         http.send "DELETE" (Podman.removeURL name force) = .ok 204)) ∧
      (∀ code : Int, http.send "DELETE" (Podman.removeURL name force) = .ok code →
        code ≠ 200 → code ≠ 204 →
        Podman.RemoveContainer http name force =
          .error ("remove container returned " ++ toString code))) ∧
    (http.newRequest "POST" (Podman.stopURL name timeout) = false →
      Podman.StopContainer http name timeout = .panics) ∧
    (http.newRequest "DELETE" (Podman.removeURL name force) = false →
      Podman.RemoveContainer http name force = .panics) := by
  refine ⟨?_, ?_, ?_, ?_⟩
  · intro hreq
    unfold Podman.StopContainer
    rw [if_pos hreq]
    constructor
    · cases h : http.send "POST" (Podman.stopURL name timeout) with
      | error e => simp
      | ok code =>
        by_cases h1 : code = 204
        · simp [h1]
        · by_cases h2 : code = 304
          · simp [h2]
          · simp [h1, h2]
    · intro code h h1 h2
      rw [h]
      simp [h1, h2]
  · intro hreq
    unfold Podman.RemoveContainer
    rw [if_pos hreq]
    constructor
    · cases h : http.send "DELETE" (Podman.removeURL name force) with
      | error e => simp
      | ok code =>
        by_cases h1 : code = 200
        · simp [h1]
        · by_cases h2 : code = 204
          · simp [h2]
          · simp [h1, h2]
    · intro code h h1 h2
      rw [h]
      simp [h1, h2]
  · intro hreq
    unfold Podman.StopContainer
    rw [if_neg (by rw [hreq]; decide)]
  · intro hreq
    unfold Podman.RemoveContainer
    rw [if_neg (by rw [hreq]; decide)]

/-- C24, amended, at concrete inputs: the answers 304 and 404 to a stop, and a
name with a line feed in it. -/
theorem StopContainer_accepted_statuses_witness :
    (Podman.answers 304).newRequest "POST" (Podman.stopURL "web-1" 10) = true ∧
    Podman.StopContainer (Podman.answers 304) "web-1" 10 = .ok ∧
    Podman.StopContainer (Podman.answers 404) "web-1" 10 =
      .error ("stop container returned " ++ toString (404 : Int)) ∧
    (Podman.answers 204).newRequest "POST" (Podman.stopURL "web\n1" 10) = false ∧
    Podman.StopContainer (Podman.answers 204) "web\n1" 10 = .panics :=
  ⟨by decide,
   ((StopContainer_accepted_statuses (Podman.answers 304) "web-1" 10 true).1
     (by decide)).1.2 (Or.inr rfl),
   ((StopContainer_accepted_statuses (Podman.answers 404) "web-1" 10 true).1
     (by decide)).2 404 rfl (by decide) (by decide),
   by decide,
   (StopContainer_accepted_statuses (Podman.answers 204) "web\n1" 10 true).2.2.1 (by decide)⟩

/-- C25 fails in the code: when `podman` cannot be started, the run fails with
an error that is not an exit error, and Exec returns no error and exit code 0:
the very result of a run that succeeded and wrote nothing.  A non-zero exit is
reported with its code and the captured output. -/
theorem Exec_start_failure_looks_like_success :
    Podman.Exec Podman.cannotStart "web-1" ["ls"] =
      .ok { ExitCode := 0, Stdout := "", Stderr := "" } ∧
    Podman.Exec Podman.cannotStart "web-1" ["ls"] =
      Podman.Exec Podman.succeedsQuietly "web-1" ["ls"] ∧
    Podman.Exec (Podman.exitsWith 2 "ls: no such file") "web-1" ["ls"] =
      .ok { ExitCode := 2, Stdout := "", Stderr := "ls: no such file" } :=
  ⟨rfl, rfl, rfl⟩

/-! ## Unit generation (C26) -/

/-- The configuration Generate leaves behind does not depend on how rendering
and writing go: it is the input with the seven defaults filled in. -/
theorem Generate_config {σ : Type} (g : Systemd.Generator)
    (pathJoin : String → String → String)
    (writeFile : σ → String → String → Except String σ) (fs : σ) (cfg : Systemd.UnitConfig) :
    (Systemd.Generate g pathJoin writeFile fs cfg).1 =
      { cfg with
        ContainerPort := if cfg.ContainerPort = 0 then 3000 else cfg.ContainerPort,
        Memory := if cfg.Memory = "" then "512M" else cfg.Memory,
        CPU := if cfg.CPU = "" then "0.5" else cfg.CPU,
        User := if cfg.User = "" then "pvdify" else cfg.User,
        HealthCheckInterval :=
          if cfg.HealthCheckInterval = 0 then 30 else cfg.HealthCheckInterval,
        HealthCheckTimeout := if cfg.HealthCheckTimeout = 0 then 5 else cfg.HealthCheckTimeout,
        HealthCheckRetries :=
          if cfg.HealthCheckRetries = 0 then 3 else cfg.HealthCheckRetries } := by
  have hfst : ∀ c : Systemd.UnitConfig,
      (match g.tmpl c with
        | .error err => (c, fs, Except.error ("execute template: " ++ err))
        | .ok buf =>
          match writeFile fs (pathJoin g.unitDir (Systemd.unitFileName c.App c.Process)) buf with
          | .error err => (c, fs, Except.error ("write unit file: " ++ err))
          | .ok fs1 =>
            (c, fs1, Except.ok (pathJoin g.unitDir (Systemd.unitFileName c.App c.Process)))).1
        = c := by
    intro c
    cases g.tmpl c with
    | error e => rfl
    | ok buf =>
      dsimp only
      cases writeFile fs (pathJoin g.unitDir (Systemd.unitFileName c.App c.Process)) buf with
      | error e => rfl
      | ok fs1 => rfl
  unfold Systemd.Generate
  dsimp only
  rw [hfst]
  cases cfg with
  | mk a p i po cp m c co e u hp hi ht hr =>
    dsimp only
    by_cases h1 : cp = 0 <;> by_cases h2 : m = "" <;> by_cases h3 : c = "" <;>
    by_cases h4 : u = "" <;> by_cases h5 : hi = 0 <;> by_cases h6 : ht = 0 <;>
    by_cases h7 : hr = 0 <;> simp only [h1, h2, h3, h4, h5, h6, h7, if_true, if_false]

/-- The unit text is rendered from the configuration with the defaults filled
in, and the path returned is the unit file of the app process. -/
theorem Generate_result {σ : Type} (g : Systemd.Generator)
    (pathJoin : String → String → String)
    (writeFile : σ → String → String → Except String σ) (fs : σ) (cfg : Systemd.UnitConfig)
    (buf : String) (fs1 : σ)
    (hr : g.tmpl (Systemd.Generate g pathJoin writeFile fs cfg).1 = .ok buf)
    (hw : writeFile fs (pathJoin g.unitDir (Systemd.unitFileName cfg.App cfg.Process)) buf =
      .ok fs1) :
    (Systemd.Generate g pathJoin writeFile fs cfg).2 =
      (fs1, .ok (pathJoin g.unitDir (Systemd.unitFileName cfg.App cfg.Process))) := by
  have hgen : ∀ c : Systemd.UnitConfig,
      (match g.tmpl c with
        | .error err => (c, fs, Except.error ("execute template: " ++ err))
        | .ok buf =>
          match writeFile fs (pathJoin g.unitDir (Systemd.unitFileName c.App c.Process)) buf with
          | .error err => (c, fs, Except.error ("write unit file: " ++ err))
          | .ok fs1 =>
            (c, fs1, Except.ok (pathJoin g.unitDir (Systemd.unitFileName c.App c.Process))))
        = Systemd.Generate g pathJoin writeFile fs cfg →
      c = (Systemd.Generate g pathJoin writeFile fs cfg).1 := by
    intro c hc
    rw [← hc]
    cases g.tmpl c with
    | error e => rfl
    | ok buf =>
      dsimp only
      cases writeFile fs (pathJoin g.unitDir (Systemd.unitFileName c.App c.Process)) buf with
      | error e => rfl
      | ok fs1 => rfl
  have hcfg := Generate_config g pathJoin writeFile fs cfg
  have hApp : (Systemd.Generate g pathJoin writeFile fs cfg).1.App = cfg.App := by rw [hcfg]
  have hProc : (Systemd.Generate g pathJoin writeFile fs cfg).1.Process = cfg.Process := by
    rw [hcfg]
  have key : ∀ c : Systemd.UnitConfig,
      Systemd.Generate g pathJoin writeFile fs cfg =
      (match g.tmpl c with
        | .error err => (c, fs, Except.error ("execute template: " ++ err))
        | .ok buf =>
          match writeFile fs (pathJoin g.unitDir (Systemd.unitFileName c.App c.Process)) buf with
          | .error err => (c, fs, Except.error ("write unit file: " ++ err))
          | .ok fs1 =>
            (c, fs1, Except.ok (pathJoin g.unitDir (Systemd.unitFileName c.App c.Process)))) →
      (Systemd.Generate g pathJoin writeFile fs cfg).2 =
        (fs1, .ok (pathJoin g.unitDir (Systemd.unitFileName cfg.App cfg.Process))) := by
    intro c hc
    have hc1 := hgen c hc.symm
    rw [hc1, hr] at hc
    dsimp only at hc
    rw [hApp, hProc, hw] at hc
    rw [hc]
  exact key _ rfl

/-- C26: Generate leaves behind, and renders the unit from, the given
configuration with the container port set to 3000 exactly when it was 0,
memory set to "512M" exactly when it was empty and CPU set to "0.5" exactly
when it was empty; app, type, image, host port, command, env file and
health-check path are unchanged, as are a container port, memory and CPU the
caller set. -/
theorem Generate_fills_defaults {σ : Type} (g : Systemd.Generator)
    (pathJoin : String → String → String)
    (writeFile : σ → String → String → Except String σ) (fs : σ) (cfg : Systemd.UnitConfig) :
    (Systemd.Generate g pathJoin writeFile fs cfg).1.ContainerPort =
      (if cfg.ContainerPort = 0 then 3000 else cfg.ContainerPort) ∧
    (Systemd.Generate g pathJoin writeFile fs cfg).1.Memory =
      (if cfg.Memory = "" then "512M" else cfg.Memory) ∧
    (Systemd.Generate g pathJoin writeFile fs cfg).1.CPU =
      (if cfg.CPU = "" then "0.5" else cfg.CPU) ∧
    (Systemd.Generate g pathJoin writeFile fs cfg).1.App = cfg.App ∧
    (Systemd.Generate g pathJoin writeFile fs cfg).1.Process = cfg.Process ∧
    (Systemd.Generate g pathJoin writeFile fs cfg).1.Image = cfg.Image ∧
    (Systemd.Generate g pathJoin writeFile fs cfg).1.Port = cfg.Port ∧
    (Systemd.Generate g pathJoin writeFile fs cfg).1.Command = cfg.Command ∧
    (Systemd.Generate g pathJoin writeFile fs cfg).1.EnvFile = cfg.EnvFile ∧
    (Systemd.Generate g pathJoin writeFile fs cfg).1.HealthCheckPath = cfg.HealthCheckPath ∧
    (∀ (buf : String) (fs1 : σ),
      g.tmpl (Systemd.Generate g pathJoin writeFile fs cfg).1 = .ok buf →
      writeFile fs (pathJoin g.unitDir (Systemd.unitFileName cfg.App cfg.Process)) buf =
        .ok fs1 →
      (Systemd.Generate g pathJoin writeFile fs cfg).2 =
        (fs1, .ok (pathJoin g.unitDir (Systemd.unitFileName cfg.App cfg.Process)))) := by
  refine ⟨?_, ?_, ?_, ?_, ?_, ?_, ?_, ?_, ?_, ?_,
    fun buf fs1 hr hw => Generate_result g pathJoin writeFile fs cfg buf fs1 hr hw⟩
  all_goals rw [Generate_config g pathJoin writeFile fs cfg]

/-- C26 at concrete inputs: a configuration with nothing set gets 3000, "512M"
and "0.5", one with 8080, "1G" and "2" keeps them, and the unit written is
rendered from these values. -/
theorem Generate_fills_defaults_witness :
    (Systemd.Generate Systemd.sampleGenerator Systemd.joinPlain Systemd.recordWrite []
      Systemd.bareConfig).1.ContainerPort = 3000 ∧
    (Systemd.Generate Systemd.sampleGenerator Systemd.joinPlain Systemd.recordWrite []
      Systemd.bareConfig).1.Memory = "512M" ∧
    (Systemd.Generate Systemd.sampleGenerator Systemd.joinPlain Systemd.recordWrite []
      Systemd.bareConfig).1.CPU = "0.5" ∧
    (Systemd.Generate Systemd.sampleGenerator Systemd.joinPlain Systemd.recordWrite []
      Systemd.fullConfig).1.ContainerPort = 8080 ∧
    (Systemd.Generate Systemd.sampleGenerator Systemd.joinPlain Systemd.recordWrite []
      Systemd.fullConfig).1.Memory = "1G" ∧
    (Systemd.Generate Systemd.sampleGenerator Systemd.joinPlain Systemd.recordWrite []
      Systemd.fullConfig).1.CPU = "2" ∧
    (Systemd.Generate Systemd.sampleGenerator Systemd.joinPlain Systemd.recordWrite []
      Systemd.bareConfig).2 =
      ([("/etc/systemd/system/pvdify-web-worker@.service",
         "-p 3000:3000 --memory=512M --cpus=0.5 img:1")],
       .ok "/etc/systemd/system/pvdify-web-worker@.service") :=
  ⟨(Generate_fills_defaults Systemd.sampleGenerator Systemd.joinPlain Systemd.recordWrite []
      Systemd.bareConfig).1,
   (Generate_fills_defaults Systemd.sampleGenerator Systemd.joinPlain Systemd.recordWrite []
      Systemd.bareConfig).2.1,
   (Generate_fills_defaults Systemd.sampleGenerator Systemd.joinPlain Systemd.recordWrite []
      Systemd.bareConfig).2.2.1,
   (Generate_fills_defaults Systemd.sampleGenerator Systemd.joinPlain Systemd.recordWrite []
      Systemd.fullConfig).1,
   (Generate_fills_defaults Systemd.sampleGenerator Systemd.joinPlain Systemd.recordWrite []
      Systemd.fullConfig).2.1,
   (Generate_fills_defaults Systemd.sampleGenerator Systemd.joinPlain Systemd.recordWrite []
      Systemd.fullConfig).2.2.1,
   rfl⟩

/-! ## Instance names (C28) -/

theorem digitChar_isDigit (k : Nat) (h : k < 10) :
    (Nat.digitChar k).isDigit = true ∧ (Nat.digitChar k).toNat - 48 = k := by
  interval_cases k <;> exact ⟨by decide, by decide⟩

theorem toDigitsCore_all (fuel : Nat) : ∀ (n : Nat) (ds : List Char),
    (∀ c ∈ ds, c.isDigit = true) → ∀ c ∈ Nat.toDigitsCore 10 fuel n ds, c.isDigit = true := by
  induction fuel with
  | zero => intro n ds h; simpa [Nat.toDigitsCore] using h
  | succ fuel ih =>
    intro n ds h
    have hd := (digitChar_isDigit (n % 10) (Nat.mod_lt _ (by decide))).1
    have h2 : ∀ c ∈ Nat.digitChar (n % 10) :: ds, c.isDigit = true := by
      intro c hc
      rcases List.mem_cons.1 hc with rfl | hc
      · exact hd
      · exact h c hc
    unfold Nat.toDigitsCore
    dsimp only
    split
    · exact h2
    · exact ih _ _ h2

theorem toDigitsCore_ne_nil (fuel : Nat) : ∀ (n : Nat) (ds : List Char),
    (fuel = 0 → ds ≠ []) → Nat.toDigitsCore 10 fuel n ds ≠ [] := by
  induction fuel with
  | zero => intro n ds h; simpa [Nat.toDigitsCore] using h rfl
  | succ fuel ih =>
    intro n ds _
    unfold Nat.toDigitsCore
    dsimp only
    split
    · exact List.cons_ne_nil _ _
    · exact ih _ _ (fun _ => List.cons_ne_nil _ _)

theorem toDigitsCore_value (fuel : Nat) : ∀ (n : Nat) (ds : List Char), n < fuel →
    (Nat.toDigitsCore 10 fuel n ds).foldl (fun n ch => n * 10 + (ch.toNat - 48)) 0 =
      ds.foldl (fun n ch => n * 10 + (ch.toNat - 48)) n := by
  induction fuel with
  | zero => intro n ds h; omega
  | succ fuel ih =>
    intro n ds h
    have hd := (digitChar_isDigit (n % 10) (Nat.mod_lt _ (by decide))).2
    unfold Nat.toDigitsCore
    dsimp only
    split
    · rename_i h0
      rw [List.foldl_cons, hd]
      congr 1
      omega
    · rename_i h0
      rw [ih _ _ (by omega), List.foldl_cons, hd]
      congr 1
      omega

theorem Atoi_toDigits (n : Nat) (h : n < 2 ^ 63) :
    Systemd.Atoi (Nat.toDigits 10 n) = some (n : Int) := by
  have hall : ∀ c ∈ Nat.toDigits 10 n, c.isDigit = true :=
    toDigitsCore_all _ _ _ (fun c hc => absurd hc (List.not_mem_nil c))
  have hne : Nat.toDigits 10 n ≠ [] :=
    toDigitsCore_ne_nil _ _ _ (fun h => absurd h (Nat.succ_ne_zero n))
  have hval : (Nat.toDigits 10 n).foldl (fun n ch => n * 10 + (ch.toNat - 48)) 0 = n :=
    toDigitsCore_value _ _ _ (Nat.lt_succ_self n)
  obtain ⟨c, cs, hcs⟩ := List.exists_cons_of_ne_nil hne
  have hc : c.isDigit = true := hall c (by rw [hcs]; exact List.mem_cons_self _ _)
  have hminus : c ≠ '-' := by rintro rfl; exact absurd hc (by decide)
  have hplus : c ≠ '+' := by rintro rfl; exact absurd hc (by decide)
  have hhead : ¬ ((Nat.toDigits 10 n).head? = some '-' ∨ (Nat.toDigits 10 n).head? = some '+') := by
    rw [hcs]
    simp [hminus, hplus]
  have hneg : ¬ ((Nat.toDigits 10 n).head? = some '-') := fun h => hhead (Or.inl h)
  have hall2 : (Nat.toDigits 10 n).all Char.isDigit = true := List.all_eq_true.2 hall
  have hok : ¬ (Nat.toDigits 10 n = [] ∨ ¬ (Nat.toDigits 10 n).all Char.isDigit = true) := by
    rintro (h1 | h1)
    · exact hne h1
    · exact h1 hall2
  unfold Systemd.Atoi
  dsimp only
  rw [if_neg hhead, if_neg hok, if_neg hneg, hval, if_neg (by omega)]


theorem Index_at (sub : List Char) (rest : List Char) : ∀ pre : List Char,
    (∀ t, t ≠ [] → t <:+ pre → ¬ sub <+: t ++ (sub ++ rest)) →
    Systemd.Index (pre ++ (sub ++ rest)) sub = (pre.length : Int) := by
  intro pre
  induction pre with
  | nil =>
    intro _
    cases h : sub ++ rest with
    | nil =>
      have h1 := (List.append_eq_nil.1 h).1
      simp [Systemd.Index, h1]
    | cons c cs =>
      have hp : sub.isPrefixOf (c :: cs) = true := by
        rw [List.isPrefixOf_iff_prefix, ← h]
        exact List.prefix_append _ _
      simp [Systemd.Index, hp]
  | cons c pre ih =>
    intro hno
    have h0 : ¬ sub.isPrefixOf (c :: (pre ++ (sub ++ rest))) = true := by
      rw [List.isPrefixOf_iff_prefix]
      exact hno (c :: pre) (List.cons_ne_nil _ _) (List.suffix_refl _)
    have ih1 := ih (fun t ht hs => hno t ht (hs.trans (List.suffix_cons c pre)))
    show Systemd.Index (c :: (pre ++ (sub ++ rest))) sub = _
    unfold Systemd.Index
    rw [if_neg h0]
    dsimp only
    rw [ih1, if_neg (by omega)]
    simp

theorem head_of_prefix (a b : Char) (s t rest : List Char)
    (h : a :: s <+: (b :: t) ++ rest) : a = b := by
  rw [List.cons_append, List.cons_prefix_cons] at h
  exact h.1

/-- The name parsing on a name `u@<digits of n>.service` whose part `u` before
the instance holds no "@" and no ".service". -/
theorem parseInstance_digits (u : List Char) (n : Nat) (hat : '@' ∉ u)
    (hsvc : ¬ ".service".toList <:+: u) (hn : n < 2 ^ 63) :
    Systemd.parseInstance (u ++ '@' :: (Nat.toDigits 10 n ++ ".service".toList)) =
      some (n : Int) := by
  have hall : ∀ c ∈ Nat.toDigits 10 n, c.isDigit = true :=
    toDigitsCore_all _ _ _ (fun c hc => absurd hc (List.not_mem_nil c))
  have hAt : Systemd.Index (u ++ '@' :: (Nat.toDigits 10 n ++ ".service".toList)) ['@'] =
      (u.length : Int) := by
    have := Index_at ['@'] (Nat.toDigits 10 n ++ ".service".toList) u (by
      intro t ht hs hp
      obtain ⟨a, t1, rfl⟩ := List.exists_cons_of_ne_nil ht
      have ha := head_of_prefix _ _ _ _ _ hp
      exact hat (ha ▸ hs.subset (List.mem_cons_self _ _)))
    simpa using this
  have hDot : Systemd.Index (u ++ '@' :: (Nat.toDigits 10 n ++ ".service".toList))
      ".service".toList = ((u ++ '@' :: Nat.toDigits 10 n).length : Int) := by
    have := Index_at ".service".toList [] (u ++ '@' :: Nat.toDigits 10 n) (by
      intro t ht hs hp
      have hsmall : ∀ t1 : List Char, t1 ≠ [] → t1 <:+ '@' :: Nat.toDigits 10 n →
          ¬ ".service".toList <+: t1 ++ (".service".toList ++ []) := by
        intro t1 ht1 hs1 hp1
        obtain ⟨a, t2, rfl⟩ := List.exists_cons_of_ne_nil ht1
        have ha : '.' = a := head_of_prefix '.' a "service".toList t2 _ hp1
        have hmem : a ∈ '@' :: Nat.toDigits 10 n := hs1.subset (List.mem_cons_self _ _)
        rcases List.mem_cons.1 hmem with h1 | h1
        · rw [← ha] at h1; exact absurd h1 (by decide)
        · have := hall a h1
          rw [← ha] at this
          exact absurd this (by decide)
      obtain ⟨p, hp0⟩ := hs
      rcases List.append_eq_append_iff.1 hp0 with ⟨a1, hu, ht1⟩ | ⟨c1, _, hc⟩
      · by_cases ha1 : a1 = []
        · rw [ha1, List.nil_append] at ht1
          exact hsmall t ht (ht1 ▸ List.suffix_refl _) hp
        · have ha1u : a1 <:+ u := ⟨p, hu.symm⟩
          rw [ht1, List.append_assoc] at hp
          have hpre : a1 <+: a1 ++ ('@' :: Nat.toDigits 10 n ++ (".service".toList ++ [])) :=
            List.prefix_append _ _
          rcases List.prefix_or_prefix_of_prefix hp hpre with h1 | h1
          · exact hsvc (h1.isInfix.trans ha1u.isInfix)
          · obtain ⟨s1, hs1⟩ := h1
            rw [← hs1, List.prefix_append_right_inj] at hp
            cases s1 with
            | nil =>
              rw [List.append_nil] at hs1
              exact hsvc (hs1 ▸ ha1u.isInfix)
            | cons b s2 =>
              have hb : b = '@' := head_of_prefix b '@' s2 _ _ hp
              have hmem : '@' ∈ ".service".toList := by
                rw [← hs1, ← hb]
                exact List.mem_append_right _ (List.mem_cons_self _ _)
              exact absurd hmem (by decide)
      · exact hsmall t ht ⟨c1, hc.symm⟩ hp)
    simpa using this
  unfold Systemd.parseInstance
  dsimp only
  rw [hAt, hDot]
  have hcond : (u.length : Int) ≠ -1 ∧
      ((u ++ '@' :: Nat.toDigits 10 n).length : Int) > (u.length : Int) := by
    constructor
    · omega
    · simp only [List.length_append, List.length_cons]; push_cast; omega
  rw [if_pos hcond]
  have h1 : ((u ++ '@' :: Nat.toDigits 10 n).length : Int).toNat =
      (u ++ '@' :: Nat.toDigits 10 n).length := Int.toNat_natCast _
  have h2 : ((u.length : Int) + 1).toNat = u.length + 1 := by omega
  rw [h1, h2]
  have h3 : (u ++ '@' :: (Nat.toDigits 10 n ++ ".service".toList)) =
      (u ++ '@' :: Nat.toDigits 10 n) ++ ".service".toList := by simp
  rw [h3, List.take_left]
  have h4 : (u ++ '@' :: Nat.toDigits 10 n) = (u ++ ['@']) ++ Nat.toDigits 10 n := by simp
  have h5 : u.length + 1 = (u ++ ['@']).length := by simp
  rw [h4, h5, List.drop_left]
  exact Atoi_toDigits n hn

theorem listedName_toList (app process : String) (n : Nat) :
    (Systemd.listedName app process (n : Int)).toList =
      ("pvdify-" ++ app ++ "-" ++ process).toList ++
        '@' :: (Nat.toDigits 10 n ++ ".service".toList) := by
  unfold Systemd.listedName Systemd.instanceName
  simp only [String.toList, String.data_append]
  have : (toString (n : Int)).data = Nat.toDigits 10 n := rfl
  rw [this]
  simp

theorem filterMap_of_map_some {α γ : Type} (f : α → Option γ) (xs : List α) (ys : List γ)
    (h : xs.map f = ys.map some) : xs.filterMap f = ys := by
  induction xs generalizing ys with
  | nil =>
    cases ys with
    | nil => rfl
    | cons y ys => cases h
  | cons x xs ih =>
    cases ys with
    | nil => cases h
    | cons y ys =>
      simp only [List.map_cons, List.cons.injEq] at h
      rw [List.filterMap_cons, h.1, ih ys h.2]

theorem ListInstances_of_names (output : String) (names : List (List Char)) (idxs : List Int)
    (hf : (output.toList.splitOn '\n').filterMap (fun l => (Systemd.Fields l).head?) = names)
    (hp : names.map Systemd.parseInstance = idxs.map some) :
    Systemd.ListInstances output = idxs := by
  have hline : Systemd.lineInstance =
      fun l => ((fun l => (Systemd.Fields l).head?) l).bind Systemd.parseInstance := by
    funext l
    unfold Systemd.lineInstance
    dsimp only
    cases Systemd.Fields l <;> rfl
  unfold Systemd.ListInstances
  rw [hline, ← List.filterMap_filterMap, hf]
  exact filterMap_of_map_some _ _ _ hp

/-- C28, as stated, fails: for the app name `my.service` the first ".service"
of the unit name comes before the "@", and for the app name `a@b` the text
after the first "@" is not a number; in both cases the name parsing yields no
index, so instance 1 of these units is not reported, while instance 17 of app
`shop` is. -/
theorem parseInstance_misses_instance :
    Systemd.listedName "my.service" "web" 1 = "pvdify-my.service-web@1.service" ∧
    Systemd.parseInstance (Systemd.listedName "my.service" "web" 1).toList = none ∧
    Systemd.parseInstance (Systemd.listedName "a@b" "web" 1).toList = none ∧
    Systemd.ListInstances
      "pvdify-my.service-web@1.service loaded active running Pvdify my.service web\n" = [] ∧
    Systemd.parseInstance (Systemd.listedName "shop" "web" 17).toList = some 17 := by
  decide

/-- C28, amended: for every app name and process type whose base unit name
`pvdify-<app>-<type>` contains no "@" and no ".service", and every instance
index i with 1 ≤ i < 2^63, the name parsing recovers i from the listed name
`pvdify-<app>-<type>@<i>.service`; and whenever the first fields of the
non-blank lines of the supervisor output are the listed names of instances
i1, .., in of that unit, ListInstances returns exactly i1, .., in. -/
theorem parseInstance_recovers_index (app process : String)
    (hat : '@' ∉ ("pvdify-" ++ app ++ "-" ++ process).toList)
    (hsvc : ¬ ".service".toList <:+: ("pvdify-" ++ app ++ "-" ++ process).toList) :
    (∀ i : Int, 1 ≤ i → i < 2 ^ 63 →
      Systemd.parseInstance (Systemd.listedName app process i).toList = some i) ∧
    (∀ (output : String) (idxs : List Int), (∀ i ∈ idxs, 1 ≤ i ∧ i < 2 ^ 63) →
      (output.toList.splitOn '\n').filterMap (fun l => (Systemd.Fields l).head?) =
        idxs.map (fun i => (Systemd.listedName app process i).toList) →
      Systemd.ListInstances output = idxs) := by
  have hone : ∀ i : Int, 1 ≤ i → i < 2 ^ 63 →
      Systemd.parseInstance (Systemd.listedName app process i).toList = some i := by
    intro i h1 h2
    obtain ⟨n, rfl⟩ := Int.eq_ofNat_of_zero_le (le_trans (by decide) h1)
    rw [listedName_toList]
    exact parseInstance_digits _ n hat hsvc (by exact_mod_cast h2)
  refine ⟨hone, ?_⟩
  intro output idxs hidx hf
  refine ListInstances_of_names output _ idxs hf ?_
  rw [List.map_map]
  apply List.map_congr_left
  intro i hi
  exact hone i (hidx i hi).1 (hidx i hi).2

/-- C28, amended, at a concrete input: instances 1 and 12 of `web` of app
`shop`. -/
theorem parseInstance_recovers_index_witness :
    '@' ∉ ("pvdify-" ++ "shop" ++ "-" ++ "web").toList ∧
    ¬ ".service".toList <:+: ("pvdify-" ++ "shop" ++ "-" ++ "web").toList ∧
    Systemd.parseInstance "pvdify-shop-web@12.service".toList = some 12 ∧
    Systemd.ListInstances Systemd.twoUnitsOutput = [1, 12] :=
  ⟨by decide, by decide,
    (parseInstance_recovers_index "shop" "web" (by decide) (by decide)).1 12 (by decide)
      (by decide),
    (parseInstance_recovers_index "shop" "web" (by decide) (by decide)).2
      Systemd.twoUnitsOutput [1, 12] (by decide) (by decide)⟩

/-! ## The command `config:set` (C29) -/

/-- C29 fails in the code: `config:set web X=1` on the existing app `web` builds
the map with X = 1 and sends it as the request body; the daemon finds no `vars`
member in it, merges nothing, stores snapshot version 1 without X and answers
200, so the command reports success while the latest snapshot does not map X
to 1.  The same handler given the body with the member `vars` does set X. -/
theorem config_set_command_sets_nothing :
    Cli.parseConfigArgs ["X=1"] [] = .ok [("X", "1")] ∧
    (GetApp freshApp "web").isSome = true ∧
    (Cli.runSetConfig plainCodec freshApp "web" ["X=1"]).2 = .ok () ∧
    (GetLatestConfig (Cli.runSetConfig plainCodec freshApp "web" ["X=1"]).1 "web").map
      (fun cfg => cfg.Version) = some 1 ∧
    Cli.latestValue (Cli.runSetConfig plainCodec freshApp "web" ["X=1"]).1 "web" "X" = none ∧
    Cli.latestValue
      (handleSetConfig plainCodec freshApp "web" (some { Vars := [("X", "1")] })).1
      "web" "X" = some "1" :=
  ⟨rfl, rfl, rfl, rfl, rfl, rfl⟩

/-! ## Concurrent app creation (C27) -/

/-- The four statements of one request, run with nothing in between, are
handleCreateApp. -/
theorem stepCreateApp_alone {β : Type} (cfg : PortConfig) (s : Store β)
    (body : Option CreateAppRequest) :
    stepCreateApp cfg
      (stepCreateApp cfg
        (stepCreateApp cfg (stepCreateApp cfg s (.start body)).1
          (stepCreateApp cfg s (.start body)).2).1
        (stepCreateApp cfg (stepCreateApp cfg s (.start body)).1
          (stepCreateApp cfg s (.start body)).2).2).1
      (stepCreateApp cfg
        (stepCreateApp cfg (stepCreateApp cfg s (.start body)).1
          (stepCreateApp cfg s (.start body)).2).1
        (stepCreateApp cfg (stepCreateApp cfg s (.start body)).1
          (stepCreateApp cfg s (.start body)).2).2).2 =
      ((handleCreateApp cfg s body).1, .done (handleCreateApp cfg s body).2) := by
  cases body with
  | none => rfl
  | some req =>
    by_cases hname : req.Name = ""
    · simp only [stepCreateApp, handleCreateApp, hname, if_true]
    · cases hget : GetApp s req.Name with
      | some a => simp only [stepCreateApp, handleCreateApp, hname, if_false, hget]
      | none =>
        cases hport : AllocatePort s cfg.Start cfg.End with
        | error e => simp only [stepCreateApp, handleCreateApp, hname, if_false, hget, hport]
        | ok port =>
          cases hcreate : CreateApp s
              { Name := req.Name,
                Environment := if req.Environment = "" then "production" else req.Environment,
                Status := AppStatusCreated, Image := "", BindPort := port } with
          | error e =>
            simp only [stepCreateApp, handleCreateApp, hname, if_false, hget, hport, hcreate]
          | ok r =>
            obtain ⟨s1, app⟩ := r
            cases hup : UpsertProcess s1
                { AppName := app.Name, Name := "web", Command := "", Count := 1 } with
            | error e =>
              simp only [stepCreateApp, handleCreateApp, hname, if_false, hget, hport, hcreate,
                hup]
            | ok s2 =>
              simp only [stepCreateApp, handleCreateApp, hname, if_false, hget, hport, hcreate,
                hup]

/-- Under the serial schedule the run is two calls of handleCreateApp, one
after the other. -/
theorem interleave_serial {β : Type} (cfg : PortConfig) (s : Store β)
    (bodyA bodyB : Option CreateAppRequest) :
    interleave cfg s (.start bodyA) (.start bodyB) serialSchedule =
      ((handleCreateApp cfg (handleCreateApp cfg s bodyA).1 bodyB).1,
        .done (handleCreateApp cfg s bodyA).2,
        .done (handleCreateApp cfg (handleCreateApp cfg s bodyA).1 bodyB).2) := by
  have hA := stepCreateApp_alone cfg s bodyA
  have hB := stepCreateApp_alone cfg (handleCreateApp cfg s bodyA).1 bodyB
  simp only [serialSchedule, interleave]
  rw [hA]
  dsimp only
  rw [hB]

/-- One above a Go `int` is never that `int` again. -/
theorem wrapInt64_succ_ne (x : Int) : wrapInt64 (x + 1) ≠ x := by
  unfold wrapInt64
  omega

/-- Two creates in sequence do not hand out the same port when no app holds the
largest Go `int` as its port beforehand. -/
theorem sequential_ports_differ {β : Type} (cfg : PortConfig) (s : Store β)
    (bodyA bodyB : Option CreateAppRequest) (ca cb : Nat) (a b : App)
    (hs : s.portsBelowMax)
    (hA : (handleCreateApp cfg s bodyA).2 = .json ca a)
    (hB : (handleCreateApp cfg (handleCreateApp cfg s bodyA).1 bodyB).2 = .json cb b) :
    a.BindPort ≠ b.BindPort := by
  rcases handleCreateApp_cases cfg s bodyA with
    ⟨_, c0, m0, herr⟩ | ⟨reqA, portA, _, _, _, hportA, hrespA, happsA, _⟩
  · rw [herr] at hA; cases hA
  · rcases handleCreateApp_cases cfg (handleCreateApp cfg s bodyA).1 bodyB with
      ⟨_, c0, m0, herr⟩ | ⟨reqB, portB, _, _, _, hportB, hrespB, _⟩
    · rw [herr] at hB; cases hB
    · rw [hrespA] at hA
      rw [hrespB] at hB
      cases hA
      cases hB
      obtain ⟨hloA, _, hfreshA⟩ := AllocatePort_ok _ _ _ _ hs hportA
      have hports := assignedPorts_append s _ _ happsA
      simp only [Option.toList] at hports
      have hmem : portA ∈ assignedPorts (handleCreateApp cfg s bodyA).1 := by
        rw [hports]
        exact List.mem_append_right _ (List.mem_singleton.2 rfl)
      obtain ⟨q, hq, hok, herr⟩ :=
        AllocatePort_candidate (handleCreateApp cfg s bodyA).1 cfg.Start cfg.End
      have hqp : q = portB := by
        by_cases hle : q ≤ cfg.End
        · have := hok hle
          rw [hportB] at this
          cases this
          rfl
        · obtain ⟨e, he⟩ := herr (by omega)
          rw [hportB] at he
          cases he
      show portA ≠ portB
      rcases hq with ⟨m, hm, hmax, _, hqm⟩ | ⟨hall, _⟩
      · have hmA : m = portA := by
          have h1 := hmax portA hmem
          rw [hports, List.mem_append, List.mem_singleton] at hm
          rcases hm with hm | hm
          · have := hfreshA m hm
            omega
          · exact hm
        rw [← hqp, hqm, hmA]
        exact (wrapInt64_succ_ne portA).symm
      · have := hall portA hmem
        omega

/-- C27, as stated, fails: against the pool [3000, 3000] and an empty store,
two createApp requests for `a` and `b` whose statements interleave so that both
allocate before either inserts are both answered 201 with port 3000, and both
app rows hold port 3000. -/
theorem concurrent_creates_share_port :
    createdPort (interleave singlePort (emptyStore Unit true)
      (.start (some { Name := "a", Environment := "" }))
      (.start (some { Name := "b", Environment := "" })) racySchedule).2.1.response =
      some 3000 ∧
    createdPort (interleave singlePort (emptyStore Unit true)
      (.start (some { Name := "a", Environment := "" }))
      (.start (some { Name := "b", Environment := "" })) racySchedule).2.2.response =
      some 3000 ∧
    (interleave singlePort (emptyStore Unit true)
      (.start (some { Name := "a", Environment := "" }))
      (.start (some { Name := "b", Environment := "" })) racySchedule).1.apps =
      [{ name := "a", environment := "production", status := AppStatusCreated, image := "",
         bind_port := some 3000 },
       { name := "b", environment := "production", status := AppStatusCreated, image := "",
         bind_port := some 3000 }] := by
  decide

/-- C27, amended: the check, the allocation and the insert of handleCreateApp
are separate statements, atomic one by one only.  When one of two createApp
calls runs to its answer before the other starts, the run is two calls of
handleCreateApp in sequence; if the ports bound beforehand are 64-bit integers
below 2^63-1, two apps that are created receive different ports; and against
the pool [3000, 3000] on an empty store the first call with a name obtains port
3000 and the second is answered with an error.  (When both calls allocate
before either inserts, both receive the same port.) -/
theorem serial_creates_get_distinct_ports {β : Type} (cfg : PortConfig) (s : Store β)
    (bodyA bodyB : Option CreateAppRequest) :
    interleave cfg s (.start bodyA) (.start bodyB) serialSchedule =
      ((handleCreateApp cfg (handleCreateApp cfg s bodyA).1 bodyB).1,
        .done (handleCreateApp cfg s bodyA).2,
        .done (handleCreateApp cfg (handleCreateApp cfg s bodyA).1 bodyB).2) ∧
    (s.portsBelowMax → ∀ pa pb : Int,
      createdPort (interleave cfg s (.start bodyA) (.start bodyB)
        serialSchedule).2.1.response = some pa →
      createdPort (interleave cfg s (.start bodyA) (.start bodyB)
        serialSchedule).2.2.response = some pb →
      pa ≠ pb) ∧
    (∀ (fk : Bool) (reqA : CreateAppRequest), reqA.Name ≠ "" →
      createdPort (interleave singlePort (emptyStore β fk) (.start (some reqA)) (.start bodyB)
        serialSchedule).2.1.response = some 3000 ∧
      createdPort (interleave singlePort (emptyStore β fk) (.start (some reqA)) (.start bodyB)
        serialSchedule).2.2.response = none) := by
  have hdistinct : ∀ (cfg : PortConfig) (s : Store β) (bodyA bodyB : Option CreateAppRequest)
      (pa pb : Int), s.portsBelowMax →
      createdPort (interleave cfg s (.start bodyA) (.start bodyB)
        serialSchedule).2.1.response = some pa →
      createdPort (interleave cfg s (.start bodyA) (.start bodyB)
        serialSchedule).2.2.response = some pb →
      pa ≠ pb := by
    intro cfg s bodyA bodyB pa pb hs ha hb
    rw [interleave_serial] at ha hb
    simp only [CreateAppPhase.response] at ha hb
    cases hA : (handleCreateApp cfg s bodyA).2 with
    | error c m => rw [hA] at ha; cases ha
    | noContent c => rw [hA] at ha; cases ha
    | json ca a =>
      cases hB : (handleCreateApp cfg (handleCreateApp cfg s bodyA).1 bodyB).2 with
      | error c m => rw [hB] at hb; cases hb
      | noContent c => rw [hB] at hb; cases hb
      | json cb b =>
        rw [hA] at ha
        rw [hB] at hb
        simp only [createdPort, Option.some.injEq] at ha hb
        rw [← ha, ← hb]
        exact sequential_ports_differ cfg s bodyA bodyB ca cb a b hs hA hB
  refine ⟨interleave_serial cfg s bodyA bodyB,
    fun hs pa pb => hdistinct cfg s bodyA bodyB pa pb hs, ?_⟩
  intro fk reqA hname
  have hempty : (emptyStore β fk).portsBelowMax := by
    intro x hx
    exact absurd hx (List.not_mem_nil x)
  have hfirst : createdPort (interleave singlePort (emptyStore β fk) (.start (some reqA))
      (.start bodyB) serialSchedule).2.1.response = some 3000 := by
    rw [interleave_serial]
    simp only [CreateAppPhase.response]
    have h := (handleCreateApp_ok singlePort (emptyStore β fk) reqA 3000 hname rfl rfl).1
    rw [h]
    rfl
  refine ⟨hfirst, ?_⟩
  cases hsecond : createdPort (interleave singlePort (emptyStore β fk) (.start (some reqA))
      (.start bodyB) serialSchedule).2.2.response with
  | none => rfl
  | some pb =>
    exfalso
    have hne := hdistinct singlePort (emptyStore β fk) (some reqA) bodyB 3000 pb hempty
      hfirst hsecond
    rw [interleave_serial] at hsecond
    simp only [CreateAppPhase.response] at hsecond
    have happs := (handleCreateApp_ok singlePort (emptyStore β fk) reqA 3000 hname rfl rfl).2.1
    have hports := assignedPorts_append _ _ _ happs
    have hbelow : (handleCreateApp singlePort (emptyStore β fk) (some reqA)).1.portsBelowMax := by
      intro x hx
      rw [hports] at hx
      have hx3 : x = 3000 := by simpa [assignedPorts, emptyStore] using hx
      rw [hx3]
      decide
    cases hB : (handleCreateApp singlePort
        (handleCreateApp singlePort (emptyStore β fk) (some reqA)).1 bodyB).2 with
    | error c m => rw [hB] at hsecond; cases hsecond
    | noContent c => rw [hB] at hsecond; cases hsecond
    | json cb b =>
      rw [hB] at hsecond
      simp only [createdPort, Option.some.injEq] at hsecond
      rcases handleCreateApp_cases singlePort
          (handleCreateApp singlePort (emptyStore β fk) (some reqA)).1 bodyB with
        ⟨_, c0, m0, herr⟩ | ⟨reqB, portB, _, _, _, hportB, hrespB, _⟩
      · rw [herr] at hB; cases hB
      · rw [hrespB] at hB
        cases hB
        obtain ⟨hlo, hhi, _⟩ := AllocatePort_ok _ _ _ _ hbelow hportB
        have h1 : (3000 : Int) ≤ portB := hlo
        have h2 : portB ≤ (3000 : Int) := hhi
        have h3 : portB = pb := hsecond
        omega

/-- C27, amended, at a concrete input: the serial run of two creates against
the pool [3000, 3000]. -/
theorem serial_creates_get_distinct_ports_witness :
    createdPort (interleave singlePort (emptyStore Unit true)
      (.start (some { Name := "a", Environment := "" }))
      (.start (some { Name := "b", Environment := "" })) serialSchedule).2.1.response =
      some 3000 ∧
    createdPort (interleave singlePort (emptyStore Unit true)
      (.start (some { Name := "a", Environment := "" }))
      (.start (some { Name := "b", Environment := "" })) serialSchedule).2.2.response = none :=
  (@serial_creates_get_distinct_ports Unit singlePort (emptyStore Unit true)
    (some { Name := "a", Environment := "" })
    (some { Name := "b", Environment := "" })).2.2 true { Name := "a", Environment := "" }
    (by decide)

end Pvdify
